import Mathlib

/-!
# Medication-authorization chaincode (`mi.full`, `mi.test`)

A shallow embedding of `src/mi.full/prescriptions.go` and
`src/mi.test/prescriptions.go`, together with the two library layers the
chaincode runs on: the ledger stub (`GetState` / `PutState`) and Go's
`encoding/json` restricted to flat structs of `string` and `int` fields.

Go values are modelled as follows.

* `string` and `[]byte` are byte sequences (`Bytes`); a Go string is not
  required to be valid UTF-8.
* `int` is a Lean `Int`; Go's 64-bit range is the predicate `isInt64`.
* a `([]byte, error)` result is an `Outcome`; an index out of range is
  `Outcome.panic`.
* `fmt.Printf` only logs and is left out.
-/

namespace Chaincode

/-! ## Bytes and UTF-8 -/

/-- One octet. -/
abbrev Byte := Fin 256

/-- A Go `string` or `[]byte`. -/
abbrev Bytes := List Byte

/-- The octet with the given value (reduced modulo 256). -/
def byte (n : Nat) : Byte := Fin.ofNat n

/-- Go's `utf8.RuneError`, the replacement character U+FFFD. -/
def RuneError : Nat := 0xFFFD

/-- A UTF-8 continuation octet, `10xxxxxx`. -/
def isCont (b : Byte) : Bool := 0x80 ≤ b.val && b.val ≤ 0xBF

/-- Lowest second octet accepted after the lead octet `b0` (Go's
`acceptRanges`): `E0` needs `A0..`, `F0` needs `90..`. -/
def secondLo (b0 : Byte) : Nat :=
  if b0.val = 0xE0 then 0xA0 else if b0.val = 0xF0 then 0x90 else 0x80

/-- Highest second octet accepted after the lead octet `b0`: `ED` stops at
`9F` (no surrogates), `F4` stops at `8F` (no rune above U+10FFFF). -/
def secondHi (b0 : Byte) : Nat :=
  if b0.val = 0xED then 0x9F else if b0.val = 0xF4 then 0x8F else 0xBF

/-- Go's `utf8.DecodeRune`: the first rune of `p` and its width in octets.
An empty input gives `(RuneError, 0)`, an invalid or truncated encoding
`(RuneError, 1)`. -/
def decodeRune : Bytes → Nat × Nat
  | [] => (RuneError, 0)
  | b0 :: rest =>
    if b0.val < 0x80 then (b0.val, 1)
    else if b0.val < 0xC2 then (RuneError, 1)
    else if b0.val < 0xE0 then
      match rest with
      | b1 :: _ =>
        if isCont b1 then ((b0.val - 0xC0) * 64 + (b1.val - 0x80), 2)
        else (RuneError, 1)
      | [] => (RuneError, 1)
    else if b0.val < 0xF0 then
      match rest with
      | b1 :: b2 :: _ =>
        if secondLo b0 ≤ b1.val && b1.val ≤ secondHi b0 && isCont b2 then
          ((b0.val - 0xE0) * 4096 + (b1.val - 0x80) * 64 + (b2.val - 0x80), 3)
        else (RuneError, 1)
      | _ => (RuneError, 1)
    else if b0.val < 0xF5 then
      match rest with
      | b1 :: b2 :: b3 :: _ =>
        if secondLo b0 ≤ b1.val && b1.val ≤ secondHi b0 && isCont b2 && isCont b3 then
          ((b0.val - 0xF0) * 262144 + (b1.val - 0x80) * 4096
            + (b2.val - 0x80) * 64 + (b3.val - 0x80), 4)
        else (RuneError, 1)
      | _ => (RuneError, 1)
    else (RuneError, 1)

/-- Go's `utf8.EncodeRune` / `utf8.AppendRune`: surrogates and values above
U+10FFFF are written as U+FFFD. -/
def encodeRune (r : Nat) : Bytes :=
  if r < 0x80 then [byte r]
  else if r < 0x800 then [byte (0xC0 + r / 64), byte (0x80 + r % 64)]
  else if (0xD800 ≤ r ∧ r ≤ 0xDFFF) ∨ 0x10FFFF < r then [0xEF, 0xBF, 0xBD]
  else if r < 0x10000 then
    [byte (0xE0 + r / 4096), byte (0x80 + r / 64 % 64), byte (0x80 + r % 64)]
  else
    [byte (0xF0 + r / 262144), byte (0x80 + r / 4096 % 64),
      byte (0x80 + r / 64 % 64), byte (0x80 + r % 64)]

/-- The loop of Go's `utf8.Valid`; `fuel` bounds the number of runes. -/
def validLoop : Nat → Bytes → Bool
  | 0, _ => true
  | _ + 1, [] => true
  | fuel + 1, b :: rest =>
    let d := decodeRune (b :: rest)
    if d.1 = RuneError ∧ d.2 = 1 then false
    else validLoop fuel ((b :: rest).drop d.2)

/-- Go's `utf8.Valid` / `utf8.ValidString`. -/
def validUTF8 (s : Bytes) : Bool := validLoop s.length s

/-- The loop behind `coerceUTF8`: each rune is kept, each invalid octet
becomes U+FFFD (`EF BF BD`). -/
def coerceLoop : Nat → Bytes → Bytes
  | 0, _ => []
  | _ + 1, [] => []
  | fuel + 1, b :: rest =>
    let d := decodeRune (b :: rest)
    (if d.1 = RuneError ∧ d.2 = 1 then [0xEF, 0xBF, 0xBD] else (b :: rest).take d.2)
      ++ coerceLoop fuel ((b :: rest).drop d.2)

/-- The Go string "coerced to valid UTF-8" the way `encoding/json` does it:
every octet that is not part of a valid encoding is replaced by U+FFFD. -/
def coerceUTF8 (s : Bytes) : Bytes := coerceLoop s.length s

/-- A Go string literal of the source, as its UTF-8 octets. -/
def goString (s : String) : Bytes := (s.data.map fun c => encodeRune c.toNat).flatten

/-- The range of Go's `int` on the 64-bit platforms the chaincode runs on. -/
def isInt64 (i : Int) : Prop := -9223372036854775808 ≤ i ∧ i ≤ 9223372036854775807

instance (i : Int) : Decidable (isInt64 i) := by unfold isInt64; infer_instance

/-! ## `encoding/json`: writing -/

/-- Digit `n` of Go's `"0123456789abcdef"`. -/
def hexDigit (n : Nat) : Byte := if n < 10 then byte (0x30 + n) else byte (0x57 + n)

/-- Go's `htmlSafeSet`: the ASCII octets `json.Marshal` copies unchanged,
all of `0x20..0x7F` but `"`, `&`, `<`, `>` and `\`. -/
def htmlSafe (b : Byte) : Bool :=
  0x20 ≤ b.val && b.val < 0x80 && b.val != 0x22 && b.val != 0x26 && b.val != 0x3C
    && b.val != 0x3E && b.val != 0x5C

/-- What `encodeState.string` writes for an ASCII octet that is not in
`htmlSafeSet` (Go 1.8 to 1.21: only the backslash, the quote, line feed, carriage return and
tab have a short escape). -/
def escapeASCII (b : Byte) : Bytes :=
  if b.val = 0x5C ∨ b.val = 0x22 then [0x5C, b]
  else if b.val = 0x0A then [0x5C, 0x6E]
  else if b.val = 0x0D then [0x5C, 0x72]
  else if b.val = 0x09 then [0x5C, 0x74]
  else [0x5C, 0x75, 0x30, 0x30, hexDigit (b.val / 16), hexDigit (b.val % 16)]

/-- The loop of `encodeState.string` (with HTML escaping, as `json.Marshal`
sets it): the text between the quotes. Invalid UTF-8 is written as the
escape `\ufffd`, U+2028 and U+2029 as `\u2028` and `\u2029`. -/
def escapeLoop : Nat → Bytes → Bytes
  | 0, _ => []
  | _ + 1, [] => []
  | fuel + 1, b :: rest =>
    if b.val < 0x80 then
      (if htmlSafe b then [b] else escapeASCII b) ++ escapeLoop fuel rest
    else
      let d := decodeRune (b :: rest)
      if d.1 = RuneError ∧ d.2 = 1 then
        [0x5C, 0x75, 0x66, 0x66, 0x66, 0x64] ++ escapeLoop fuel rest
      else if d.1 = 0x2028 ∨ d.1 = 0x2029 then
        [0x5C, 0x75, 0x32, 0x30, 0x32, hexDigit (d.1 % 16)]
          ++ escapeLoop fuel ((b :: rest).drop d.2)
      else (b :: rest).take d.2 ++ escapeLoop fuel ((b :: rest).drop d.2)

/-- What one turn of the loop of `encodeState.string` writes: the text for
the first rune (or first invalid octet) of `b :: t`. -/
def escapeChunk (b : Byte) (t : Bytes) : Bytes :=
  if b.val < 0x80 then (if htmlSafe b then [b] else escapeASCII b)
  else if (decodeRune (b :: t)).1 = RuneError ∧ (decodeRune (b :: t)).2 = 1 then
    [0x5C, 0x75, 0x66, 0x66, 0x66, 0x64]
  else if (decodeRune (b :: t)).1 = 0x2028 ∨ (decodeRune (b :: t)).1 = 0x2029 then
    [0x5C, 0x75, 0x32, 0x30, 0x32, hexDigit ((decodeRune (b :: t)).1 % 16)]
  else (b :: t).take (decodeRune (b :: t)).2

/-- The JSON text `json.Marshal` writes for a Go string, quotes included. -/
def encodeString (s : Bytes) : Bytes := 0x22 :: (escapeLoop s.length s ++ [0x22])

/-- Decimal digits of `n`, most significant first, in front of `acc`. -/
def decimalLoop : Nat → Nat → Bytes → Bytes
  | 0, _, acc => acc
  | fuel + 1, n, acc =>
    if n < 10 then byte (0x30 + n) :: acc
    else decimalLoop fuel (n / 10) (byte (0x30 + n % 10) :: acc)

/-- Go's `strconv.FormatInt(i, 10)`. -/
def formatInt (i : Int) : Bytes :=
  if i < 0 then 0x2D :: decimalLoop (i.natAbs + 1) i.natAbs []
  else decimalLoop (i.natAbs + 1) i.natAbs []

/-! ## `encoding/json`: reading -/

/-- JSON white space: space, tab, carriage return, line feed. -/
def isSpace (b : Byte) : Bool :=
  b.val = 0x20 || b.val = 0x09 || b.val = 0x0D || b.val = 0x0A

/-- Drop leading JSON white space. -/
def skipSpace : Bytes → Bytes
  | [] => []
  | b :: rest => if isSpace b then skipSpace rest else b :: rest

/-- Value of a hexadecimal digit, in either case. -/
def hexVal (b : Byte) : Option Nat :=
  if 0x30 ≤ b.val ∧ b.val ≤ 0x39 then some (b.val - 0x30)
  else if 0x61 ≤ b.val ∧ b.val ≤ 0x66 then some (b.val - 0x57)
  else if 0x41 ≤ b.val ∧ b.val ≤ 0x46 then some (b.val - 0x37)
  else none

/-- Go's `getu4`: the code unit of a leading `\uXXXX`, if there is one. -/
def getu4 : Bytes → Option Nat
  | b0 :: b1 :: h1 :: h2 :: h3 :: h4 :: _ =>
    if b0.val = 0x5C ∧ b1.val = 0x75 then
      match hexVal h1, hexVal h2, hexVal h3, hexVal h4 with
      | some a, some b, some c, some d => some (a * 4096 + b * 256 + c * 16 + d)
      | _, _, _, _ => none
    else none
  | _ => none

/-- Go's `utf16.DecodeRune` on a high and a low code unit; `none` stands for
the replacement character it returns for anything but a surrogate pair. -/
def decodeSurrogates (r1 r2 : Nat) : Option Nat :=
  if 0xD800 ≤ r1 ∧ r1 < 0xDC00 ∧ 0xDC00 ≤ r2 ∧ r2 < 0xE000 then
    some ((r1 - 0xD800) * 1024 + (r2 - 0xDC00) + 0x10000)
  else none

/-- The octet a one-letter escape stands for: `\"`, `\\`, `\/`, `\b`, `\f`,
`\n`, `\r`, `\t`. -/
def simpleEscape (e : Byte) : Option Byte :=
  if e.val = 0x22 ∨ e.val = 0x5C ∨ e.val = 0x2F then some e
  else if e.val = 0x62 then some 0x08
  else if e.val = 0x66 then some 0x0C
  else if e.val = 0x6E then some 0x0A
  else if e.val = 0x72 then some 0x0D
  else if e.val = 0x74 then some 0x09
  else none

/-- A JSON string literal from just after its opening quote: the scanner's
string states together with Go's `unquote`. Gives the decoded Go string and
the input after the closing quote. Control characters and bad escapes are
syntax errors; invalid UTF-8 is coerced to U+FFFD, as is an unpaired
surrogate escape. -/
def unquoteLoop : Nat → Bytes → Option (Bytes × Bytes)
  | 0, _ => none
  | _ + 1, [] => none
  | fuel + 1, c :: rest =>
    if c.val = 0x22 then some ([], rest)
    else if c.val = 0x5C then
      match rest with
      | [] => none
      | e :: rest1 =>
        if e.val = 0x75 then
          match getu4 (c :: rest) with
          | none => none
          | some rr =>
            let after := rest1.drop 4
            if 0xD800 ≤ rr ∧ rr < 0xE000 then
              match (getu4 after).bind (decodeSurrogates rr) with
              | some dec =>
                (unquoteLoop fuel (after.drop 6)).map fun p => (encodeRune dec ++ p.1, p.2)
              | none =>
                (unquoteLoop fuel after).map fun p => (encodeRune RuneError ++ p.1, p.2)
            else (unquoteLoop fuel after).map fun p => (encodeRune rr ++ p.1, p.2)
        else
          match simpleEscape e with
          | none => none
          | some b => (unquoteLoop fuel rest1).map fun p => (b :: p.1, p.2)
    else if c.val < 0x20 then none
    else if c.val < 0x80 then (unquoteLoop fuel rest).map fun p => (c :: p.1, p.2)
    else
      let d := decodeRune (c :: rest)
      (unquoteLoop fuel ((c :: rest).drop d.2)).map fun p => (encodeRune d.1 ++ p.1, p.2)

/-- A JSON string literal from just after its opening quote. -/
def unquote (s : Bytes) : Option (Bytes × Bytes) := unquoteLoop s.length s

/-- An ASCII decimal digit. -/
def isDigit (b : Byte) : Bool := 0x30 ≤ b.val && b.val ≤ 0x39

/-- The leading decimal digits of the input, and what follows them. -/
def spanDigits : Bytes → Bytes × Bytes
  | [] => ([], [])
  | b :: rest =>
    if isDigit b then ((spanDigits rest).1.cons b, (spanDigits rest).2) else ([], b :: rest)

/-- The integer part of a JSON number: `0`, or a nonzero digit and more
digits. -/
def scanIntPart : Bytes → Option (Bytes × Bytes)
  | [] => none
  | b :: rest =>
    if b.val = 0x30 then some ([b], rest)
    else if isDigit b then some (b :: (spanDigits rest).1, (spanDigits rest).2)
    else none

/-- The optional fraction of a JSON number: `.` and at least one digit. -/
def scanFraction : Bytes → Option (Bytes × Bytes)
  | [] => some ([], [])
  | b :: rest =>
    if b.val = 0x2E then
      (if (spanDigits rest).1 = [] then none
       else some (b :: (spanDigits rest).1, (spanDigits rest).2))
    else some ([], b :: rest)

/-- The optional exponent of a JSON number: `e` or `E`, an optional sign, and
at least one digit. -/
def scanExponent : Bytes → Option (Bytes × Bytes)
  | [] => some ([], [])
  | b :: rest =>
    if b.val = 0x65 ∨ b.val = 0x45 then
      match rest with
      | [] => none
      | s :: rest1 =>
        if s.val = 0x2B ∨ s.val = 0x2D then
          (if (spanDigits rest1).1 = [] then none
           else some (b :: s :: (spanDigits rest1).1, (spanDigits rest1).2))
        else
          (if (spanDigits rest).1 = [] then none
           else some (b :: (spanDigits rest).1, (spanDigits rest).2))
    else some ([], b :: rest)

/-- A JSON number literal at the head of the input: its text and the rest. -/
def scanNumber (s : Bytes) : Option (Bytes × Bytes) :=
  let sign : Bytes × Bytes :=
    match s with
    | b :: rest => if b.val = 0x2D then ([b], rest) else ([], s)
    | [] => ([], [])
  match scanIntPart sign.2 with
  | none => none
  | some (ip, r1) =>
    match scanFraction r1 with
    | none => none
    | some (fp, r2) =>
      match scanExponent r2 with
      | none => none
      | some (ep, r3) => some (sign.1 ++ ip ++ fp ++ ep, r3)

/-- The input after the given literal text, if it starts with it. -/
def stripLiteral : Bytes → Bytes → Option Bytes
  | [], s => some s
  | _ :: _, [] => none
  | l :: ls, b :: rest => if l = b then stripLiteral ls rest else none

/-- What the decoder sees of a JSON value that is to be stored in a field of
type `string` or `int`: a literal with its content, or the bare fact that it
is an array or an object (whose content is checked and skipped). -/
inductive JTok where
  | null
  | bool (b : Bool)
  | number (lit : Bytes)
  | string (s : Bytes)
  | array
  | object
  deriving DecidableEq, Repr

mutual

/-- One JSON value at the head of the input (no leading white space), and the
input after it. `fuel` bounds the nesting and the number of members. -/
def scanValue : Nat → Bytes → Option (JTok × Bytes)
  | 0, _ => none
  | _ + 1, [] => none
  | fuel + 1, b :: rest =>
    if b.val = 0x7B then
      (scanMembers fuel (skipSpace rest) true).map fun p => (JTok.object, p.2)
    else if b.val = 0x5B then
      (scanElements fuel (skipSpace rest) true).map fun r => (JTok.array, r)
    else if b.val = 0x22 then (unquote rest).map fun p => (JTok.string p.1, p.2)
    else if b.val = 0x74 then
      (stripLiteral [0x72, 0x75, 0x65] rest).map fun r => (JTok.bool true, r)
    else if b.val = 0x66 then
      (stripLiteral [0x61, 0x6C, 0x73, 0x65] rest).map fun r => (JTok.bool false, r)
    else if b.val = 0x6E then
      (stripLiteral [0x75, 0x6C, 0x6C] rest).map fun r => (JTok.null, r)
    else if b.val = 0x2D ∨ isDigit b then
      (scanNumber (b :: rest)).map fun p => (JTok.number p.1, p.2)
    else none

/-- The elements of an array from after `[` (when `first`) or after a `,`,
white space skipped: the input after the closing `]`. -/
def scanElements : Nat → Bytes → Bool → Option Bytes
  | 0, _, _ => none
  | _ + 1, [], _ => none
  | fuel + 1, b :: rest, first =>
    if first ∧ b.val = 0x5D then some rest
    else
      match scanValue fuel (b :: rest) with
      | none => none
      | some (_, r) =>
        match skipSpace r with
        | c :: r1 =>
          if c.val = 0x2C then scanElements fuel (skipSpace r1) false
          else if c.val = 0x5D then some r1
          else none
        | [] => none

/-- The members of an object from after `{` (when `first`) or after a `,`,
white space skipped: the keys, unquoted, with their values in the order of
the text, and the input after the closing `}`. -/
def scanMembers : Nat → Bytes → Bool → Option (List (Bytes × JTok) × Bytes)
  | 0, _, _ => none
  | _ + 1, [], _ => none
  | fuel + 1, b :: rest, first =>
    if first ∧ b.val = 0x7D then some ([], rest)
    else if b.val = 0x22 then
      match unquote rest with
      | none => none
      | some (key, r) =>
        match skipSpace r with
        | c :: r1 =>
          if c.val = 0x3A then
            match scanValue fuel (skipSpace r1) with
            | none => none
            | some (tok, r2) =>
              match skipSpace r2 with
              | d :: r3 =>
                if d.val = 0x2C then
                  (scanMembers fuel (skipSpace r3) false).map fun p => ((key, tok) :: p.1, p.2)
                else if d.val = 0x7D then some ([(key, tok)], r3)
                else none
              | [] => none
          else none
        | [] => none
    else none

end

/-- A complete JSON text, as `json.Unmarshal` sees it once `checkValid` has
accepted it. -/
inductive JTop where
  | object (members : List (Bytes × JTok))
  | other (tok : JTok)
  deriving DecidableEq, Repr

/-- Go's `checkValid` and the decoder's walk over the text: one JSON value
between optional white space and nothing else; `none` is a syntax error. -/
def scanTop (data : Bytes) : Option JTop :=
  match skipSpace data with
  | [] => none
  | b :: rest =>
    if b.val = 0x7B then
      match scanMembers data.length (skipSpace rest) true with
      | some (ms, r) => if skipSpace r = [] then some (JTop.object ms) else none
      | none => none
    else
      match scanValue data.length (b :: rest) with
      | some (tok, r) => if skipSpace r = [] then some (JTop.other tok) else none
      | none => none

/-- The value of a run of decimal digits read after the value `acc`; `none`
when some octet is not a digit. -/
def digitsValue : Bytes → Nat → Option Nat
  | [], acc => some acc
  | b :: rest, acc => if isDigit b then digitsValue rest (acc * 10 + (b.val - 0x30)) else none

/-- Go's `strconv.ParseInt(s, 10, 64)`: an optional sign and decimal digits,
within the range of `int64`; `none` for a syntax or a range error. -/
def parseInt (s : Bytes) : Option Int :=
  let split : Bool × Bytes :=
    match s with
    | b :: rest =>
      if b.val = 0x2D then (true, rest) else if b.val = 0x2B then (false, rest) else (false, s)
    | [] => (false, [])
  if split.2 = [] then none
  else
    match digitsValue split.2 0 with
    | none => none
    | some n =>
      let i : Int := if split.1 then -(n : Int) else (n : Int)
      if isInt64 i then some i else none

/-- The case-folded form under which the decoder compares an object key with
a field name when no field has exactly that name (Go's `foldName`): ASCII
letters in upper case, and the two non-ASCII runes that fold to an ASCII
letter, U+017F (long s) to `S` and U+212A (Kelvin sign) to `K`. -/
def foldLoop : Nat → Bytes → Bytes
  | 0, _ => []
  | _ + 1, [] => []
  | fuel + 1, b :: rest =>
    if 0x61 ≤ b.val ∧ b.val ≤ 0x7A then byte (b.val - 0x20) :: foldLoop fuel rest
    else if b.val = 0xC5 ∧ rest.take 1 = [0xBF] then 0x53 :: foldLoop fuel (rest.drop 1)
    else if b.val = 0xE2 ∧ rest.take 2 = [0x84, 0xAA] then 0x4B :: foldLoop fuel (rest.drop 2)
    else b :: foldLoop fuel rest

/-- The case-folded form of an object key or field name. -/
def foldName (s : Bytes) : Bytes := foldLoop s.length s

/-- Index of the first element of the list that satisfies `p`. -/
def findIndex (p : Bytes → Bool) : List Bytes → Option Nat
  | [] => none
  | n :: ns => if p n then some 0 else (findIndex p ns).map (· + 1)

/-- The struct field an object key is stored in: the field with exactly that
JSON name, otherwise the first field whose name equals the key under case
folding; a key that matches no field is skipped. -/
def findField (names : List Bytes) (key : Bytes) : Option Nat :=
  match findIndex (fun n => n = key) names with
  | some i => some i
  | none => findIndex (fun n => foldName n = foldName key) names

/-- Storing a JSON value in a field of type `string`: a string sets it,
`null` leaves it, anything else is an `UnmarshalTypeError`. -/
def storeString (t : JTok) (old : Bytes) : Option Bytes :=
  match t with
  | JTok.string s => some s
  | JTok.null => some old
  | _ => none

/-- Storing a JSON value in a field of type `int`: a number that
`strconv.ParseInt` accepts sets it, `null` leaves it, anything else (a
fraction, an exponent, an overflow, another kind of value) is an
`UnmarshalTypeError`. -/
def storeInt (t : JTok) (old : Int) : Option Int :=
  match t with
  | JTok.number lit => parseInt lit
  | JTok.null => some old
  | _ => none

/-- The decoder's walk over the members of an object, for a struct with the
given JSON field names and field setter. A type error is recorded by the
decoder and returned at the end, so the call fails: `none`. -/
def decodeMembers {α : Type} (names : List Bytes) (store : α → Nat → JTok → Option α) :
    List (Bytes × JTok) → α → Option α
  | [], v => some v
  | (key, tok) :: ms, v =>
    match findField names key with
    | none => decodeMembers names store ms v
    | some i =>
      match store v i tok with
      | none => none
      | some v1 => decodeMembers names store ms v1

/-- Go's `json.Unmarshal(data, &v)` for a struct `v`: `none` when it returns
an error, otherwise the struct it leaves in `v`. The text `null` leaves `v`
as it is; any other text that is not an object is an error. -/
def jsonUnmarshal {α : Type} (names : List Bytes) (store : α → Nat → JTok → Option α)
    (data : Bytes) (v : α) : Option α :=
  match scanTop data with
  | none => none
  | some (JTop.object ms) => decodeMembers names store ms v
  | some (JTop.other JTok.null) => some v
  | some (JTop.other _) => none

/-- One member of a marshalled struct: the quoted field name, a colon and the
value text. -/
def member (name : String) (value : Bytes) : Bytes :=
  encodeString (goString name) ++ 0x3A :: value

/-- The given member texts, separated by commas. -/
def joinMembers : List Bytes → Bytes
  | [] => []
  | [m] => m
  | m :: ms => m ++ 0x2C :: joinMembers ms

/-- The JSON object with the given member texts. -/
def jsonObject (members : List Bytes) : Bytes :=
  0x7B :: (joinMembers members ++ [0x7D])

/-- The decoder reads the text `txt` of a member value as `tok`: no white
space is skipped in front of it, and `scanValue` stops at the `,` or `}`
that follows it. -/
def ReadsAs (txt : Bytes) (tok : JTok) : Prop :=
  (∀ X : Bytes, skipSpace (txt ++ X) = txt ++ X)
    ∧ ∀ (fuel : Nat) (c : Byte) (rest : Bytes), (c.val = 0x2C ∨ c.val = 0x7D) →
        scanValue (fuel + 1) (txt ++ c :: rest) = some (tok, c :: rest)

/-! ## The ledger stub -/

/-- Modelled from the spec: the ledger store behind
`shim.ChaincodeStubInterface` (section 6: `get(key) -> bytes | absent`,
`put(key, value) -> ok | error`). `state` is the key-value content;
`getFails` and `putFails` say for which calls the ledger reports an error
(a failed put leaves the content as it is); `certAttributes` is what the
identity resolver answers to `ReadCertAttribute`: the attribute, or the text
of the error it returns. -/
structure Stub where
  state : Bytes → Option Bytes
  getFails : Bytes → Bool
  putFails : Bytes → Bytes → Bool
  certAttributes : Bytes → Except Bytes Bytes

/-- The result `([]byte, error)` of a chaincode function: `ok` when the error
is `nil` (the payload may be `nil`), `error` with the message otherwise, and
`panic` for a run-time panic. -/
inductive Outcome where
  | ok (payload : Option Bytes)
  | error (msg : Bytes)
  | panic
  deriving DecidableEq, Repr

/-- The stub's `GetState(key)`: the stored bytes (`none` is Go's `nil`, which
an absent key gives) and whether an error is reported. -/
def GetState (stub : Stub) (key : Bytes) : Option Bytes × Bool :=
  if stub.getFails key then (none, true) else (stub.state key, false)

/-- The stub's `PutState(key, value)`: whether an error is reported, and the
stub afterwards. -/
def PutState (stub : Stub) (key value : Bytes) : Bool × Stub :=
  if stub.putFails key value then (true, stub)
  else (false, { stub with state := fun k => if k = key then some value else stub.state k })

/-- The stub's `ReadCertAttribute(name)`: the attribute, or the text of the
error. -/
def ReadCertAttribute (stub : Stub) (name : Bytes) : Except Bytes Bytes :=
  stub.certAttributes name

/-- Go's `string(bytes)` for a possibly `nil` slice. -/
def stringOf (b : Option Bytes) : Bytes := b.getD []

/-! ## `src/mi.full/prescriptions.go` -/

namespace MiFull

/-- Source constant `AUTHORIZATION_STATE_CREATED`. -/
def AUTHORIZATION_STATE_CREATED : Int := 0
/-- Source constant `AUTHORIZATION_STATE_APPROVED`. -/
def AUTHORIZATION_STATE_APPROVED : Int := 1
/-- Source constant `AUTHORIZATION_STATE_REJECTED`. -/
def AUTHORIZATION_STATE_REJECTED : Int := 2
/-- Source constant `AUTHORIZATION_STATE_CANCELED`. -/
def AUTHORIZATION_STATE_CANCELED : Int := 3
/-- Source constant `MEDICATION_STATE_SUBMITTED`. -/
def MEDICATION_STATE_SUBMITTED : Int := 1

/-- Source struct `Authorization`. -/
structure Authorization where
  ID : Bytes
  PrescriptionID : Bytes
  PatientID : Bytes
  InsurerID : Bytes
  DoctorID : Bytes
  State : Int
  deriving DecidableEq, Repr

/-- Source struct `Prescription`. -/
structure Prescription where
  ID : Bytes
  PatientID : Bytes
  DIN : Bytes
  State : Int
  deriving DecidableEq, Repr

/-- Source struct `Patient`. -/
structure Patient where
  ID : Bytes
  InsurerID : Bytes
  DoctorID : Bytes
  deriving DecidableEq, Repr

/-- The zero value `var a Authorization`. -/
def Authorization.zero : Authorization := ⟨[], [], [], [], [], 0⟩

/-- The zero value `var p Prescription`. -/
def Prescription.zero : Prescription := ⟨[], [], [], 0⟩

/-- The zero value `var p Patient`. -/
def Patient.zero : Patient := ⟨[], [], []⟩

/-- The JSON names of the fields of `Authorization`, in declaration order. -/
def Authorization.names : List Bytes :=
  [goString "ID", goString "prescriptionID", goString "patientID", goString "insurerID",
    goString "doctorID", goString "state"]

/-- The JSON names of the fields of `Prescription`. -/
def Prescription.names : List Bytes :=
  [goString "ID", goString "patientID", goString "DIN", goString "state"]

/-- The JSON names of the fields of `Patient`. -/
def Patient.names : List Bytes := [goString "ID", goString "insurerID", goString "doctorID"]

/-- Storing a JSON value in field number `i` of an `Authorization`. -/
def Authorization.store (a : Authorization) (i : Nat) (t : JTok) : Option Authorization :=
  match i with
  | 0 => (storeString t a.ID).map fun v => { a with ID := v }
  | 1 => (storeString t a.PrescriptionID).map fun v => { a with PrescriptionID := v }
  | 2 => (storeString t a.PatientID).map fun v => { a with PatientID := v }
  | 3 => (storeString t a.InsurerID).map fun v => { a with InsurerID := v }
  | 4 => (storeString t a.DoctorID).map fun v => { a with DoctorID := v }
  | 5 => (storeInt t a.State).map fun v => { a with State := v }
  | _ => some a

/-- Storing a JSON value in field number `i` of a `Prescription`. -/
def Prescription.store (p : Prescription) (i : Nat) (t : JTok) : Option Prescription :=
  match i with
  | 0 => (storeString t p.ID).map fun v => { p with ID := v }
  | 1 => (storeString t p.PatientID).map fun v => { p with PatientID := v }
  | 2 => (storeString t p.DIN).map fun v => { p with DIN := v }
  | 3 => (storeInt t p.State).map fun v => { p with State := v }
  | _ => some p

/-- Storing a JSON value in field number `i` of a `Patient`. -/
def Patient.store (p : Patient) (i : Nat) (t : JTok) : Option Patient :=
  match i with
  | 0 => (storeString t p.ID).map fun v => { p with ID := v }
  | 1 => (storeString t p.InsurerID).map fun v => { p with InsurerID := v }
  | 2 => (storeString t p.DoctorID).map fun v => { p with DoctorID := v }
  | _ => some p

/-- The call `json.Unmarshal(bytes, &a)` for an `Authorization`. -/
def Authorization.unmarshal (data : Bytes) (a : Authorization) : Option Authorization :=
  jsonUnmarshal Authorization.names Authorization.store data a

/-- The call `json.Unmarshal(bytes, &p)` for a `Prescription`. -/
def Prescription.unmarshal (data : Bytes) (p : Prescription) : Option Prescription :=
  jsonUnmarshal Prescription.names Prescription.store data p

/-- The call `json.Unmarshal(bytes, &p)` for a `Patient`. -/
def Patient.unmarshal (data : Bytes) (p : Patient) : Option Patient :=
  jsonUnmarshal Patient.names Patient.store data p

/-- The call `json.Marshal(a)` for an `Authorization`; it returns no error. -/
def Authorization.marshal (a : Authorization) : Bytes :=
  jsonObject [member "ID" (encodeString a.ID),
    member "prescriptionID" (encodeString a.PrescriptionID),
    member "patientID" (encodeString a.PatientID),
    member "insurerID" (encodeString a.InsurerID),
    member "doctorID" (encodeString a.DoctorID),
    member "state" (formatInt a.State)]

/-- The call `json.Marshal(p)` for a `Prescription`. -/
def Prescription.marshal (p : Prescription) : Bytes :=
  jsonObject [member "ID" (encodeString p.ID),
    member "patientID" (encodeString p.PatientID),
    member "DIN" (encodeString p.DIN),
    member "state" (formatInt p.State)]

/-- The call `json.Marshal(p)` for a `Patient`. -/
def Patient.marshal (p : Patient) : Bytes :=
  jsonObject [member "ID" (encodeString p.ID),
    member "insurerID" (encodeString p.InsurerID),
    member "doctorID" (encodeString p.DoctorID)]

/-- The values `save_changes` receives in its `entry interface{}` parameter. -/
inductive Entry where
  | patient (p : Patient)
  | prescription (p : Prescription)
  | authorization (a : Authorization)
  deriving DecidableEq, Repr

/-- The call `json.Marshal(entry)` of `save_changes`. -/
def jsonMarshal : Entry → Bytes
  | Entry.patient p => p.marshal
  | Entry.prescription p => p.marshal
  | Entry.authorization a => a.marshal

/-- Source function `save_changes`: marshal the entry and put it under `id`.
`json.Marshal` returns no error for these structs, so only the `PutState`
error branch can be taken. The result is the `(bool, error)` pair. -/
def save_changes (stub : Stub) (entry : Entry) (id : Bytes) : (Bool × Option Bytes) × Stub :=
  let bytes := jsonMarshal entry
  let put := PutState stub id bytes
  if put.1 then ((false, some (goString "Error storing authorization record")), put.2)
  else ((true, none), put.2)

/-- Source function `Init`. -/
def Init (stub : Stub) (_function : Bytes) (_args : List Bytes) : Outcome × Stub :=
  let patient : Patient := ⟨goString "patient0", goString "insurer0", goString "doctor0"⟩
  let prescription : Prescription :=
    { ID := goString "prescription0", PatientID := patient.ID, DIN := goString "DIN0",
      State := MEDICATION_STATE_SUBMITTED }
  let authorization : Authorization :=
    { ID := goString "authorization0", PrescriptionID := prescription.ID,
      DoctorID := patient.DoctorID, InsurerID := patient.InsurerID,
      PatientID := prescription.PatientID, State := AUTHORIZATION_STATE_CREATED }
  let r1 := save_changes stub (Entry.patient patient) patient.ID
  if r1.1.2.isSome then (Outcome.error (goString "Error saving patient"), r1.2)
  else
    let r2 := save_changes r1.2 (Entry.prescription prescription) prescription.ID
    if r2.1.2.isSome then (Outcome.error (goString "Error saving prescription"), r2.2)
    else
      let r3 := save_changes r2.2 (Entry.authorization authorization) authorization.ID
      if r3.1.2.isSome then (Outcome.error (goString "Error saving authorization"), r3.2)
      else (Outcome.ok none, r3.2)

/-- Source function `create_authorization`. Only `args[0]` is read; the error
of `GetState` is not looked at, only whether the record is `nil`. -/
def create_authorization (stub : Stub) (args : List Bytes) : Outcome × Stub :=
  match args with
  | [] => (Outcome.panic, stub)
  | arg0 :: _ =>
    let a : Authorization := { Authorization.zero with ID := arg0 }
    let record := (GetState stub a.ID).1
    if record.isSome then (Outcome.error (goString "authorization already exists"), stub)
    else
      let r := save_changes stub (Entry.authorization a) a.ID
      if r.1.2.isSome then (Outcome.error (goString "Error saving changes"), r.2)
      else (Outcome.ok (some a.ID), r.2)

/-- Source function `approve_authorization`. -/
def approve_authorization (stub : Stub) (a : Authorization) : Outcome × Stub :=
  if a.State = AUTHORIZATION_STATE_CREATED then
    let a1 : Authorization := { a with State := AUTHORIZATION_STATE_APPROVED }
    let r := save_changes stub (Entry.authorization a1) a1.ID
    if r.1.2.isSome then (Outcome.error (goString "Error saving changes"), r.2)
    else (Outcome.ok (some a1.marshal), r.2)
  else (Outcome.error (goString "Review failed. approve_authorization. "), stub)

/-- Source function `Invoke`. The statement after the `if`/`else` is
unreachable. -/
def Invoke (stub : Stub) (function : Bytes) (args : List Bytes) : Outcome × Stub :=
  if function = goString "create_authorization" then create_authorization stub args
  else
    match args with
    | [] => (Outcome.panic, stub)
    | arg0 :: _ =>
      let got := GetState stub arg0
      if got.2 then (Outcome.error (goString "INVOKE: reqeust can't be found "), stub)
      else
        match Authorization.unmarshal (stringOf got.1) Authorization.zero with
        | none =>
          (Outcome.error (goString "INVOKE: reqeust corrupted " ++ stringOf got.1), stub)
        | some a => approve_authorization stub a

/-- Source function `get_details`. -/
def get_details (stub : Stub) (id : Bytes) : Outcome × Stub :=
  let got := GetState stub id
  if got.2 then (Outcome.error (goString "get_details: Invalid object"), stub)
  else (Outcome.ok got.1, stub)

/-- Source function `Query`. -/
def Query (stub : Stub) (function : Bytes) (args : List Bytes) : Outcome × Stub :=
  if function = goString "get_details" then
    match args with
    | [arg0] => get_details stub arg0
    | _ => (Outcome.error (goString "QUERY: Incorrect number of arguments passed"), stub)
  else (Outcome.error (goString "Received unknown function invocation " ++ function), stub)

end MiFull

/-! ## `src/mi.test/prescriptions.go` -/

namespace MiTest

/-- Source constant `INSURANCE_COMPANY`. -/
def INSURANCE_COMPANY : Bytes := goString "insurance_company"
/-- Source constant `DOCTOR`. -/
def DOCTOR : Bytes := goString "doctor"
/-- Source constant `STATE_CREATED`. -/
def STATE_CREATED : Int := 0
/-- Source constant `STATE_APPROVED`. -/
def STATE_APPROVED : Int := 1
/-- Source constant `STATE_REJECTED`. -/
def STATE_REJECTED : Int := 2

/-- Source struct `Request`. -/
structure Request where
  ID : Bytes
  DIN : Bytes
  State : Int
  deriving DecidableEq, Repr

/-- The zero value `var r Request`. -/
def Request.zero : Request := ⟨[], [], 0⟩

/-- The JSON names of the fields of `Request`. -/
def Request.names : List Bytes := [goString "ID", goString "DIN", goString "state"]

/-- Storing a JSON value in field number `i` of a `Request`. -/
def Request.store (r : Request) (i : Nat) (t : JTok) : Option Request :=
  match i with
  | 0 => (storeString t r.ID).map fun v => { r with ID := v }
  | 1 => (storeString t r.DIN).map fun v => { r with DIN := v }
  | 2 => (storeInt t r.State).map fun v => { r with State := v }
  | _ => some r

/-- The call `json.Unmarshal(bytes, &r)` for a `Request`. -/
def Request.unmarshal (data : Bytes) (r : Request) : Option Request :=
  jsonUnmarshal Request.names Request.store data r

/-- The call `json.Marshal(r)` for a `Request`; it returns no error. -/
def Request.marshal (r : Request) : Bytes :=
  jsonObject [member "ID" (encodeString r.ID), member "DIN" (encodeString r.DIN),
    member "state" (formatInt r.State)]

/-- Source function `get_username`: the attribute and the error, if any. -/
def get_username (stub : Stub) : Bytes × Option Bytes :=
  match ReadCertAttribute stub (goString "username") with
  | Except.error err =>
    ([], some (goString "Couldn't get attribute 'username'. Error: " ++ err))
  | Except.ok username => (username, none)

/-- Source function `check_affiliation`. -/
def check_affiliation (stub : Stub) : Bytes × Option Bytes :=
  match ReadCertAttribute stub (goString "role") with
  | Except.error err => ([], some (goString "Couldn't get attribute 'role'. Error: " ++ err))
  | Except.ok affiliation => (affiliation, none)

/-- Source function `get_caller_data`: user, affiliation and error. The error
of `get_username` is overwritten, not checked. -/
def get_caller_data (stub : Stub) : Bytes × Bytes × Option Bytes :=
  let user := (get_username stub).1
  let aff := check_affiliation stub
  match aff.2 with
  | some err => ([], [], some err)
  | none => (user, aff.1, none)

/-- Source function `save_changes`: marshal the request and put it under
`r.ID`. -/
def save_changes (stub : Stub) (r : Request) : (Bool × Option Bytes) × Stub :=
  let bytes := r.marshal
  let put := PutState stub r.ID bytes
  if put.1 then ((false, some (goString "Error storing request record")), put.2)
  else ((true, none), put.2)

/-- The call `regexp.Match("^[A-z][A-z][0-9]{7}", b)`: two octets in the
range `A`..`z` and seven digits at the start of `b`. -/
def matchV5cID (b : Bytes) : Bool :=
  match b with
  | c0 :: c1 :: rest =>
    0x41 ≤ c0.val && c0.val ≤ 0x7A && 0x41 ≤ c1.val && c1.val ≤ 0x7A
      && (rest.take 7).length = 7 && (rest.take 7).all isDigit
  | _ => false

/-- Source function `create_request`. -/
def create_request (stub : Stub) (_caller : Bytes) (_caller_affiliation : Bytes) :
    Outcome × Stub :=
  let id := goString "\"ID\":\"UNDEFINED\", "
  let din := goString "\"DIN\":0, "
  let state := goString "\"State\":\"UNDEFINED\", "
  let request_json := goString "\x7b" ++ id ++ din ++ state ++ goString "\x7d"
  let matched := matchV5cID (goString "aa1234567")
  if matched = false then (Outcome.error (goString "Invalid v5cID provided"), stub)
  else
    match Request.unmarshal request_json Request.zero with
    | none => (Outcome.error (goString "Invalid JSON object"), stub)
    | some r =>
      let record := (GetState stub r.ID).1
      if record.isSome then (Outcome.error (goString "request already exists"), stub)
      else
        let s := save_changes stub r
        if s.1.2.isSome then (Outcome.error (goString "Error saving changes"), s.2)
        else (Outcome.ok none, s.2)

/-- Source function `review_request`. -/
def review_request (stub : Stub) (r : Request) (_caller : Bytes) (caller_affiliation : Bytes) :
    Outcome × Stub :=
  if r.State = STATE_CREATED ∧ caller_affiliation = INSURANCE_COMPANY then
    let r1 : Request := { r with State := STATE_APPROVED }
    let s := save_changes stub r1
    if s.1.2.isSome then (Outcome.error (goString "Error saving changes"), s.2)
    else (Outcome.ok none, s.2)
  else (Outcome.error (goString "Review failed. review_request. "), stub)

/-- Source function `Invoke`. The record is read from `args[1]`, and
`review_request` is given the literal `"insurance_company"`, not the
caller's affiliation. -/
def Invoke (stub : Stub) (function : Bytes) (args : List Bytes) : Outcome × Stub :=
  let cd := get_caller_data stub
  if cd.2.2.isSome then (Outcome.error (goString "Error retrieving caller information"), stub)
  else if function = goString "create_request" then create_request stub cd.1 cd.2.1
  else
    match args with
    | _ :: arg1 :: _ =>
      let got := GetState stub arg1
      if got.2 then
        (Outcome.error (goString "INVOKE: reqeust can't be found " ++ encodeRune 1), stub)
      else
        match Request.unmarshal (stringOf got.1) Request.zero with
        | none =>
          (Outcome.error (goString "INVOKE: reqeust corrupted " ++ stringOf got.1), stub)
        | some r => review_request stub r cd.1 (goString "insurance_company")
    | _ => (Outcome.panic, stub)

end MiTest

/-! ## Records and runs the claims speak of -/

namespace MiFull

/-- Source constant `MEDICATION_STATE_PRESCRIBED`. -/
def MEDICATION_STATE_PRESCRIBED : Int := 0

/-- An Authorization record as `json.Marshal` writes it, but with the `state`
member left out. -/
def Authorization.marshalWithoutState (id prescriptionID patientID insurerID doctorID : Bytes) :
    Bytes :=
  jsonObject [member "ID" (encodeString id),
    member "prescriptionID" (encodeString prescriptionID),
    member "patientID" (encodeString patientID),
    member "insurerID" (encodeString insurerID),
    member "doctorID" (encodeString doctorID)]

/-- The stored bytes are a JSON object with a member that the decoder stores
in the `state` field of an Authorization. -/
def hasStateField (data : Bytes) : Bool :=
  match scanTop data with
  | some (JTop.object ms) => ms.any fun m => findField Authorization.names m.1 = some 5
  | _ => false

/-- The ledger after a sequence of `Invoke` calls, each given by its function
name and argument list. -/
def runInvokes (stub : Stub) (calls : List (Bytes × List Bytes)) : Stub :=
  calls.foldl (fun s c => (Invoke s c.1 c.2).2) stub

end MiFull

/-! ## Sample ledgers -/

/-- An empty ledger on which every call succeeds; the caller has no
certificate attributes. -/
def emptyStub : Stub :=
  ⟨fun _ => none, fun _ => false, fun _ _ => false,
    fun _ => Except.error (goString "no such attribute")⟩

/-- An empty ledger whose reads all report an error. -/
def readFailingStub : Stub :=
  ⟨fun _ => none, fun _ => true, fun _ _ => false,
    fun _ => Except.error (goString "no such attribute")⟩

/-- The ledger `MiFull.Init` leaves when deployed on the empty ledger. -/
def initStub : Stub := (MiFull.Init emptyStub [] []).2

/-- An empty ledger whose caller has user name `alice` and role `doctor`. -/
def doctorStub : Stub :=
  ⟨fun _ => none, fun _ => false, fun _ _ => false,
    fun n => if n = goString "username" then Except.ok (goString "alice")
      else if n = goString "role" then Except.ok (goString "doctor")
      else Except.error (goString "no such attribute")⟩

/-- The ledger `MiFull.Init` leaves when the caller has role `doctor`. -/
def doctorInitStub : Stub := (MiFull.Init doctorStub [] []).2

/-- A ledger holding the `mi.test` request `req1` in state Created; the
caller has role `doctor`. -/
def doctorRequestStub : Stub :=
  { doctorStub with
    state := fun k =>
      if k = goString "req1" then
        some (MiTest.Request.marshal ⟨goString "req1", goString "DIN0", MiTest.STATE_CREATED⟩)
      else none }

/-- The Authorization that `MiFull.Init` stores under `authorization0`. -/
def authorization0 : MiFull.Authorization :=
  ⟨goString "authorization0", goString "prescription0", goString "patient0",
    goString "insurer0", goString "doctor0", MiFull.AUTHORIZATION_STATE_CREATED⟩

/-- The ledger left by `Init` after `authorization0` has been approved. -/
def approvedStub : Stub :=
  (MiFull.Invoke initStub (goString "approve") [goString "authorization0"]).2

/-- The ledger left by `Init`, with every read reporting an error. -/
def readFailingInitStub : Stub := { initStub with getFails := fun _ => true }

/-- The ledger left by `Init`, with every write reporting an error. -/
def writeFailingInitStub : Stub := { initStub with putFails := fun _ _ => true }

/-- The Prescription of Scenario A, in state Prescribed. -/
def rx1 : MiFull.Prescription :=
  ⟨goString "rx1", goString "p1", goString "D1", MiFull.MEDICATION_STATE_PRESCRIBED⟩

/-- A ledger holding the Prescription `rx1` under its identity. -/
def rx1Stub : Stub :=
  { emptyStub with
    state := fun k => if k = goString "rx1" then some (MiFull.Prescription.marshal rx1) else none }

/-- A ledger holding, under the key `[0xFF]`, the encoding of the Patient
whose ID is that octet. -/
def badPatientStub : Stub :=
  { emptyStub with
    state := fun k =>
      if k = [0xFF] then
        some (MiFull.Patient.marshal ⟨[0xFF], goString "insurer0", goString "doctor0"⟩)
      else none }

/-- A ledger holding, under `auth7`, an Authorization record whose state is
the integer 7. -/
def outOfRangeStub : Stub :=
  { emptyStub with
    state := fun k =>
      if k = goString "auth7" then
        some (MiFull.Authorization.marshal
          ⟨goString "auth7", goString "rx1", goString "p1", goString "ins1", goString "doc1", 7⟩)
      else none }

/-- A ledger holding, under `auth8`, an Authorization record without a
`state` member. -/
def missingStateStub : Stub :=
  { emptyStub with
    state := fun k =>
      if k = goString "auth8" then
        some (MiFull.Authorization.marshalWithoutState (goString "auth8") (goString "rx1")
          (goString "p1") (goString "ins1") (goString "doc1"))
      else none }

/-- The argument list of a `create_authorization` command that names all five
fields. -/
def createArgs : List Bytes :=
  [goString "auth1", goString "rx1", goString "p1", goString "ins1", goString "doc1"]

/-! ## Reachable ledgers -/

/-- The Patient that `MiFull.Init` stores under `patient0`. -/
def patient0 : MiFull.Patient := ⟨goString "patient0", goString "insurer0", goString "doctor0"⟩

/-- The Prescription that `MiFull.Init` stores under `prescription0`. -/
def prescription0 : MiFull.Prescription :=
  ⟨goString "prescription0", goString "patient0", goString "DIN0",
    MiFull.MEDICATION_STATE_SUBMITTED⟩

namespace MiFull

/-- The bytes `create_authorization` stores under `k`. -/
def createdRecord (k : Bytes) : Bytes :=
  Authorization.marshal { Authorization.zero with ID := k }

/-- The bytes `approve_authorization` stores under `k` for a record that
`create_authorization` wrote. -/
def approvedRecord (k : Bytes) : Bytes :=
  Authorization.marshal ⟨k, [], [], [], [], AUTHORIZATION_STATE_APPROVED⟩

/-- The state that the decode of `Invoke` finds in a stored value, if the
value is there and decodes. -/
def storedState (v : Option Bytes) : Option Int :=
  (v.bind fun b => Authorization.unmarshal b Authorization.zero).map fun a => a.State

/-- The ledger after the first `n` calls of a sequence of `Invoke` calls. -/
def storeAfter (stub : Stub) (calls : List (Bytes × List Bytes)) (n : Nat) : Stub :=
  runInvokes stub (calls.take n)

/-- What one step may do to the value under `k`: leave it as it is, store a
first value, or replace a record in state Created by one in state
Approved. -/
def StepAllowed (k : Bytes) (s s1 : Stub) : Prop :=
  s1.state k = s.state k ∨ s.state k = none
    ∨ (storedState (s.state k) = some AUTHORIZATION_STATE_CREATED
      ∧ storedState (s1.state k) = some AUTHORIZATION_STATE_APPROVED)

/-- The value `b` under the key `k` decodes, as `Invoke` decodes it, to a
record whose ID is the key coerced to valid UTF-8, and it carries a `state`
member unless it is the Patient record of `Init`. -/
def KeyedByIdentity (k b : Bytes) : Prop :=
  ∃ a : Authorization,
    Authorization.unmarshal b Authorization.zero = some a
      ∧ a.ID = coerceUTF8 k
      ∧ (hasStateField b = true ∨ (k = goString "patient0" ∧ b = Patient.marshal patient0))

/-- The values that can stand under the key `k` in a ledger reached from
`Init` on an empty ledger whose reads report no error. -/
def ReachableRecord (k b : Bytes) : Prop :=
  b = createdRecord k ∨ b = approvedRecord k
    ∨ (k = goString "patient0"
      ∧ (b = Patient.marshal patient0
        ∨ b = Authorization.marshal ⟨goString "patient0", [], [], goString "insurer0",
            goString "doctor0", AUTHORIZATION_STATE_APPROVED⟩))
    ∨ (k = goString "prescription0" ∧ b = Prescription.marshal prescription0)
    ∨ (k = goString "authorization0"
      ∧ (b = Authorization.marshal authorization0
        ∨ b = Authorization.marshal
            { authorization0 with State := AUTHORIZATION_STATE_APPROVED }))

end MiFull

/-- A sample run: create `auth1`, approve it, then try to cancel it. -/
def sampleCalls : List (Bytes × List Bytes) :=
  [(goString "create_authorization", [goString "auth1"]),
    (goString "approve", [goString "auth1"]),
    (goString "cancel", [goString "auth1"])]

/-- The ledger `MiFull.Init` leaves when the caller has role `doctor`, with
every read reporting an error. -/
def doctorReadFailingStub : Stub := { doctorInitStub with getFails := fun _ => true }

/-- The ledger `MiFull.Init` leaves when the caller has role `doctor`, with
every write reporting an error. -/
def doctorWriteFailingStub : Stub := { doctorInitStub with putFails := fun _ _ => true }

end Chaincode
/-! # Theorems -/

namespace Chaincode

/-! ## UTF-8 -/

theorem byte_val (n : Nat) : (byte n).val = n % 256 := rfl

theorem byte_eq_of_val (b : Byte) (n : Nat) (h : n = b.val) : byte n = b := by
  apply Fin.ext
  rw [byte_val, h]
  exact Nat.mod_eq_of_lt b.isLt

theorem isCont_iff (b : Byte) : isCont b = true ↔ 0x80 ≤ b.val ∧ b.val ≤ 0xBF := by
  simp [isCont]

/-- The five ways `utf8.DecodeRune` answers on a non-empty input. -/
theorem decodeRune_cases (b0 : Byte) (rest : Bytes) :
    (b0.val < 0x80 ∧ decodeRune (b0 :: rest) = (b0.val, 1))
      ∨ (0x80 ≤ b0.val ∧ decodeRune (b0 :: rest) = (RuneError, 1))
      ∨ (∃ b1 t, rest = b1 :: t ∧ 0xC2 ≤ b0.val ∧ b0.val < 0xE0
          ∧ 0x80 ≤ b1.val ∧ b1.val ≤ 0xBF
          ∧ decodeRune (b0 :: rest) = ((b0.val - 0xC0) * 64 + (b1.val - 0x80), 2))
      ∨ (∃ b1 b2 t, rest = b1 :: b2 :: t ∧ 0xE0 ≤ b0.val ∧ b0.val < 0xF0
          ∧ secondLo b0 ≤ b1.val ∧ b1.val ≤ secondHi b0 ∧ 0x80 ≤ b2.val ∧ b2.val ≤ 0xBF
          ∧ decodeRune (b0 :: rest)
            = ((b0.val - 0xE0) * 4096 + (b1.val - 0x80) * 64 + (b2.val - 0x80), 3))
      ∨ (∃ b1 b2 b3 t, rest = b1 :: b2 :: b3 :: t ∧ 0xF0 ≤ b0.val ∧ b0.val < 0xF5
          ∧ secondLo b0 ≤ b1.val ∧ b1.val ≤ secondHi b0 ∧ 0x80 ≤ b2.val ∧ b2.val ≤ 0xBF
          ∧ 0x80 ≤ b3.val ∧ b3.val ≤ 0xBF
          ∧ decodeRune (b0 :: rest)
            = ((b0.val - 0xF0) * 262144 + (b1.val - 0x80) * 4096
                + (b2.val - 0x80) * 64 + (b3.val - 0x80), 4)) := by
  by_cases h1 : b0.val < 0x80
  · left
    exact ⟨h1, by simp [decodeRune, h1]⟩
  · right
    by_cases h2 : b0.val < 0xC2
    · left
      exact ⟨by omega, by simp [decodeRune, h1, h2]⟩
    · by_cases h3 : b0.val < 0xE0
      · cases rest with
        | nil => left; exact ⟨by omega, by simp [decodeRune, h1, h2, h3]⟩
        | cons b1 t =>
          by_cases hc : isCont b1 = true
          · right; left
            have := (isCont_iff b1).1 hc
            exact ⟨b1, t, rfl, by omega, h3, this.1, this.2, by simp [decodeRune, h1, h2, h3, hc]⟩
          · left; exact ⟨by omega, by simp [decodeRune, h1, h2, h3, hc]⟩
      · by_cases h4 : b0.val < 0xF0
        · rcases rest with _ | ⟨b1, _ | ⟨b2, t⟩⟩
          · left; exact ⟨by omega, by simp [decodeRune, h1, h2, h3, h4]⟩
          · left; exact ⟨by omega, by simp [decodeRune, h1, h2, h3, h4]⟩
          · by_cases hc : (decide (secondLo b0 ≤ b1.val) && decide (b1.val ≤ secondHi b0)
                && isCont b2) = true
            · right; right; left
              have hc1 := hc
              simp only [Bool.and_eq_true, decide_eq_true_eq, isCont_iff] at hc1
              exact ⟨b1, b2, t, rfl, by omega, h4, hc1.1.1, hc1.1.2, hc1.2.1, hc1.2.2,
                by simp only [decodeRune, h1, h2, h3, h4, if_false, if_true, hc]⟩
            · left; exact ⟨by omega, by simp [decodeRune, h1, h2, h3, h4, hc]⟩
        · by_cases h5 : b0.val < 0xF5
          · rcases rest with _ | ⟨b1, _ | ⟨b2, _ | ⟨b3, t⟩⟩⟩
            · left; exact ⟨by omega, by simp [decodeRune, h1, h2, h3, h4, h5]⟩
            · left; exact ⟨by omega, by simp [decodeRune, h1, h2, h3, h4, h5]⟩
            · left; exact ⟨by omega, by simp [decodeRune, h1, h2, h3, h4, h5]⟩
            · by_cases hc : (decide (secondLo b0 ≤ b1.val) && decide (b1.val ≤ secondHi b0)
                  && isCont b2 && isCont b3) = true
              · right; right; right
                have hc1 := hc
                simp only [Bool.and_eq_true, decide_eq_true_eq, isCont_iff] at hc1
                exact ⟨b1, b2, b3, t, rfl, by omega, h5, hc1.1.1.1, hc1.1.1.2, hc1.1.2.1,
                  hc1.1.2.2, hc1.2.1, hc1.2.2,
                  by simp only [decodeRune, h1, h2, h3, h4, h5, if_false, if_true, hc]⟩
              · left
                exact ⟨by omega, by simp [decodeRune, h1, h2, h3, h4, h5, hc]⟩
          · left; exact ⟨by omega, by simp [decodeRune, h1, h2, h3, h4, h5]⟩

/-- The width `utf8.DecodeRune` reports is between 1 and the length of a
non-empty input. -/
theorem decodeRune_width (b : Byte) (rest : Bytes) :
    1 ≤ (decodeRune (b :: rest)).2 ∧ (decodeRune (b :: rest)).2 ≤ (b :: rest).length := by
  rcases decodeRune_cases b rest with ⟨_, h⟩ | ⟨_, h⟩ | ⟨b1, t, hr, _, _, _, _, h⟩
    | ⟨b1, b2, t, hr, _, _, _, _, _, _, h⟩ | ⟨b1, b2, b3, t, hr, _, _, _, _, _, _, _, _, h⟩
  all_goals (rw [h]; try subst hr); simp

/-- Re-encoding the rune that `utf8.DecodeRune` found gives back the octets
it was decoded from, unless they were invalid. -/
theorem encodeRune_decodeRune (b : Byte) (rest : Bytes)
    (hv : ¬ ((decodeRune (b :: rest)).1 = RuneError ∧ (decodeRune (b :: rest)).2 = 1)) :
    encodeRune (decodeRune (b :: rest)).1 = (b :: rest).take (decodeRune (b :: rest)).2 := by
  rcases decodeRune_cases b rest with ⟨hb, h⟩ | ⟨_, h⟩ | ⟨b1, t, hr, h1, h2, h3, h4, h⟩
    | ⟨b1, b2, t, hr, h1, h2, h3, h4, h5, h6, h⟩
    | ⟨b1, b2, b3, t, hr, h1, h2, h3, h4, h5, h6, h7, h8, h⟩
  · rw [h]
    simp only [encodeRune, hb, if_true, List.take_succ_cons, List.take_zero]
    rw [byte_eq_of_val b _ rfl]
  · rw [h] at hv
    exact absurd ⟨rfl, rfl⟩ hv
  · subst hr
    rw [h]
    have e1 : ¬ ((b.val - 0xC0) * 64 + (b1.val - 0x80) < 0x80) := by omega
    have e2 : (b.val - 0xC0) * 64 + (b1.val - 0x80) < 0x800 := by omega
    simp only [encodeRune, e1, e2, if_true, if_false, List.take_succ_cons, List.take_zero]
    rw [byte_eq_of_val b _ (by omega), byte_eq_of_val b1 _ (by omega)]
  · subst hr
    rw [h]
    simp only [secondLo, secondHi] at h3 h4
    have e1 : ¬ ((b.val - 0xE0) * 4096 + (b1.val - 0x80) * 64 + (b2.val - 0x80) < 0x80) := by
      split_ifs at h3 h4 <;> omega
    have e2 : ¬ ((b.val - 0xE0) * 4096 + (b1.val - 0x80) * 64 + (b2.val - 0x80) < 0x800) := by
      split_ifs at h3 h4 <;> omega
    have e3 : ¬ ((0xD800 ≤ (b.val - 0xE0) * 4096 + (b1.val - 0x80) * 64 + (b2.val - 0x80)
        ∧ (b.val - 0xE0) * 4096 + (b1.val - 0x80) * 64 + (b2.val - 0x80) ≤ 0xDFFF)
        ∨ 0x10FFFF < (b.val - 0xE0) * 4096 + (b1.val - 0x80) * 64 + (b2.val - 0x80)) := by
      split_ifs at h3 h4 <;> omega
    have e4 : (b.val - 0xE0) * 4096 + (b1.val - 0x80) * 64 + (b2.val - 0x80) < 0x10000 := by
      split_ifs at h3 h4 <;> omega
    simp only [encodeRune, e1, e2, e3, e4, if_true, if_false, List.take_succ_cons,
      List.take_zero]
    rw [byte_eq_of_val b _ (by split_ifs at h3 h4 <;> omega),
      byte_eq_of_val b1 _ (by split_ifs at h3 h4 <;> omega),
      byte_eq_of_val b2 _ (by split_ifs at h3 h4 <;> omega)]
  · subst hr
    rw [h]
    simp only [secondLo, secondHi] at h3 h4
    have e1 : ¬ ((b.val - 0xF0) * 262144 + (b1.val - 0x80) * 4096
        + (b2.val - 0x80) * 64 + (b3.val - 0x80) < 0x80) := by
      split_ifs at h3 h4 <;> omega
    have e2 : ¬ ((b.val - 0xF0) * 262144 + (b1.val - 0x80) * 4096
        + (b2.val - 0x80) * 64 + (b3.val - 0x80) < 0x800) := by
      split_ifs at h3 h4 <;> omega
    have e3 : ¬ ((0xD800 ≤ (b.val - 0xF0) * 262144 + (b1.val - 0x80) * 4096
          + (b2.val - 0x80) * 64 + (b3.val - 0x80)
        ∧ (b.val - 0xF0) * 262144 + (b1.val - 0x80) * 4096
          + (b2.val - 0x80) * 64 + (b3.val - 0x80) ≤ 0xDFFF)
        ∨ 0x10FFFF < (b.val - 0xF0) * 262144 + (b1.val - 0x80) * 4096
          + (b2.val - 0x80) * 64 + (b3.val - 0x80)) := by
      split_ifs at h3 h4 <;> omega
    have e4 : ¬ ((b.val - 0xF0) * 262144 + (b1.val - 0x80) * 4096
        + (b2.val - 0x80) * 64 + (b3.val - 0x80) < 0x10000) := by
      split_ifs at h3 h4 <;> omega
    simp only [encodeRune, e1, e2, e3, e4, if_true, if_false, List.take_succ_cons,
      List.take_zero]
    rw [byte_eq_of_val b _ (by split_ifs at h3 h4 <;> omega),
      byte_eq_of_val b1 _ (by split_ifs at h3 h4 <;> omega),
      byte_eq_of_val b2 _ (by split_ifs at h3 h4 <;> omega),
      byte_eq_of_val b3 _ (by split_ifs at h3 h4 <;> omega)]

theorem decodeRune_two (b0 b1 : Byte) (t : Bytes) (h1 : 0xC2 ≤ b0.val) (h2 : b0.val < 0xE0)
    (h3 : 0x80 ≤ b1.val) (h4 : b1.val ≤ 0xBF) :
    decodeRune (b0 :: b1 :: t) = ((b0.val - 0xC0) * 64 + (b1.val - 0x80), 2) := by
  have hc : isCont b1 = true := (isCont_iff b1).2 ⟨h3, h4⟩
  have a1 : ¬ b0.val < 0x80 := by omega
  have a2 : ¬ b0.val < 0xC2 := by omega
  simp [decodeRune, a1, a2, h2, hc]

theorem decodeRune_three (b0 b1 b2 : Byte) (t : Bytes) (h1 : 0xE0 ≤ b0.val)
    (h2 : b0.val < 0xF0) (h3 : secondLo b0 ≤ b1.val) (h4 : b1.val ≤ secondHi b0)
    (h5 : 0x80 ≤ b2.val) (h6 : b2.val ≤ 0xBF) :
    decodeRune (b0 :: b1 :: b2 :: t)
      = ((b0.val - 0xE0) * 4096 + (b1.val - 0x80) * 64 + (b2.val - 0x80), 3) := by
  have hc : isCont b2 = true := (isCont_iff b2).2 ⟨h5, h6⟩
  have a1 : ¬ b0.val < 0x80 := by omega
  have a2 : ¬ b0.val < 0xC2 := by omega
  have a3 : ¬ b0.val < 0xE0 := by omega
  simp [decodeRune, a1, a2, a3, h2, h3, h4, hc]

theorem decodeRune_four (b0 b1 b2 b3 : Byte) (t : Bytes) (h1 : 0xF0 ≤ b0.val)
    (h2 : b0.val < 0xF5) (h3 : secondLo b0 ≤ b1.val) (h4 : b1.val ≤ secondHi b0)
    (h5 : 0x80 ≤ b2.val) (h6 : b2.val ≤ 0xBF) (h7 : 0x80 ≤ b3.val) (h8 : b3.val ≤ 0xBF) :
    decodeRune (b0 :: b1 :: b2 :: b3 :: t)
      = ((b0.val - 0xF0) * 262144 + (b1.val - 0x80) * 4096
          + (b2.val - 0x80) * 64 + (b3.val - 0x80), 4) := by
  have hc2 : isCont b2 = true := (isCont_iff b2).2 ⟨h5, h6⟩
  have hc3 : isCont b3 = true := (isCont_iff b3).2 ⟨h7, h8⟩
  have a1 : ¬ b0.val < 0x80 := by omega
  have a2 : ¬ b0.val < 0xC2 := by omega
  have a3 : ¬ b0.val < 0xE0 := by omega
  have a4 : ¬ b0.val < 0xF0 := by omega
  simp [decodeRune, a1, a2, a3, a4, h2, h3, h4, hc2, hc3]

/-- A valid encoding is decoded the same way whatever follows it. -/
theorem decodeRune_take_append (b : Byte) (rest ys : Bytes)
    (hv : ¬ ((decodeRune (b :: rest)).1 = RuneError ∧ (decodeRune (b :: rest)).2 = 1)) :
    decodeRune ((b :: rest).take (decodeRune (b :: rest)).2 ++ ys) = decodeRune (b :: rest) := by
  rcases decodeRune_cases b rest with ⟨hb, h⟩ | ⟨_, h⟩ | ⟨b1, t, hr, h1, h2, h3, h4, h⟩
    | ⟨b1, b2, t, hr, h1, h2, h3, h4, h5, h6, h⟩
    | ⟨b1, b2, b3, t, hr, h1, h2, h3, h4, h5, h6, h7, h8, h⟩
  · rw [h]
    simp [decodeRune, hb]
  · rw [h] at hv
    exact absurd ⟨rfl, rfl⟩ hv
  · subst hr
    rw [h]
    simpa using decodeRune_two b b1 ys h1 h2 h3 h4
  · subst hr
    rw [h]
    simpa using decodeRune_three b b1 b2 ys h1 h2 h3 h4 h5 h6
  · subst hr
    rw [h]
    simpa using decodeRune_four b b1 b2 b3 ys h1 h2 h3 h4 h5 h6 h7 h8


/-! ## Strings: `unquote` after `encodeState.string` -/

theorem hexVal_hexDigit (n : Nat) (h : n < 16) : hexVal (hexDigit n) = some n := by
  unfold hexDigit
  split
  · have : (byte (0x30 + n)).val = 0x30 + n := by rw [byte_val]; omega
    have a1 : (0x30 ≤ 0x30 + n ∧ 0x30 + n ≤ 0x39) := by omega
    unfold hexVal
    rw [this, if_pos a1]
    congr 1
    omega
  · have : (byte (0x57 + n)).val = 0x57 + n := by rw [byte_val]; omega
    have a1 : ¬ (0x30 ≤ 0x57 + n ∧ 0x57 + n ≤ 0x39) := by omega
    have a2 : (0x61 ≤ 0x57 + n ∧ 0x57 + n ≤ 0x66) := by omega
    unfold hexVal
    rw [this, if_neg a1, if_pos a2]
    congr 1
    omega

theorem unquoteLoop_quote (f : Nat) (c : Byte) (rest : Bytes) (hc : c.val = 0x22) :
    unquoteLoop (f + 1) (c :: rest) = some ([], rest) := by
  simp [unquoteLoop, hc]

theorem unquoteLoop_plain (f : Nat) (c : Byte) (rest : Bytes) (h1 : c.val ≠ 0x22)
    (h2 : c.val ≠ 0x5C) (h3 : 0x20 ≤ c.val) (h4 : c.val < 0x80) :
    unquoteLoop (f + 1) (c :: rest) = (unquoteLoop f rest).map fun p => (c :: p.1, p.2) := by
  have h5 : ¬ c.val < 0x20 := by omega
  simp [unquoteLoop, h1, h2, h5, h4]

theorem unquoteLoop_simple (f : Nat) (c e b : Byte) (rest : Bytes) (hc : c.val = 0x5C)
    (he : e.val ≠ 0x75) (hs : simpleEscape e = some b) :
    unquoteLoop (f + 1) (c :: e :: rest)
      = (unquoteLoop f rest).map fun p => (b :: p.1, p.2) := by
  simp [unquoteLoop, hc, he, hs]

theorem unquoteLoop_unicode (f : Nat) (c e h1 h2 h3 h4 : Byte) (rest : Bytes) (rr : Nat)
    (hc : c.val = 0x5C) (he : e.val = 0x75)
    (hg : getu4 (c :: e :: h1 :: h2 :: h3 :: h4 :: rest) = some rr)
    (hns : ¬ (0xD800 ≤ rr ∧ rr < 0xE000)) :
    unquoteLoop (f + 1) (c :: e :: h1 :: h2 :: h3 :: h4 :: rest)
      = (unquoteLoop f rest).map fun p => (encodeRune rr ++ p.1, p.2) := by
  simp [unquoteLoop, hc, he, hg, hns]

theorem unquoteLoop_multi (f : Nat) (c : Byte) (rest : Bytes) (h : 0x80 ≤ c.val) :
    unquoteLoop (f + 1) (c :: rest)
      = (unquoteLoop f ((c :: rest).drop (decodeRune (c :: rest)).2)).map
          fun p => (encodeRune (decodeRune (c :: rest)).1 ++ p.1, p.2) := by
  have h1 : c.val ≠ 0x22 := by omega
  have h2 : c.val ≠ 0x5C := by omega
  have h3 : ¬ c.val < 0x20 := by omega
  have h4 : ¬ c.val < 0x80 := by omega
  simp [unquoteLoop, h1, h2, h3, h4]

theorem getu4_hex (c e h1 h2 h3 h4 : Byte) (rest : Bytes) (a b x y : Nat)
    (hc : c.val = 0x5C) (he : e.val = 0x75)
    (e1 : hexVal h1 = some a) (e2 : hexVal h2 = some b) (e3 : hexVal h3 = some x)
    (e4 : hexVal h4 = some y) :
    getu4 (c :: e :: h1 :: h2 :: h3 :: h4 :: rest) = some (a * 4096 + b * 256 + x * 16 + y) := by
  simp [getu4, hc, he, e1, e2, e3, e4]


theorem escapeLoop_succ_cons (n : Nat) (b : Byte) (t : Bytes) :
    escapeLoop (n + 1) (b :: t)
      = escapeChunk b t ++ escapeLoop n ((b :: t).drop (decodeRune (b :: t)).2) := by
  unfold escapeChunk
  rw [escapeLoop]
  by_cases hb : b.val < 0x80
  · simp [hb, decodeRune]
  · simp only [hb, if_false]
    by_cases hv : (decodeRune (b :: t)).1 = RuneError ∧ (decodeRune (b :: t)).2 = 1
    · simp [hv]
    · simp only [hv, if_false]
      split <;> rfl

theorem validLoop_succ_cons (n : Nat) (b : Byte) (t : Bytes)
    (h : validLoop (n + 1) (b :: t) = true) :
    ¬ ((decodeRune (b :: t)).1 = RuneError ∧ (decodeRune (b :: t)).2 = 1)
      ∧ validLoop n ((b :: t).drop (decodeRune (b :: t)).2) = true := by
  rw [validLoop] at h
  split at h
  · simp at h
  · rename_i hv
    exact ⟨hv, h⟩


theorem htmlSafe_iff (b : Byte) :
    htmlSafe b = true ↔ 0x20 ≤ b.val ∧ b.val < 0x80 ∧ b.val ≠ 0x22 ∧ b.val ≠ 0x26
      ∧ b.val ≠ 0x3C ∧ b.val ≠ 0x3E ∧ b.val ≠ 0x5C := by
  simp [htmlSafe, and_assoc]

/-- Reading back what one turn of the string encoder wrote for a valid rune:
`unquote` takes exactly that text and yields the octets of the rune. -/
theorem unquoteLoop_escapeChunk (b : Byte) (t : Bytes)
    (hv : ¬ ((decodeRune (b :: t)).1 = RuneError ∧ (decodeRune (b :: t)).2 = 1))
    (f : Nat) (X : Bytes) :
    unquoteLoop (f + 1) (escapeChunk b t ++ X)
      = (unquoteLoop f X).map fun p => ((b :: t).take (decodeRune (b :: t)).2 ++ p.1, p.2) := by
  unfold escapeChunk
  by_cases hb : b.val < 0x80
  · have hd : decodeRune (b :: t) = (b.val, 1) := by simp [decodeRune, hb]
    rw [hd, if_pos hb]
    simp only [List.take_succ_cons, List.take_zero, List.singleton_append]
    by_cases hs : htmlSafe b = true
    · rw [if_pos hs]
      have := (htmlSafe_iff b).1 hs
      simpa using unquoteLoop_plain f b X this.2.2.1 this.2.2.2.2.2.2 this.1 this.2.1
    · rw [if_neg hs]
      unfold escapeASCII
      by_cases h1 : b.val = 0x5C ∨ b.val = 0x22
      · rw [if_pos h1]
        have hs1 : simpleEscape b = some b := by
          rcases h1 with h | h <;> simp [simpleEscape, h]
        simpa using unquoteLoop_simple f 0x5C b b X rfl (by omega) hs1
      · rw [if_neg h1]
        by_cases h2 : b.val = 0x0A
        · rw [if_pos h2]
          have hb' : b = 0x0A := Fin.ext h2
          subst hb'
          simpa using unquoteLoop_simple f 0x5C 0x6E 0x0A X rfl (by decide) (by decide)
        · rw [if_neg h2]
          by_cases h3 : b.val = 0x0D
          · rw [if_pos h3]
            have hb' : b = 0x0D := Fin.ext h3
            subst hb'
            simpa using unquoteLoop_simple f 0x5C 0x72 0x0D X rfl (by decide) (by decide)
          · rw [if_neg h3]
            by_cases h4 : b.val = 0x09
            · rw [if_pos h4]
              have hb' : b = 0x09 := Fin.ext h4
              subst hb'
              simpa using unquoteLoop_simple f 0x5C 0x74 0x09 X rfl (by decide) (by decide)
            · rw [if_neg h4]
              have hg := getu4_hex 0x5C 0x75 0x30 0x30 (hexDigit (b.val / 16))
                (hexDigit (b.val % 16)) X 0 0 (b.val / 16) (b.val % 16) rfl rfl (by decide)
                (by decide) (hexVal_hexDigit _ (by omega)) (hexVal_hexDigit _ (by omega))
              have hval : 0 * 4096 + 0 * 256 + b.val / 16 * 16 + b.val % 16 = b.val := by omega
              rw [hval] at hg
              have he : encodeRune b.val = [b] := by
                simp only [encodeRune, hb, if_true]
                rw [byte_eq_of_val b _ rfl]
              have := unquoteLoop_unicode f 0x5C 0x75 0x30 0x30 (hexDigit (b.val / 16))
                (hexDigit (b.val % 16)) X b.val rfl rfl hg (by omega)
              rw [he] at this
              simpa using this
  · rw [if_neg hb, if_neg hv]
    have henc := encodeRune_decodeRune b t hv
    have hw := decodeRune_width b t
    by_cases hls : (decodeRune (b :: t)).1 = 0x2028 ∨ (decodeRune (b :: t)).1 = 0x2029
    · rw [if_pos hls]
      have hg := getu4_hex 0x5C 0x75 0x32 0x30 0x32 (hexDigit ((decodeRune (b :: t)).1 % 16))
        X 2 0 2 ((decodeRune (b :: t)).1 % 16) rfl rfl (by decide) (by decide) (by decide)
        (hexVal_hexDigit _ (by omega))
      have hval : 2 * 4096 + 0 * 256 + 2 * 16 + (decodeRune (b :: t)).1 % 16
          = (decodeRune (b :: t)).1 := by omega
      rw [hval] at hg
      have := unquoteLoop_unicode f 0x5C 0x75 0x32 0x30 0x32
        (hexDigit ((decodeRune (b :: t)).1 % 16)) X (decodeRune (b :: t)).1 rfl rfl hg
        (by omega)
      rw [henc] at this
      simpa using this
    · rw [if_neg hls]
      obtain ⟨w, hw1⟩ : ∃ w, (decodeRune (b :: t)).2 = w + 1 := ⟨(decodeRune (b :: t)).2 - 1, by omega⟩
      have hloc := decodeRune_take_append b t X hv
      have hlen : ((b :: t).take (decodeRune (b :: t)).2).length = (decodeRune (b :: t)).2 := by
        rw [List.length_take]
        omega
      have hdrop : (((b :: t).take (decodeRune (b :: t)).2) ++ X).drop (decodeRune (b :: t)).2
          = X := by
        rw [List.drop_append_eq_append_drop, hlen]
        simp
      have hcons : (b :: t).take (decodeRune (b :: t)).2 ++ X
          = b :: (t.take w ++ X) := by
        rw [hw1]
        simp
      have := unquoteLoop_multi f b (t.take w ++ X) (by omega)
      rw [← hcons, hloc, hdrop, henc] at this
      exact this


theorem escapeChunk_length_pos (b : Byte) (t : Bytes) : 1 ≤ (escapeChunk b t).length := by
  unfold escapeChunk escapeASCII
  have hw := decodeRune_width b t
  split_ifs <;> first | (simp; done) | (simp; omega)

/-- Round trip of a string through the encoder's loop and `unquote`, for any
sufficient fuel: valid UTF-8 comes back unchanged, and the input after the
closing quote is left over. -/
theorem unquoteLoop_escapeLoop (n : Nat) :
    ∀ (s rest : Bytes) (fuel : Nat), s.length ≤ n → validLoop n s = true →
      (escapeLoop n s).length + 1 ≤ fuel →
      unquoteLoop fuel (escapeLoop n s ++ 0x22 :: rest) = some (s, rest) := by
  induction n with
  | zero =>
    intro s rest fuel hl _ hf
    have hs : s = [] := List.length_eq_zero.1 (Nat.le_zero.1 hl)
    subst hs
    obtain ⟨f, rfl⟩ : ∃ f, fuel = f + 1 := ⟨fuel - 1, by omega⟩
    simpa [escapeLoop] using unquoteLoop_quote f 0x22 rest rfl
  | succ n ih =>
    intro s rest fuel hl hv hf
    obtain ⟨f, rfl⟩ : ∃ f, fuel = f + 1 := ⟨fuel - 1, by omega⟩
    cases s with
    | nil => simpa [escapeLoop] using unquoteLoop_quote f 0x22 rest rfl
    | cons b t =>
      have hvl := validLoop_succ_cons n b t hv
      have hw := decodeRune_width b t
      have hc := escapeChunk_length_pos b t
      rw [escapeLoop_succ_cons] at hf ⊢
      rw [List.append_assoc, unquoteLoop_escapeChunk b t hvl.1]
      rw [ih ((b :: t).drop (decodeRune (b :: t)).2) rest f
        (by rw [List.length_drop]; simp only [List.length_cons] at hl hw ⊢; omega) hvl.2
        (by rw [List.length_append] at hf; omega)]
      simp

/-- Round trip of a Go string that is valid UTF-8 through `json.Marshal` and
the decoder's `unquote`. -/
theorem unquote_escapeLoop (s rest : Bytes) (hv : validUTF8 s = true) :
    unquote (escapeLoop s.length s ++ 0x22 :: rest) = some (s, rest) := by
  unfold unquote
  exact unquoteLoop_escapeLoop s.length s rest _ (Nat.le_refl _) hv
    (by rw [List.length_append]; simp)


/-! ## Integers: `strconv.ParseInt` after `strconv.FormatInt` -/

theorem digit_val (d : Nat) (h : d < 10) : (byte (0x30 + d)).val = 0x30 + d := by
  rw [byte_val]; omega

theorem isDigit_digit (d : Nat) (h : d < 10) : isDigit (byte (0x30 + d)) = true := by
  simp only [isDigit, digit_val d h]
  simp
  omega

/-- The shape of the text `decimalLoop` writes: a leading digit, which is
zero only for the number zero, then further digits. -/
theorem decimalLoop_spec (fuel : Nat) :
    ∀ (n : Nat) (acc : Bytes), n < fuel →
      ∃ (d : Nat) (ds : Bytes), decimalLoop fuel n acc = byte (0x30 + d) :: (ds ++ acc)
        ∧ d < 10 ∧ (n ≠ 0 → d ≠ 0) ∧ (n < 10 → ds = [])
        ∧ ∀ x ∈ ds, isDigit x = true := by
  induction fuel with
  | zero => intro n acc h; omega
  | succ fuel ih =>
    intro n acc h
    rw [decimalLoop]
    by_cases hn : n < 10
    · rw [if_pos hn]
      exact ⟨n, [], rfl, hn, fun h0 => h0, fun _ => rfl, by simp⟩
    · rw [if_neg hn]
      obtain ⟨d, ds, he, hd, hd0, _, hds⟩ :=
        ih (n / 10) (byte (0x30 + n % 10) :: acc) (by omega)
      refine ⟨d, ds ++ [byte (0x30 + n % 10)], ?_, hd, fun _ => hd0 (by omega),
        fun h10 => absurd h10 hn, ?_⟩
      · rw [he]
        simp
      · intro x hx
        rcases List.mem_append.1 hx with h1 | h1
        · exact hds x h1
        · rw [List.mem_singleton.1 h1]
          exact isDigit_digit _ (by omega)

/-- Reading the digits written by `decimalLoop` gives the number back. -/
theorem digitsValue_decimalLoop (fuel : Nat) :
    ∀ (n : Nat) (acc : Bytes) (p m : Nat), n < fuel →
      (∀ a, digitsValue acc a = some (a * p + m)) →
      digitsValue (decimalLoop fuel n acc) 0 = some (n * p + m) := by
  induction fuel with
  | zero => intro n acc p m h; omega
  | succ fuel ih =>
    intro n acc p m h hacc
    rw [decimalLoop]
    by_cases hn : n < 10
    · rw [if_pos hn]
      rw [digitsValue, if_pos (isDigit_digit n hn), digit_val n hn, hacc]
      have : 0 * 10 + (48 + n - 48) = n := by omega
      rw [this]
    · rw [if_neg hn]
      rw [ih (n / 10) (byte (0x30 + n % 10) :: acc) (10 * p) (n % 10 * p + m) (by omega)]
      · congr 1
        have h10 := Nat.div_add_mod n 10
        calc n / 10 * (10 * p) + (n % 10 * p + m)
            = (10 * (n / 10) + n % 10) * p + m := by ring
          _ = n * p + m := by rw [h10]
      · intro a
        rw [digitsValue, if_pos (isDigit_digit _ (by omega)), digit_val _ (by omega), hacc]
        congr 1
        have : 48 + n % 10 - 48 = n % 10 := by omega
        rw [this]
        ring

theorem digitsValue_nil (a : Nat) : digitsValue [] a = some (a * 1 + 0) := by
  simp [digitsValue]

/-- `strconv.ParseInt` reads back what `strconv.FormatInt` wrote for a value
in the range of `int64`. -/
theorem parseInt_formatInt (i : Int) (hi : isInt64 i) : parseInt (formatInt i) = some i := by
  obtain ⟨d, ds, he, hd, -, -, -⟩ := decimalLoop_spec (i.natAbs + 1) i.natAbs [] (by omega)
  have hval := digitsValue_decimalLoop (i.natAbs + 1) i.natAbs [] 1 0 (by omega) digitsValue_nil
  simp only [Nat.mul_one, Nat.add_zero] at hval
  simp only [List.append_nil] at he
  unfold formatInt parseInt
  by_cases hneg : i < 0
  · rw [if_pos hneg]
    have h1 : decimalLoop (i.natAbs + 1) i.natAbs [] ≠ [] := by rw [he]; simp
    have e1 : (0x2D : Byte).val = 0x2D := rfl
    have habs : |i| = -i := abs_of_neg hneg
    simp [e1, h1, hval]
    rw [habs, neg_neg]
    exact ⟨hi, rfl⟩
  · rw [if_neg hneg, he]
    have hb := digit_val d hd
    have h1 : ¬ (byte (0x30 + d)).val = 0x2D := by omega
    have h2 : ¬ (byte (0x30 + d)).val = 0x2B := by omega
    rw [he] at hval
    have habs : |i| = i := abs_of_nonneg (by omega)
    simp [h1, h2, hval]
    rw [habs]
    exact ⟨hi, by omega⟩


/-! ## Values: the scanner on marshalled strings and integers -/

theorem spanDigits_append (ds : Bytes) (c : Byte) (rest : Bytes)
    (hds : ∀ x ∈ ds, isDigit x = true) (hc : isDigit c = false) :
    spanDigits (ds ++ c :: rest) = (ds, c :: rest) := by
  induction ds with
  | nil => simp [spanDigits, hc]
  | cons x xs ih =>
    have hx : isDigit x = true := hds x (List.mem_cons_self _ _)
    have := ih (fun y hy => hds y (List.mem_cons_of_mem _ hy))
    simp [spanDigits, hx, this]

/-- The scanner reads a number written by `strconv.FormatInt` up to the next
octet, when that octet cannot continue a number. -/
theorem scanNumber_formatInt (i : Int) (c : Byte) (rest : Bytes) (hc1 : isDigit c = false)
    (hc2 : c.val ≠ 0x2E) (hc3 : c.val ≠ 0x65) (hc4 : c.val ≠ 0x45) :
    scanNumber (formatInt i ++ c :: rest) = some (formatInt i, c :: rest) := by
  obtain ⟨d, ds, he, hd, hd0, hds0, hds⟩ :=
    decimalLoop_spec (i.natAbs + 1) i.natAbs [] (by omega)
  simp only [List.append_nil] at he
  have hb := digit_val d hd
  have hdig := isDigit_digit d hd
  have hspan := spanDigits_append ds c rest hds hc1
  have hint : scanIntPart (byte (0x30 + d) :: (ds ++ c :: rest))
      = some (byte (0x30 + d) :: ds, c :: rest) := by
    by_cases hz : d = 0
    · have hn : i.natAbs = 0 := by
        by_contra hne
        exact hd0 hne hz
      have hnil : ds = [] := hds0 (by omega)
      subst hnil
      subst hz
      simp [scanIntPart, hb]
    · have : ¬ (byte (0x30 + d)).val = 0x30 := by omega
      simp [scanIntPart, this, hdig, hspan]
  have hfrac : scanFraction (c :: rest) = some ([], c :: rest) := by
    simp [scanFraction, hc2]
  have hexp : scanExponent (c :: rest) = some ([], c :: rest) := by
    simp [scanExponent, hc3, hc4]
  unfold formatInt scanNumber
  by_cases hneg : i < 0
  · rw [if_pos hneg, he]
    have e1 : (0x2D : Byte).val = 0x2D := rfl
    simp [e1, hint, hfrac, hexp]
  · rw [if_neg hneg, he]
    have h1 : ¬ (byte (0x30 + d)).val = 0x2D := by omega
    simp [h1, hint, hfrac, hexp]

theorem formatInt_head (i : Int) :
    ∃ (b : Byte) (t : Bytes), formatInt i = b :: t ∧ (b.val = 0x2D ∨ isDigit b = true) := by
  obtain ⟨d, ds, he, hd, -, -, -⟩ := decimalLoop_spec (i.natAbs + 1) i.natAbs [] (by omega)
  unfold formatInt
  by_cases hneg : i < 0
  · rw [if_pos hneg]
    exact ⟨0x2D, _, rfl, Or.inl rfl⟩
  · rw [if_neg hneg, he]
    exact ⟨_, _, rfl, Or.inr (isDigit_digit d hd)⟩

/-- `scanValue` on the text of an `int` field followed by `,` or `}`. -/
theorem scanValue_formatInt (fuel : Nat) (i : Int) (c : Byte) (rest : Bytes)
    (hc : c.val = 0x2C ∨ c.val = 0x7D) :
    scanValue (fuel + 1) (formatInt i ++ c :: rest)
      = some (JTok.number (formatInt i), c :: rest) := by
  have hnum := scanNumber_formatInt i c rest
    (by rcases hc with h | h <;> simp [isDigit, h]) (by omega) (by omega) (by omega)
  obtain ⟨b, t, hbt, hb⟩ := formatInt_head i
  rw [hbt] at hnum ⊢
  have hb20 : 0x2D ≤ b.val ∧ b.val ≤ 0x39 := by
    rcases hb with h | h
    · omega
    · simp only [isDigit, Bool.and_eq_true, decide_eq_true_eq] at h
      omega
  have n1 : ¬ b.val = 0x7B := by omega
  have n2 : ¬ b.val = 0x5B := by omega
  have n3 : ¬ b.val = 0x22 := by omega
  have n4 : ¬ b.val = 0x74 := by omega
  have n5 : ¬ b.val = 0x66 := by omega
  have n6 : ¬ b.val = 0x6E := by omega
  rw [List.cons_append] at hnum ⊢
  rw [scanValue]
  simp only [n1, n2, n3, n4, n5, n6, if_false]
  rw [if_pos (by simpa using hb), hnum]
  rfl

/-- `scanValue` on the text of a `string` field that is valid UTF-8. -/
theorem scanValue_encodeString (fuel : Nat) (s rest : Bytes) (hv : validUTF8 s = true) :
    scanValue (fuel + 1) (encodeString s ++ rest) = some (JTok.string s, rest) := by
  unfold encodeString
  have e1 : (0x22 : Byte).val = 0x22 := rfl
  have := unquote_escapeLoop s rest hv
  simp only [List.cons_append, List.append_assoc, List.singleton_append]
  rw [scanValue]
  simp [e1, this]


/-! ## Objects: the scanner on a marshalled struct -/

theorem skipSpace_cons (b : Byte) (X : Bytes) (h : isSpace b = false) :
    skipSpace (b :: X) = b :: X := by
  simp [skipSpace, h]

theorem readsAs_encodeString (s : Bytes) (hv : validUTF8 s = true) :
    ReadsAs (encodeString s) (JTok.string s) := by
  constructor
  · intro X
    unfold encodeString
    exact skipSpace_cons _ _ (by decide)
  · intro fuel c rest _
    exact scanValue_encodeString fuel s (c :: rest) hv

theorem readsAs_formatInt (i : Int) : ReadsAs (formatInt i) (JTok.number (formatInt i)) := by
  constructor
  · intro X
    obtain ⟨b, t, hbt, hb⟩ := formatInt_head i
    rw [hbt]
    refine skipSpace_cons _ _ ?_
    rcases hb with h | h
    · simp [isSpace, h]
    · simp only [isDigit, Bool.and_eq_true, decide_eq_true_eq] at h
      have h1 : ¬ b.val = 0x20 := by omega
      have h2 : ¬ b.val = 0x09 := by omega
      have h3 : ¬ b.val = 0x0D := by omega
      have h4 : ¬ b.val = 0x0A := by omega
      simp [isSpace, h1, h2, h3, h4]
  · intro fuel c rest hc
    exact scanValue_formatInt fuel i c rest hc

/-- The member texts of a struct whose fields have the given names, value
texts and (for the statement of what the decoder reads) tokens. -/
theorem member_eq (name : String) (txt : Bytes) :
    member name txt
      = 0x22 :: (escapeLoop (goString name).length (goString name) ++ 0x22 :: 0x3A :: txt) := by
  simp [member, encodeString]

/-- One member, read by `scanMembers`: the key, the colon and the value, up
to the `,` or `}` after it. -/
theorem scanMembers_member (fuel : Nat) (name : String) (txt : Bytes) (tok : JTok) (c : Byte)
    (rest : Bytes) (first : Bool) (hname : validUTF8 (goString name) = true)
    (hr : ReadsAs txt tok) (hc : c.val = 0x2C ∨ c.val = 0x7D) :
    scanMembers (fuel + 2) (member name txt ++ c :: rest) first
      = if c.val = 0x2C then
          (scanMembers (fuel + 1) (skipSpace rest) false).map
            fun p => ((goString name, tok) :: p.1, p.2)
        else some ([(goString name, tok)], rest) := by
  rw [member_eq]
  have hq := unquote_escapeLoop (goString name) (0x3A :: (txt ++ c :: rest)) hname
  have e1 : (0x22 : Byte).val = 0x22 := rfl
  have e2 : (0x3A : Byte).val = 0x3A := rfl
  have hs1 : skipSpace (0x3A :: (txt ++ c :: rest)) = 0x3A :: (txt ++ c :: rest) :=
    skipSpace_cons _ _ (by decide)
  have hs2 : skipSpace (c :: rest) = c :: rest :=
    skipSpace_cons _ _ (by rcases hc with h | h <;> simp [isSpace, h])
  simp only [List.cons_append, List.append_assoc]
  rw [scanMembers]
  have n1 : ¬ (first = true ∧ (0x22 : Byte).val = 0x7D) := by
    intro h
    exact absurd h.2 (by decide)
  rw [if_neg n1, if_pos e1, hq]
  simp only [hs1, e2, if_true, hr.1, hr.2 fuel c rest hc, hs2]
  rcases hc with h | h
  · simp [h]
  · simp [h]

theorem joinMembers_cons_cons (m m1 : Bytes) (ms : List Bytes) :
    joinMembers (m :: m1 :: ms) = m ++ 0x2C :: joinMembers (m1 :: ms) := by
  simp [joinMembers]

theorem joinMembers_single (m : Bytes) : joinMembers [m] = m := by
  simp [joinMembers]

/-- All members of a marshalled struct, read by `scanMembers`. -/
theorem scanMembers_joinMembers (fs : List (String × Bytes × JTok)) :
    ∀ (fuel : Nat) (first : Bool) (rest : Bytes), fs ≠ [] → fs.length + 1 ≤ fuel →
      (∀ f ∈ fs, validUTF8 (goString f.1) = true ∧ ReadsAs f.2.1 f.2.2) →
      scanMembers fuel (joinMembers (fs.map fun f => member f.1 f.2.1) ++ 0x7D :: rest) first
        = some (fs.map fun f => (goString f.1, f.2.2), rest) := by
  induction fs with
  | nil => intro fuel first rest h; exact absurd rfl h
  | cons f gs ih =>
    intro fuel first rest _ hfuel hfs
    have hf := hfs f (List.mem_cons_self _ _)
    obtain ⟨k, rfl⟩ : ∃ k, fuel = k + 2 := ⟨fuel - 2, by simp at hfuel; omega⟩
    cases gs with
    | nil =>
      simp only [List.map_cons, List.map_nil, joinMembers_single]
      rw [scanMembers_member k f.1 f.2.1 f.2.2 0x7D rest first hf.1 hf.2 (Or.inr rfl),
        if_neg (by decide)]
    | cons g hs =>
      simp only [List.map_cons, joinMembers_cons_cons, List.append_assoc, List.cons_append]
      rw [scanMembers_member k f.1 f.2.1 f.2.2 0x2C _ first hf.1 hf.2 (Or.inl rfl),
        if_pos (show (0x2C : Byte).val = 0x2C from rfl)]
      have hstart : skipSpace (joinMembers (member g.1 g.2.1 ::
            List.map (fun f => member f.1 f.2.1) hs) ++ 0x7D :: rest)
          = joinMembers (member g.1 g.2.1 :: List.map (fun f => member f.1 f.2.1) hs)
            ++ 0x7D :: rest := by
        cases hs with
        | nil =>
          simp only [List.map_nil, joinMembers_single, member_eq, List.cons_append]
          exact skipSpace_cons _ _ (by decide)
        | cons h hs1 =>
          simp only [List.map_cons, joinMembers_cons_cons, member_eq, List.cons_append]
          exact skipSpace_cons _ _ (by decide)
      have := ih (k + 1) false rest (List.cons_ne_nil _ _) (by simp at hfuel ⊢; omega)
        (fun x hx => hfs x (List.mem_cons_of_mem _ hx))
      simp only [List.map_cons] at this
      rw [hstart, this]
      rfl


theorem joinMembers_length (ms : List Bytes) : ms.length ≤ (joinMembers ms).length + 1 := by
  induction ms with
  | nil => simp
  | cons m ms ih =>
    cases ms with
    | nil => simp
    | cons m1 ms1 =>
      rw [joinMembers_cons_cons]
      simp only [List.length_cons, List.length_append] at ih ⊢
      omega

/-- The scanner on a marshalled struct: `checkValid` accepts the text and the
decoder sees the members with their keys and values. -/
theorem scanTop_jsonObject (fs : List (String × Bytes × JTok)) (hne : fs ≠ [])
    (hfs : ∀ f ∈ fs, validUTF8 (goString f.1) = true ∧ ReadsAs f.2.1 f.2.2) :
    scanTop (jsonObject (fs.map fun f => member f.1 f.2.1))
      = some (JTop.object (fs.map fun f => (goString f.1, f.2.2))) := by
  have hlen := joinMembers_length (fs.map fun f => member f.1 f.2.1)
  have hstart : skipSpace (joinMembers (fs.map fun f => member f.1 f.2.1) ++ [0x7D])
      = joinMembers (fs.map fun f => member f.1 f.2.1) ++ [0x7D] := by
    rcases fs with _ | ⟨f, _ | ⟨g, gs⟩⟩
    · exact absurd rfl hne
    · simp only [List.map_cons, List.map_nil, joinMembers_single, member_eq, List.cons_append]
      exact skipSpace_cons _ _ (by decide)
    · simp only [List.map_cons, joinMembers_cons_cons, member_eq, List.cons_append]
      exact skipSpace_cons _ _ (by decide)
  have hscan := scanMembers_joinMembers fs
    (jsonObject (fs.map fun f => member f.1 f.2.1)).length true [] hne
    (by simp only [jsonObject, List.length_cons, List.length_append, List.length_map] at hlen ⊢
        omega) hfs
  unfold scanTop
  rw [show skipSpace (jsonObject (fs.map fun f => member f.1 f.2.1))
      = 0x7B :: (joinMembers (fs.map fun f => member f.1 f.2.1) ++ [0x7D]) from
    skipSpace_cons _ _ (by decide)]
  simp only [show (0x7B : Byte).val = 0x7B from rfl, if_true, hstart]
  rw [hscan]
  simp [skipSpace]

namespace MiFull

/-! ## Round trip of the `mi.full` records -/

theorem authorization_fields :
    findField Authorization.names (goString "ID") = some 0
      ∧ findField Authorization.names (goString "prescriptionID") = some 1
      ∧ findField Authorization.names (goString "patientID") = some 2
      ∧ findField Authorization.names (goString "insurerID") = some 3
      ∧ findField Authorization.names (goString "doctorID") = some 4
      ∧ findField Authorization.names (goString "state") = some 5 := by
  decide!

theorem field_names_valid :
    validUTF8 (goString "ID") = true ∧ validUTF8 (goString "prescriptionID") = true
      ∧ validUTF8 (goString "patientID") = true ∧ validUTF8 (goString "insurerID") = true
      ∧ validUTF8 (goString "doctorID") = true ∧ validUTF8 (goString "state") = true
      ∧ validUTF8 (goString "DIN") = true := by
  decide!

/-- Decoding the encoding of an Authorization whose strings are valid UTF-8
and whose state is in the range of `int` gives the Authorization back,
whatever the target held before. -/
theorem authorization_unmarshal_marshal (a v : Authorization)
    (h1 : validUTF8 a.ID = true) (h2 : validUTF8 a.PrescriptionID = true)
    (h3 : validUTF8 a.PatientID = true) (h4 : validUTF8 a.InsurerID = true)
    (h5 : validUTF8 a.DoctorID = true) (h6 : isInt64 a.State) :
    Authorization.unmarshal (Authorization.marshal a) v = some a := by
  have hn := field_names_valid
  have hf := authorization_fields
  have hm : Authorization.marshal a
      = jsonObject (List.map (fun f : String × Bytes × JTok => member f.1 f.2.1)
          [("ID", encodeString a.ID, JTok.string a.ID),
            ("prescriptionID", encodeString a.PrescriptionID, JTok.string a.PrescriptionID),
            ("patientID", encodeString a.PatientID, JTok.string a.PatientID),
            ("insurerID", encodeString a.InsurerID, JTok.string a.InsurerID),
            ("doctorID", encodeString a.DoctorID, JTok.string a.DoctorID),
            ("state", formatInt a.State, JTok.number (formatInt a.State))]) := rfl
  unfold Authorization.unmarshal jsonUnmarshal
  rw [hm, scanTop_jsonObject _ (List.cons_ne_nil _ _)]
  · simp only [List.map_cons, List.map_nil, decodeMembers, hf.1, hf.2.1, hf.2.2.1, hf.2.2.2.1,
      hf.2.2.2.2.1, hf.2.2.2.2.2, Authorization.store, storeString, storeInt,
      parseInt_formatInt a.State h6, Option.map_some']
  · intro f hfm
    simp only [List.mem_cons, List.mem_singleton, List.mem_nil_iff, or_false] at hfm
    rcases hfm with h | h | h | h | h | h <;> subst h
    · exact ⟨hn.1, readsAs_encodeString _ h1⟩
    · exact ⟨hn.2.1, readsAs_encodeString _ h2⟩
    · exact ⟨hn.2.2.1, readsAs_encodeString _ h3⟩
    · exact ⟨hn.2.2.2.1, readsAs_encodeString _ h4⟩
    · exact ⟨hn.2.2.2.2.1, readsAs_encodeString _ h5⟩
    · exact ⟨hn.2.2.2.2.2.1, readsAs_formatInt _⟩

theorem prescription_fields :
    findField Prescription.names (goString "ID") = some 0
      ∧ findField Prescription.names (goString "patientID") = some 1
      ∧ findField Prescription.names (goString "DIN") = some 2
      ∧ findField Prescription.names (goString "state") = some 3 := by
  decide!

theorem patient_fields :
    findField Patient.names (goString "ID") = some 0
      ∧ findField Patient.names (goString "insurerID") = some 1
      ∧ findField Patient.names (goString "doctorID") = some 2 := by
  decide!

/-- Decoding the encoding of a Prescription whose strings are valid UTF-8 and
whose state is in the range of `int` gives the Prescription back. -/
theorem prescription_unmarshal_marshal (p v : Prescription)
    (h1 : validUTF8 p.ID = true) (h2 : validUTF8 p.PatientID = true)
    (h3 : validUTF8 p.DIN = true) (h4 : isInt64 p.State) :
    Prescription.unmarshal (Prescription.marshal p) v = some p := by
  have hn := field_names_valid
  have hf := prescription_fields
  have hm : Prescription.marshal p
      = jsonObject (List.map (fun f : String × Bytes × JTok => member f.1 f.2.1)
          [("ID", encodeString p.ID, JTok.string p.ID),
            ("patientID", encodeString p.PatientID, JTok.string p.PatientID),
            ("DIN", encodeString p.DIN, JTok.string p.DIN),
            ("state", formatInt p.State, JTok.number (formatInt p.State))]) := rfl
  unfold Prescription.unmarshal jsonUnmarshal
  rw [hm, scanTop_jsonObject _ (List.cons_ne_nil _ _)]
  · simp only [List.map_cons, List.map_nil, decodeMembers, hf.1, hf.2.1, hf.2.2.1, hf.2.2.2,
      Prescription.store, storeString, storeInt, parseInt_formatInt p.State h4,
      Option.map_some']
  · intro f hfm
    simp only [List.mem_cons, List.mem_singleton, List.mem_nil_iff, or_false] at hfm
    rcases hfm with h | h | h | h <;> subst h
    · exact ⟨hn.1, readsAs_encodeString _ h1⟩
    · exact ⟨hn.2.2.1, readsAs_encodeString _ h2⟩
    · exact ⟨hn.2.2.2.2.2.2, readsAs_encodeString _ h3⟩
    · exact ⟨hn.2.2.2.2.2.1, readsAs_formatInt _⟩

/-- Decoding the encoding of a Patient whose strings are valid UTF-8 gives
the Patient back. -/
theorem patient_unmarshal_marshal (p v : Patient)
    (h1 : validUTF8 p.ID = true) (h2 : validUTF8 p.InsurerID = true)
    (h3 : validUTF8 p.DoctorID = true) :
    Patient.unmarshal (Patient.marshal p) v = some p := by
  have hn := field_names_valid
  have hf := patient_fields
  have hm : Patient.marshal p
      = jsonObject (List.map (fun f : String × Bytes × JTok => member f.1 f.2.1)
          [("ID", encodeString p.ID, JTok.string p.ID),
            ("insurerID", encodeString p.InsurerID, JTok.string p.InsurerID),
            ("doctorID", encodeString p.DoctorID, JTok.string p.DoctorID)]) := rfl
  unfold Patient.unmarshal jsonUnmarshal
  rw [hm, scanTop_jsonObject _ (List.cons_ne_nil _ _)]
  · simp only [List.map_cons, List.map_nil, decodeMembers, hf.1, hf.2.1, hf.2.2,
      Patient.store, storeString, Option.map_some']
  · intro f hfm
    simp only [List.mem_cons, List.mem_singleton, List.mem_nil_iff, or_false] at hfm
    rcases hfm with h | h | h <;> subst h
    · exact ⟨hn.1, readsAs_encodeString _ h1⟩
    · exact ⟨hn.2.2.2.1, readsAs_encodeString _ h2⟩
    · exact ⟨hn.2.2.2.2.1, readsAs_encodeString _ h3⟩

end MiFull


/-! ## Strings that are not valid UTF-8 -/

theorem encodeRune_RuneError : encodeRune RuneError = [0xEF, 0xBF, 0xBD] := by decide

/-- Reading back what one turn of the string encoder wrote, for any octets:
a valid rune comes back as it is, an invalid octet as U+FFFD. -/
theorem unquoteLoop_escapeChunk_any (b : Byte) (t : Bytes) (f : Nat) (X : Bytes) :
    unquoteLoop (f + 1) (escapeChunk b t ++ X)
      = (unquoteLoop f X).map fun p =>
          ((if (decodeRune (b :: t)).1 = RuneError ∧ (decodeRune (b :: t)).2 = 1 then
              [0xEF, 0xBF, 0xBD]
            else (b :: t).take (decodeRune (b :: t)).2) ++ p.1, p.2) := by
  by_cases hv : (decodeRune (b :: t)).1 = RuneError ∧ (decodeRune (b :: t)).2 = 1
  · rw [if_pos hv]
    have hb : ¬ b.val < 0x80 := by
      intro hb
      have hd : decodeRune (b :: t) = (b.val, 1) := by simp [decodeRune, hb]
      rw [hd] at hv
      simp only [RuneError] at hv
      omega
    unfold escapeChunk
    rw [if_neg hb, if_pos hv]
    have hg := getu4_hex 0x5C 0x75 0x66 0x66 0x66 0x64 X 15 15 15 13 rfl rfl (by decide)
      (by decide) (by decide) (by decide)
    have := unquoteLoop_unicode f 0x5C 0x75 0x66 0x66 0x66 0x64 X _ rfl rfl hg (by omega)
    have he : encodeRune (15 * 4096 + 15 * 256 + 15 * 16 + 13) = [0xEF, 0xBF, 0xBD] :=
      encodeRune_RuneError
    rw [he] at this
    simpa using this
  · rw [if_neg hv]
    exact unquoteLoop_escapeChunk b t hv f X

/-- Round trip of any Go string through the encoder's loop and `unquote`:
the string comes back coerced to valid UTF-8. -/
theorem unquoteLoop_escapeLoop_any (n : Nat) :
    ∀ (s rest : Bytes) (fuel : Nat), s.length ≤ n →
      (escapeLoop n s).length + 1 ≤ fuel →
      unquoteLoop fuel (escapeLoop n s ++ 0x22 :: rest) = some (coerceLoop n s, rest) := by
  induction n with
  | zero =>
    intro s rest fuel hl hf
    have hs : s = [] := List.length_eq_zero.1 (Nat.le_zero.1 hl)
    subst hs
    obtain ⟨f, rfl⟩ : ∃ f, fuel = f + 1 := ⟨fuel - 1, by omega⟩
    simpa [escapeLoop, coerceLoop] using unquoteLoop_quote f 0x22 rest rfl
  | succ n ih =>
    intro s rest fuel hl hf
    obtain ⟨f, rfl⟩ : ∃ f, fuel = f + 1 := ⟨fuel - 1, by omega⟩
    cases s with
    | nil => simpa [escapeLoop, coerceLoop] using unquoteLoop_quote f 0x22 rest rfl
    | cons b t =>
      have hw := decodeRune_width b t
      have hc := escapeChunk_length_pos b t
      rw [escapeLoop_succ_cons] at hf ⊢
      rw [List.append_assoc, unquoteLoop_escapeChunk_any b t]
      rw [ih ((b :: t).drop (decodeRune (b :: t)).2) rest f
        (by rw [List.length_drop]; simp only [List.length_cons] at hl hw ⊢; omega)
        (by rw [List.length_append] at hf; omega)]
      simp [coerceLoop]

theorem unquote_escapeLoop_any (s rest : Bytes) :
    unquote (escapeLoop s.length s ++ 0x22 :: rest) = some (coerceUTF8 s, rest) := by
  unfold unquote coerceUTF8
  exact unquoteLoop_escapeLoop_any s.length s rest _ (Nat.le_refl _)
    (by rw [List.length_append]; simp)

/-- Coercion leaves valid UTF-8 as it is. -/
theorem coerceLoop_valid (n : Nat) :
    ∀ s : Bytes, s.length ≤ n → validLoop n s = true → coerceLoop n s = s := by
  induction n with
  | zero =>
    intro s hl _
    have hs : s = [] := List.length_eq_zero.1 (Nat.le_zero.1 hl)
    subst hs
    simp [coerceLoop]
  | succ n ih =>
    intro s hl hv
    cases s with
    | nil => simp [coerceLoop]
    | cons b t =>
      have hvl := validLoop_succ_cons n b t hv
      have hw := decodeRune_width b t
      rw [coerceLoop]
      simp only [hvl.1, if_false]
      rw [ih _ (by rw [List.length_drop]; simp only [List.length_cons] at hl hw ⊢; omega) hvl.2]
      exact List.take_append_drop _ _

theorem coerceUTF8_valid (s : Bytes) (hv : validUTF8 s = true) : coerceUTF8 s = s :=
  coerceLoop_valid s.length s (Nat.le_refl _) hv

/-- A string whose coerced form is plain ASCII is that ASCII string. -/
theorem coerceLoop_ascii (n : Nat) :
    ∀ s x : Bytes, s.length ≤ n → (∀ b ∈ x, b.val < 0x80) → coerceLoop n s = x → s = x := by
  induction n with
  | zero =>
    intro s x hl _ h
    have hs : s = [] := List.length_eq_zero.1 (Nat.le_zero.1 hl)
    subst hs
    simpa [coerceLoop] using h
  | succ n ih =>
    intro s x hl hx h
    cases s with
    | nil => simpa [coerceLoop] using h
    | cons b t =>
      have hw := decodeRune_width b t
      rw [coerceLoop] at h
      by_cases hb : b.val < 0x80
      · have hd : decodeRune (b :: t) = (b.val, 1) := by simp [decodeRune, hb]
        have hne : ¬ b.val = RuneError := by
          simp only [RuneError]
          omega
        rw [hd] at h
        simp only [hne, false_and, if_false, List.take_succ_cons, List.take_zero,
          List.drop_succ_cons, List.drop_zero, List.singleton_append] at h
        cases x with
        | nil => exact absurd h (List.cons_ne_nil _ _)
        | cons y ys =>
          simp only [List.cons.injEq] at h
          rw [h.1, ih t ys (by simp only [List.length_cons] at hl; omega)
            (fun c hc => hx c (List.mem_cons_of_mem _ hc)) h.2]
      · exfalso
        obtain ⟨w, hw1⟩ : ∃ w, (decodeRune (b :: t)).2 = w + 1 :=
          ⟨(decodeRune (b :: t)).2 - 1, by omega⟩
        split at h
        · cases x with
          | nil => simp at h
          | cons y ys =>
            simp only [List.cons_append, List.cons.injEq] at h
            have := hx y (List.mem_cons_self _ _)
            rw [← h.1] at this
            exact absurd this (by decide)
        · rw [hw1] at h
          cases x with
          | nil => simp at h
          | cons y ys =>
            simp only [List.take_succ_cons, List.cons_append, List.cons.injEq] at h
            have := hx y (List.mem_cons_self _ _)
            rw [← h.1] at this
            exact hb this

theorem coerceUTF8_ascii (s x : Bytes) (hx : ∀ b ∈ x, b.val < 0x80) (h : coerceUTF8 s = x) :
    s = x :=
  coerceLoop_ascii s.length s x (Nat.le_refl _) hx h


theorem scanValue_encodeString_any (fuel : Nat) (s rest : Bytes) :
    scanValue (fuel + 1) (encodeString s ++ rest) = some (JTok.string (coerceUTF8 s), rest) := by
  unfold encodeString
  have e1 : (0x22 : Byte).val = 0x22 := rfl
  have := unquote_escapeLoop_any s rest
  simp only [List.cons_append, List.append_assoc, List.singleton_append]
  rw [scanValue]
  simp [e1, this]

theorem readsAs_encodeString_any (s : Bytes) :
    ReadsAs (encodeString s) (JTok.string (coerceUTF8 s)) := by
  constructor
  · intro X
    unfold encodeString
    exact skipSpace_cons _ _ (by decide)
  · intro fuel c rest _
    exact scanValue_encodeString_any fuel s (c :: rest)

/-- `json.Unmarshal` on a marshalled struct walks over its members. -/
theorem jsonUnmarshal_jsonObject {α : Type} (names : List Bytes)
    (store : α → Nat → JTok → Option α) (fs : List (String × Bytes × JTok)) (v : α)
    (hne : fs ≠ [])
    (hfs : ∀ f ∈ fs, validUTF8 (goString f.1) = true ∧ ReadsAs f.2.1 f.2.2) :
    jsonUnmarshal names store (jsonObject (fs.map fun f => member f.1 f.2.1)) v
      = decodeMembers names store (fs.map fun f => (goString f.1, f.2.2)) v := by
  unfold jsonUnmarshal
  rw [scanTop_jsonObject fs hne hfs]

namespace MiFull

/-- The Authorization with every string coerced to valid UTF-8: what its
encoding decodes to. -/
theorem authorization_unmarshal_marshal_any (a v : Authorization) (h6 : isInt64 a.State) :
    Authorization.unmarshal (Authorization.marshal a) v
      = some ⟨coerceUTF8 a.ID, coerceUTF8 a.PrescriptionID, coerceUTF8 a.PatientID,
          coerceUTF8 a.InsurerID, coerceUTF8 a.DoctorID, a.State⟩ := by
  have hn := field_names_valid
  have hf := authorization_fields
  have hm : Authorization.marshal a
      = jsonObject (List.map (fun f : String × Bytes × JTok => member f.1 f.2.1)
          [("ID", encodeString a.ID, JTok.string (coerceUTF8 a.ID)),
            ("prescriptionID", encodeString a.PrescriptionID,
              JTok.string (coerceUTF8 a.PrescriptionID)),
            ("patientID", encodeString a.PatientID, JTok.string (coerceUTF8 a.PatientID)),
            ("insurerID", encodeString a.InsurerID, JTok.string (coerceUTF8 a.InsurerID)),
            ("doctorID", encodeString a.DoctorID, JTok.string (coerceUTF8 a.DoctorID)),
            ("state", formatInt a.State, JTok.number (formatInt a.State))]) := rfl
  unfold Authorization.unmarshal
  rw [hm, jsonUnmarshal_jsonObject _ _ _ _ (List.cons_ne_nil _ _)]
  · simp only [List.map_cons, List.map_nil, decodeMembers, hf.1, hf.2.1, hf.2.2.1, hf.2.2.2.1,
      hf.2.2.2.2.1, hf.2.2.2.2.2, Authorization.store, storeString, storeInt,
      parseInt_formatInt a.State h6, Option.map_some']
  · intro f hfm
    simp only [List.mem_cons, List.mem_singleton, List.mem_nil_iff, or_false] at hfm
    rcases hfm with h | h | h | h | h | h <;> subst h
    · exact ⟨hn.1, readsAs_encodeString_any _⟩
    · exact ⟨hn.2.1, readsAs_encodeString_any _⟩
    · exact ⟨hn.2.2.1, readsAs_encodeString_any _⟩
    · exact ⟨hn.2.2.2.1, readsAs_encodeString_any _⟩
    · exact ⟨hn.2.2.2.2.1, readsAs_encodeString_any _⟩
    · exact ⟨hn.2.2.2.2.2.1, readsAs_formatInt _⟩

end MiFull
end Chaincode
/-! # The chaincode -/

namespace Chaincode

/-! ## The ledger stub: basic facts -/

theorem PutState_state_other (stub : Stub) (k v k1 : Bytes) (hk : k1 ≠ k) :
    (PutState stub k v).2.state k1 = stub.state k1 := by
  unfold PutState
  split <;> simp [hk]

theorem PutState_getFails (stub : Stub) (k v : Bytes) :
    (PutState stub k v).2.getFails = stub.getFails := by
  unfold PutState
  split <;> rfl

theorem PutState_putFails (stub : Stub) (k v : Bytes) :
    (PutState stub k v).2.putFails = stub.putFails := by
  unfold PutState
  split <;> rfl

theorem PutState_error_unchanged (stub : Stub) (k v : Bytes) (h : (PutState stub k v).1 = true) :
    (PutState stub k v).2 = stub := by
  unfold PutState at h ⊢
  split <;> simp_all

theorem PutState_ok_state (stub : Stub) (k v : Bytes) (h : (PutState stub k v).1 = false) :
    (PutState stub k v).2.state k = some v := by
  unfold PutState at h ⊢
  split <;> simp_all

theorem PutState_ok_of_not_fails (stub : Stub) (k v : Bytes) (h : stub.putFails k v = false) :
    (PutState stub k v).1 = false := by
  simp [PutState, h]

namespace MiFull

/-! ## `mi.full`: saving -/

theorem save_changes_error (stub : Stub) (e : Entry) (id : Bytes) :
    (save_changes stub e id).1.2.isSome = (PutState stub id (jsonMarshal e)).1 := by
  unfold save_changes
  simp only
  split <;> simp_all

theorem save_changes_stub (stub : Stub) (e : Entry) (id : Bytes) :
    (save_changes stub e id).2 = (PutState stub id (jsonMarshal e)).2 := by
  unfold save_changes
  simp only
  split <;> rfl

/-- A successful `create_authorization` has stored the fresh record under
`args[0]` and changed nothing else. -/
theorem create_authorization_ok (stub stub1 : Stub) (id : Bytes) (rest : List Bytes)
    (p : Option Bytes)
    (h : create_authorization stub (id :: rest) = (Outcome.ok p, stub1)) :
    p = some id ∧
      stub1 = (PutState stub id (Authorization.marshal { Authorization.zero with ID := id })).2 ∧
      stub1.state id = some (Authorization.marshal { Authorization.zero with ID := id }) := by
  unfold create_authorization at h
  simp only at h
  split at h
  · simp at h
  · rw [save_changes_error, save_changes_stub] at h
    split at h
    · simp at h
    · rename_i hput
      simp only [Prod.mk.injEq, Outcome.ok.injEq] at h
      refine ⟨h.1.symm, h.2.symm, ?_⟩
      rw [← h.2]
      exact PutState_ok_state _ _ _ (by simpa using hput)

/-! ## `mi.full`: the transition path of `Invoke` -/

/-- What `Invoke` does for a function name other than `create_authorization`. -/
theorem Invoke_transition (stub : Stub) (f id : Bytes) (rest : List Bytes)
    (hf : f ≠ goString "create_authorization") :
    Invoke stub f (id :: rest) =
      if stub.getFails id then (Outcome.error (goString "INVOKE: reqeust can't be found "), stub)
      else
        match Authorization.unmarshal (stringOf (stub.state id)) Authorization.zero with
        | none =>
          (Outcome.error (goString "INVOKE: reqeust corrupted " ++ stringOf (stub.state id)), stub)
        | some a => approve_authorization stub a := by
  unfold Invoke
  rw [if_neg hf]
  simp only [GetState]
  by_cases hg : stub.getFails id = true
  · simp [hg]
  · simp [hg]

/-- On a record in state Created whose write succeeds, `approve_authorization`
stores the record with state Approved under `a.ID` and returns its encoding. -/
theorem approve_authorization_created (stub : Stub) (a : Authorization)
    (hs : a.State = AUTHORIZATION_STATE_CREATED)
    (hput : stub.putFails a.ID
      (Authorization.marshal { a with State := AUTHORIZATION_STATE_APPROVED }) = false) :
    approve_authorization stub a
      = (Outcome.ok (some (Authorization.marshal { a with State := AUTHORIZATION_STATE_APPROVED })),
          (PutState stub a.ID
            (Authorization.marshal { a with State := AUTHORIZATION_STATE_APPROVED })).2) := by
  unfold approve_authorization
  rw [if_pos hs]
  simp only [save_changes_error, save_changes_stub, jsonMarshal]
  rw [PutState_ok_of_not_fails _ _ _ hput]
  simp

/-- On a record in state Created whose write fails, `approve_authorization`
returns "Error saving changes" and leaves the ledger as it is. -/
theorem approve_authorization_put_fails (stub : Stub) (a : Authorization)
    (hs : a.State = AUTHORIZATION_STATE_CREATED)
    (hput : stub.putFails a.ID
      (Authorization.marshal { a with State := AUTHORIZATION_STATE_APPROVED }) = true) :
    approve_authorization stub a = (Outcome.error (goString "Error saving changes"), stub) := by
  unfold approve_authorization
  rw [if_pos hs]
  simp only [save_changes_error, save_changes_stub, jsonMarshal]
  simp [PutState, hput]

/-- On a record in any state but Created, `approve_authorization` returns
"Review failed" and leaves the ledger as it is. -/
theorem approve_authorization_not_created (stub : Stub) (a : Authorization)
    (hs : a.State ≠ AUTHORIZATION_STATE_CREATED) :
    approve_authorization stub a
      = (Outcome.error (goString "Review failed. approve_authorization. "), stub) := by
  unfold approve_authorization
  rw [if_neg hs]

/-- `Invoke` of a transition on a key whose bytes decode to a record in state
Created, when neither the read of the key nor the write of the record fails. -/
theorem Invoke_transition_created (stub : Stub) (f id : Bytes) (a : Authorization)
    (bytes : Bytes) (rest : List Bytes)
    (hf : f ≠ goString "create_authorization")
    (hget : stub.getFails id = false)
    (hstored : stub.state id = some bytes)
    (hdec : Authorization.unmarshal bytes Authorization.zero = some a)
    (hs : a.State = AUTHORIZATION_STATE_CREATED)
    (hput : stub.putFails a.ID
      (Authorization.marshal { a with State := AUTHORIZATION_STATE_APPROVED }) = false) :
    Invoke stub f (id :: rest)
      = (Outcome.ok (some (Authorization.marshal { a with State := AUTHORIZATION_STATE_APPROVED })),
          (PutState stub a.ID
            (Authorization.marshal { a with State := AUTHORIZATION_STATE_APPROVED })).2) := by
  rw [Invoke_transition stub f id rest hf]
  simp only [hget, hstored, stringOf, Option.getD_some, hdec]
  simpa using approve_authorization_created stub a hs hput

/-- `Invoke` of a transition on a key whose bytes decode to a record in any
state but Created, when the read of the key does not fail. -/
theorem Invoke_transition_not_created (stub : Stub) (f id : Bytes) (a : Authorization)
    (bytes : Bytes) (rest : List Bytes)
    (hf : f ≠ goString "create_authorization")
    (hget : stub.getFails id = false)
    (hstored : stub.state id = some bytes)
    (hdec : Authorization.unmarshal bytes Authorization.zero = some a)
    (hs : a.State ≠ AUTHORIZATION_STATE_CREATED) :
    Invoke stub f (id :: rest)
      = (Outcome.error (goString "Review failed. approve_authorization. "), stub) := by
  rw [Invoke_transition stub f id rest hf]
  simp only [hget, hstored, stringOf, Option.getD_some, hdec]
  simpa using approve_authorization_not_created stub a hs

/-- `get_details` on an absent key that reads without error. -/
theorem get_details_absent_aux :
    (Query initStub (goString "get_details") [goString "rx404"]).1 = Outcome.ok none := by
  decide!

/-- `create_authorization` returns an error only with the ledger it was
given. -/
theorem create_authorization_error (stub stub1 : Stub) (args : List Bytes) (msg : Bytes)
    (h : create_authorization stub args = (Outcome.error msg, stub1)) : stub1 = stub := by
  unfold create_authorization at h
  split at h
  · simp at h
  · simp only at h
    split at h
    · simp only [Prod.mk.injEq] at h
      exact h.2.symm
    · rw [save_changes_error, save_changes_stub] at h
      split at h
      · rename_i hput
        simp only [Prod.mk.injEq] at h
        rw [← h.2]
        exact PutState_error_unchanged _ _ _ hput
      · simp at h

/-- `approve_authorization` returns an error only with the ledger it was
given. -/
theorem approve_authorization_error (stub stub1 : Stub) (a : Authorization) (msg : Bytes)
    (h : approve_authorization stub a = (Outcome.error msg, stub1)) : stub1 = stub := by
  unfold approve_authorization at h
  split at h
  · simp only at h
    rw [save_changes_error, save_changes_stub] at h
    split at h
    · rename_i hput
      simp only [Prod.mk.injEq] at h
      rw [← h.2]
      exact PutState_error_unchanged _ _ _ hput
    · simp at h
  · simp only [Prod.mk.injEq] at h
    exact h.2.symm

/-- A successful `approve_authorization` has stored the approved record
under its `ID` and returns its encoding. -/
theorem approve_authorization_ok (stub stub1 : Stub) (a : Authorization) (p : Option Bytes)
    (h : approve_authorization stub a = (Outcome.ok p, stub1)) :
    a.State = AUTHORIZATION_STATE_CREATED
      ∧ p = some (Authorization.marshal { a with State := AUTHORIZATION_STATE_APPROVED })
      ∧ stub1 = (PutState stub a.ID
          (Authorization.marshal { a with State := AUTHORIZATION_STATE_APPROVED })).2
      ∧ stub1.state a.ID
        = some (Authorization.marshal { a with State := AUTHORIZATION_STATE_APPROVED }) := by
  unfold approve_authorization at h
  split at h
  · rename_i hs
    simp only at h
    rw [save_changes_error, save_changes_stub] at h
    split at h
    · simp at h
    · rename_i hput
      simp only [Prod.mk.injEq, Outcome.ok.injEq, jsonMarshal] at h
      refine ⟨hs, h.1.symm, h.2.symm, ?_⟩
      rw [← h.2]
      exact PutState_ok_state _ _ _ (by simpa [jsonMarshal] using hput)
  · simp at h

/-- `Invoke` returns an error only with the ledger it was given. -/
theorem Invoke_error (stub stub1 : Stub) (f : Bytes) (args : List Bytes) (msg : Bytes)
    (h : Invoke stub f args = (Outcome.error msg, stub1)) : stub1 = stub := by
  unfold Invoke at h
  split at h
  · exact create_authorization_error stub stub1 args msg h
  · split at h
    · simp at h
    · simp only at h
      split at h
      · simp only [Prod.mk.injEq] at h
        exact h.2.symm
      · split at h
        · simp only [Prod.mk.injEq] at h
          exact h.2.symm
        · exact approve_authorization_error stub stub1 _ msg h

/-- A successful `Invoke` of a transition has loaded a record in state
Created and stored it, approved, under its `ID`. -/
theorem Invoke_transition_ok (stub stub1 : Stub) (f : Bytes) (args : List Bytes)
    (p : Option Bytes) (hf : f ≠ goString "create_authorization")
    (h : Invoke stub f args = (Outcome.ok p, stub1)) :
    ∃ (id : Bytes) (rest : List Bytes) (a : Authorization),
      args = id :: rest
        ∧ stub.getFails id = false
        ∧ Authorization.unmarshal (stringOf (stub.state id)) Authorization.zero = some a
        ∧ a.State = AUTHORIZATION_STATE_CREATED
        ∧ p = some (Authorization.marshal { a with State := AUTHORIZATION_STATE_APPROVED })
        ∧ stub1 = (PutState stub a.ID
            (Authorization.marshal { a with State := AUTHORIZATION_STATE_APPROVED })).2
        ∧ stub1.state a.ID
          = some (Authorization.marshal { a with State := AUTHORIZATION_STATE_APPROVED }) := by
  cases args with
  | nil => simp [Invoke, hf] at h
  | cons id rest =>
    rw [Invoke_transition stub f id rest hf] at h
    split at h
    · simp at h
    · rename_i hg
      split at h
      · simp at h
      · rename_i a ha
        have := approve_authorization_ok stub stub1 a p h
        exact ⟨id, rest, a, rfl, by simpa using hg, ha, this⟩

/-- `Query` never changes the ledger. -/
theorem Query_stub (stub : Stub) (f : Bytes) (args : List Bytes) :
    (Query stub f args).2 = stub := by
  unfold Query get_details
  split
  · split
    · simp only []
      split <;> rfl
    · rfl
  · rfl

/-- Create, approve and cancel on the identity `[0xFF]`. -/
theorem cancel_after_approve_aux :
    (Invoke (Invoke emptyStub (goString "create_authorization") [[0xFF]]).2
        (goString "approve") [[0xFF]]).1
        = Outcome.ok (some (Authorization.marshal
            ⟨[0xEF, 0xBF, 0xBD], [], [], [], [], AUTHORIZATION_STATE_APPROVED⟩))
      ∧ (Invoke
        (Invoke (Invoke emptyStub (goString "create_authorization") [[0xFF]]).2
          (goString "approve") [[0xFF]]).2
        (goString "cancel") [[0xFF]]).1
        = Outcome.ok (some (Authorization.marshal
            ⟨[0xEF, 0xBF, 0xBD], [], [], [], [], AUTHORIZATION_STATE_APPROVED⟩)) := by
  decide!

/-! ## C1: creating twice -/

/-- C1 (as amended): if `Invoke("create_authorization", [id, ...])` succeeds
and the ledger read of `id` reports no error afterwards, then a second
`Invoke("create_authorization", [id, ...])` on the resulting ledger returns
the error "authorization already exists" and leaves the whole ledger as it
is, the value persisted under `id` by the first call included. -/
theorem create_twice_already_exists (stub stub1 : Stub) (id : Bytes) (rest rest1 : List Bytes)
    (p : Option Bytes)
    (h1 : Invoke stub (goString "create_authorization") (id :: rest) = (Outcome.ok p, stub1))
    (hget : stub1.getFails id = false) :
    Invoke stub1 (goString "create_authorization") (id :: rest1)
        = (Outcome.error (goString "authorization already exists"), stub1)
      ∧ stub1.state id = some (Authorization.marshal { Authorization.zero with ID := id }) := by
  simp only [Invoke, if_true] at h1 ⊢
  have hs := (create_authorization_ok stub stub1 id rest p h1).2.2
  refine ⟨?_, hs⟩
  simp [create_authorization, GetState, hget, hs]

/-- Witness for C1: on the empty ledger, with identity `auth1`. -/
theorem create_twice_already_exists_witness :
    Invoke (Invoke emptyStub (goString "create_authorization") [goString "auth1"]).2
        (goString "create_authorization") [goString "auth1"]
        = (Outcome.error (goString "authorization already exists"),
            (Invoke emptyStub (goString "create_authorization") [goString "auth1"]).2)
      ∧ (Invoke emptyStub (goString "create_authorization") [goString "auth1"]).2.state
          (goString "auth1")
        = some (Authorization.marshal { Authorization.zero with ID := goString "auth1" }) :=
  create_twice_already_exists emptyStub _ (goString "auth1") [] [] (some (goString "auth1"))
    (Prod.ext (by decide!) rfl) (by decide!)

/-- C1 (counterexample): on a ledger whose reads report an error, both the
first and the second `Invoke("create_authorization", ["auth1"])` succeed: the
second call does not return "authorization already exists". -/
theorem create_twice_counterexample :
    (Invoke readFailingStub (goString "create_authorization") [goString "auth1"]).1
        = Outcome.ok (some (goString "auth1"))
      ∧ (Invoke (Invoke readFailingStub (goString "create_authorization") [goString "auth1"]).2
          (goString "create_authorization") [goString "auth1"]).1
        = Outcome.ok (some (goString "auth1")) := by
  decide!

/-! ## C2: approving a created authorization -/

/-- C2 (as amended): for every Authorization `a` stored under its own
identity in state Created, in the sense that the bytes stored under `a.ID`
decode (as `Invoke` loads them) to `a`, on a ledger whose read of `a.ID`
reports no error and whose put succeeds: `Invoke` of a transition (any
function name but `create_authorization`, `approve` among them) on `a.ID`
succeeds; afterwards the ledger holds under `a.ID` the encoding of `a` with
state Approved and every other key is as before. -/
theorem approve_created_persists (stub : Stub) (f : Bytes) (a : Authorization) (bytes : Bytes)
    (rest : List Bytes)
    (hf : f ≠ goString "create_authorization")
    (hget : stub.getFails a.ID = false)
    (hstored : stub.state a.ID = some bytes)
    (hdec : Authorization.unmarshal bytes Authorization.zero = some a)
    (hs : a.State = AUTHORIZATION_STATE_CREATED)
    (hput : stub.putFails a.ID
      (Authorization.marshal { a with State := AUTHORIZATION_STATE_APPROVED }) = false) :
    ∃ stub1 : Stub,
      Invoke stub f (a.ID :: rest)
          = (Outcome.ok (some (Authorization.marshal
              { a with State := AUTHORIZATION_STATE_APPROVED })), stub1)
        ∧ stub1.state a.ID
          = some (Authorization.marshal ⟨a.ID, a.PrescriptionID, a.PatientID, a.InsurerID,
              a.DoctorID, AUTHORIZATION_STATE_APPROVED⟩)
        ∧ ∀ k : Bytes, k ≠ a.ID → stub1.state k = stub.state k := by
  refine ⟨(PutState stub a.ID
      (Authorization.marshal { a with State := AUTHORIZATION_STATE_APPROVED })).2, ?_, ?_, ?_⟩
  · exact Invoke_transition_created stub f a.ID a bytes rest hf hget hstored hdec hs hput
  · exact PutState_ok_state _ _ _ (PutState_ok_of_not_fails _ _ _ hput)
  · intro k hk
    exact PutState_state_other _ _ _ _ hk

/-- Witness for C2: `authorization0` on the ledger left by `Init`. -/
theorem approve_created_persists_witness :
    ∃ stub1 : Stub,
      Invoke initStub (goString "approve") [goString "authorization0"]
          = (Outcome.ok (some (Authorization.marshal
              ⟨goString "authorization0", goString "prescription0", goString "patient0",
                goString "insurer0", goString "doctor0", 1⟩)), stub1)
        ∧ stub1.state (goString "authorization0")
          = some (Authorization.marshal
              ⟨goString "authorization0", goString "prescription0", goString "patient0",
                goString "insurer0", goString "doctor0", 1⟩)
        ∧ ∀ k : Bytes, k ≠ goString "authorization0" → stub1.state k = initStub.state k :=
  approve_created_persists initStub (goString "approve")
    ⟨goString "authorization0", goString "prescription0", goString "patient0",
      goString "insurer0", goString "doctor0", 0⟩
    (Authorization.marshal
      ⟨goString "authorization0", goString "prescription0", goString "patient0",
        goString "insurer0", goString "doctor0", 0⟩)
    [] (by decide!) (by decide!) (by decide!) (by decide!) (by decide!) (by decide!)

/-- C2 (counterexample): `authorization0` is stored under its own identity
in state Created and the ledger accepts every put, but its reads report an
error: `approve` on `authorization0` fails and the ledger stays as it is.
And the Authorization with ID `[0xFF]` in state Created is stored, as its
encoding, under `[0xFF]` on a ledger that reports no error: `approve`
succeeds, but the value under `[0xFF]` stays the record in state Created and
the key `EF BF BD`, empty before, now holds the approved record. -/
theorem approve_created_counterexample :
    readFailingInitStub.state (goString "authorization0")
        = some (Authorization.marshal authorization0)
      ∧ authorization0.State = AUTHORIZATION_STATE_CREATED
      ∧ readFailingInitStub.putFails (goString "authorization0")
          (Authorization.marshal { authorization0 with State := AUTHORIZATION_STATE_APPROVED })
        = false
      ∧ (Invoke readFailingInitStub (goString "approve") [goString "authorization0"]).1
        = Outcome.error (goString "INVOKE: reqeust can't be found ")
      ∧ (Invoke readFailingInitStub (goString "approve")
          [goString "authorization0"]).2.state (goString "authorization0")
        = some (Authorization.marshal authorization0)
      ∧ (Invoke emptyStub (goString "create_authorization") [[0xFF]]).2.state [0xFF]
        = some (Authorization.marshal ⟨[0xFF], [], [], [], [], AUTHORIZATION_STATE_CREATED⟩)
      ∧ (Invoke emptyStub (goString "create_authorization") [[0xFF]]).2.state
          [0xEF, 0xBF, 0xBD] = none
      ∧ (Invoke (Invoke emptyStub (goString "create_authorization") [[0xFF]]).2
          (goString "approve") [[0xFF]]).1
        = Outcome.ok (some (Authorization.marshal
            ⟨[0xEF, 0xBF, 0xBD], [], [], [], [], AUTHORIZATION_STATE_APPROVED⟩))
      ∧ (Invoke (Invoke emptyStub (goString "create_authorization") [[0xFF]]).2
          (goString "approve") [[0xFF]]).2.state [0xFF]
        = some (Authorization.marshal ⟨[0xFF], [], [], [], [], AUTHORIZATION_STATE_CREATED⟩)
      ∧ (Invoke (Invoke emptyStub (goString "create_authorization") [[0xFF]]).2
          (goString "approve") [[0xFF]]).2.state [0xFF]
        ≠ some (Authorization.marshal ⟨[0xFF], [], [], [], [], AUTHORIZATION_STATE_APPROVED⟩)
      ∧ (Invoke (Invoke emptyStub (goString "create_authorization") [[0xFF]]).2
          (goString "approve") [[0xFF]]).2.state [0xEF, 0xBF, 0xBD]
        = some (Authorization.marshal
            ⟨[0xEF, 0xBF, 0xBD], [], [], [], [], AUTHORIZATION_STATE_APPROVED⟩) := by
  decide!

/-! ## C3: terminal states -/

/-- C3 (as amended): for every Authorization stored in a terminal state
(Approved, Rejected or Canceled) and every transition name, `Invoke` of that
transition on its key returns an error and leaves the ledger as it is. In
particular, for an identity that is valid UTF-8: after creating an
authorization and approving it, a subsequent cancel returns the error
"Review failed. approve_authorization. ", the ledger is as before and the
record under the identity is still the approved one. -/
theorem terminal_state_rejects :
    (∀ (stub : Stub) (f id : Bytes) (bytes : Bytes) (a : Authorization) (rest : List Bytes),
        f ≠ goString "create_authorization" →
        stub.state id = some bytes →
        Authorization.unmarshal bytes Authorization.zero = some a →
        (a.State = AUTHORIZATION_STATE_APPROVED ∨ a.State = AUTHORIZATION_STATE_REJECTED
          ∨ a.State = AUTHORIZATION_STATE_CANCELED) →
        ∃ msg : Bytes, Invoke stub f (id :: rest) = (Outcome.error msg, stub))
      ∧ (∀ (stub s1 s2 : Stub) (id : Bytes) (p1 p2 : Option Bytes),
        validUTF8 id = true →
        Invoke stub (goString "create_authorization") [id] = (Outcome.ok p1, s1) →
        Invoke s1 (goString "approve") [id] = (Outcome.ok p2, s2) →
        Invoke s2 (goString "cancel") [id]
            = (Outcome.error (goString "Review failed. approve_authorization. "), s2)
          ∧ s2.state id
            = some (Authorization.marshal ⟨id, [], [], [], [], AUTHORIZATION_STATE_APPROVED⟩)) := by
  constructor
  · intro stub f id bytes a rest hf hstored hdec hs
    by_cases hg : stub.getFails id = true
    · exact ⟨_, by rw [Invoke_transition stub f id rest hf, if_pos hg]⟩
    · refine ⟨_, Invoke_transition_not_created stub f id a bytes rest hf (by simpa using hg)
        hstored hdec ?_⟩
      rcases hs with h | h | h <;> rw [h] <;> decide
  · intro stub s1 s2 id p1 p2 hid h1 h2
    have hv : validUTF8 ([] : Bytes) = true := by decide
    simp only [Invoke, if_true] at h1
    have hc := create_authorization_ok stub s1 id [] p1 h1
    obtain ⟨id1, rest, a, hargs, hget1, hdec, hs, _, hs2, hst2⟩ :=
      Invoke_transition_ok s1 s2 (goString "approve") [id] p2 (by decide!) h2
    simp only [List.cons.injEq] at hargs
    rw [← hargs.1, hc.2.2, stringOf, Option.getD_some,
      authorization_unmarshal_marshal _ _ hid hv hv hv hv (show isInt64 (0 : Int) by decide)]
      at hdec
    have ha : a = { Authorization.zero with ID := id } := (Option.some.inj hdec).symm
    subst ha
    have hst : s2.state id
        = some (Authorization.marshal ⟨id, [], [], [], [], AUTHORIZATION_STATE_APPROVED⟩) := hst2
    refine ⟨?_, hst⟩
    have hget2 : s2.getFails id = false := by
      rw [hs2, PutState_getFails, hargs.1]
      exact hget1
    exact Invoke_transition_not_created s2 (goString "cancel") id
      ⟨id, [], [], [], [], AUTHORIZATION_STATE_APPROVED⟩ _ [] (by decide!) hget2 hst
      (authorization_unmarshal_marshal _ _ hid hv hv hv hv (show isInt64 (1 : Int) by decide))
      (show (1 : Int) ≠ 0 by decide)

/-- Witness for C3: `reject` on `authorization0` after it has been approved;
and create, approve, cancel of `auth1` on the empty ledger. -/
theorem terminal_state_rejects_witness :
    (∃ msg : Bytes, Invoke approvedStub (goString "reject") [goString "authorization0"]
        = (Outcome.error msg, approvedStub))
      ∧ (Invoke
            (Invoke (Invoke emptyStub (goString "create_authorization") [goString "auth1"]).2
              (goString "approve") [goString "auth1"]).2
            (goString "cancel") [goString "auth1"]
          = (Outcome.error (goString "Review failed. approve_authorization. "),
              (Invoke (Invoke emptyStub (goString "create_authorization") [goString "auth1"]).2
                (goString "approve") [goString "auth1"]).2)
        ∧ (Invoke (Invoke emptyStub (goString "create_authorization") [goString "auth1"]).2
              (goString "approve") [goString "auth1"]).2.state (goString "auth1")
          = some (Authorization.marshal
              ⟨goString "auth1", [], [], [], [], AUTHORIZATION_STATE_APPROVED⟩)) :=
  ⟨terminal_state_rejects.1 approvedStub (goString "reject") (goString "authorization0")
      (Authorization.marshal { authorization0 with State := AUTHORIZATION_STATE_APPROVED })
      { authorization0 with State := AUTHORIZATION_STATE_APPROVED } []
      (by decide!) (by decide!) (by decide!) (Or.inl rfl),
    terminal_state_rejects.2 emptyStub _ _ (goString "auth1") (some (goString "auth1"))
      (some (Authorization.marshal
        ⟨goString "auth1", [], [], [], [], AUTHORIZATION_STATE_APPROVED⟩))
      (by decide!) (Prod.ext (by decide!) rfl) (Prod.ext (by decide!) rfl)⟩

/-- C3 (counterexample): with the identity `[0xFF]`, which is not valid
UTF-8, create and approve succeed and the subsequent cancel succeeds too,
instead of returning an error; the record under the identity is not in state
Approved but still the created one. -/
theorem cancel_after_approve_counterexample :
    (Invoke emptyStub (goString "create_authorization") [[0xFF]]).1 = Outcome.ok (some [0xFF])
      ∧ (∃ p, (Invoke (Invoke emptyStub (goString "create_authorization") [[0xFF]]).2
          (goString "approve") [[0xFF]]).1 = Outcome.ok p)
      ∧ (∃ p, (Invoke
          (Invoke (Invoke emptyStub (goString "create_authorization") [[0xFF]]).2
            (goString "approve") [[0xFF]]).2
          (goString "cancel") [[0xFF]]).1 = Outcome.ok p)
      ∧ (Invoke (Invoke emptyStub (goString "create_authorization") [[0xFF]]).2
          (goString "approve") [[0xFF]]).2.state [0xFF]
        = some (Authorization.marshal ⟨[0xFF], [], [], [], [], AUTHORIZATION_STATE_CREATED⟩) := by
  refine ⟨by decide!, ⟨_, cancel_after_approve_aux.1⟩, ⟨_, cancel_after_approve_aux.2⟩,
    by decide!⟩

/-! ## C4: transitions outside the table -/

/-- C4 (as amended): for every Authorization stored in a state other than
Created and every function name other than `create_authorization` (a name of
the transition table or not), `Invoke` on its key returns the error
"Review failed. approve_authorization. " and leaves the ledger as it is,
when the read of the key reports no error. -/
theorem transition_outside_created_rejected (stub : Stub) (f id : Bytes) (a : Authorization)
    (bytes : Bytes) (rest : List Bytes)
    (hf : f ≠ goString "create_authorization")
    (hget : stub.getFails id = false)
    (hstored : stub.state id = some bytes)
    (hdec : Authorization.unmarshal bytes Authorization.zero = some a)
    (hs : a.State ≠ AUTHORIZATION_STATE_CREATED) :
    Invoke stub f (id :: rest)
      = (Outcome.error (goString "Review failed. approve_authorization. "), stub) :=
  Invoke_transition_not_created stub f id a bytes rest hf hget hstored hdec hs

/-- Witness for C4: `submit` on `authorization0` after it has been approved. -/
theorem transition_outside_created_rejected_witness :
    Invoke approvedStub (goString "submit") [goString "authorization0"]
      = (Outcome.error (goString "Review failed. approve_authorization. "), approvedStub) :=
  transition_outside_created_rejected approvedStub (goString "submit")
    (goString "authorization0")
    { authorization0 with State := AUTHORIZATION_STATE_APPROVED }
    (Authorization.marshal { authorization0 with State := AUTHORIZATION_STATE_APPROVED })
    [] (by decide!) (by decide!) (by decide!) (by decide!) (by decide!)

/-- C4 (counterexample): `submit`, which is no row of the Authorization
table, applied to `authorization0` in state Created returns no error: it
succeeds and the persisted record changes to state Approved. -/
theorem transition_outside_table_counterexample :
    (Invoke initStub (goString "submit") [goString "authorization0"]).1
        = Outcome.ok (some (Authorization.marshal
            ⟨goString "authorization0", goString "prescription0", goString "patient0",
              goString "insurer0", goString "doctor0", AUTHORIZATION_STATE_APPROVED⟩))
      ∧ (Invoke initStub (goString "submit") [goString "authorization0"]).2.state
          (goString "authorization0")
        ≠ initStub.state (goString "authorization0") := by
  decide!

/-! ## C5: the next state -/

/-- C5 (as amended): the next state of an Authorization is determined by its
current state alone. For every Authorization `a` in state Created stored
under its own identity (the bytes under `a.ID` decode, as `Invoke` loads
them, to `a`), on a ledger that reports no read error for `a.ID` and accepts
the write, each of `Invoke("approve", [id])`, `Invoke("reject", [id])` and
`Invoke("cancel", [id])` succeeds and persists it with state Approved (1). -/
theorem created_always_approved (stub : Stub) (f : Bytes) (a : Authorization) (bytes : Bytes)
    (rest : List Bytes)
    (hf : f = goString "approve" ∨ f = goString "reject" ∨ f = goString "cancel")
    (hget : stub.getFails a.ID = false)
    (hstored : stub.state a.ID = some bytes)
    (hdec : Authorization.unmarshal bytes Authorization.zero = some a)
    (hs : a.State = AUTHORIZATION_STATE_CREATED)
    (hput : stub.putFails a.ID
      (Authorization.marshal { a with State := AUTHORIZATION_STATE_APPROVED }) = false) :
    (Invoke stub f (a.ID :: rest)).1
        = Outcome.ok (some (Authorization.marshal
            { a with State := AUTHORIZATION_STATE_APPROVED }))
      ∧ (Invoke stub f (a.ID :: rest)).2.state a.ID
        = some (Authorization.marshal { a with State := AUTHORIZATION_STATE_APPROVED }) := by
  have hne : f ≠ goString "create_authorization" := by
    rcases hf with h | h | h <;> rw [h] <;> decide!
  rw [Invoke_transition_created stub f a.ID a bytes rest hne hget hstored hdec hs hput]
  exact ⟨rfl, PutState_ok_state _ _ _ (PutState_ok_of_not_fails _ _ _ hput)⟩

/-- Witness for C5: `cancel` on `authorization0` on the ledger left by
`Init`. -/
theorem created_always_approved_witness :
    (Invoke initStub (goString "cancel") [authorization0.ID]).1
        = Outcome.ok (some (Authorization.marshal
            { authorization0 with State := AUTHORIZATION_STATE_APPROVED }))
      ∧ (Invoke initStub (goString "cancel") [authorization0.ID]).2.state authorization0.ID
        = some (Authorization.marshal
            { authorization0 with State := AUTHORIZATION_STATE_APPROVED }) :=
  created_always_approved initStub (goString "cancel") authorization0
    (Authorization.marshal authorization0)
    [] (Or.inr (Or.inr rfl)) (by decide!) (by decide!) (by decide!) (by decide!) (by decide!)

/-- C5 (counterexample): `reject` on `authorization0` in state Created
persists state Approved (1), not Rejected (2). And when the ledger reports an
error on the write or on the read, `reject` returns an error and the stored
record stays in state Created. -/
theorem reject_persists_approved_counterexample :
    (Invoke initStub (goString "reject") [goString "authorization0"]).2.state
          (goString "authorization0")
        = some (Authorization.marshal
            ⟨goString "authorization0", goString "prescription0", goString "patient0",
              goString "insurer0", goString "doctor0", AUTHORIZATION_STATE_APPROVED⟩)
      ∧ (Invoke initStub (goString "reject") [goString "authorization0"]).2.state
          (goString "authorization0")
        ≠ some (Authorization.marshal
            ⟨goString "authorization0", goString "prescription0", goString "patient0",
              goString "insurer0", goString "doctor0", AUTHORIZATION_STATE_REJECTED⟩)
      ∧ (Invoke writeFailingInitStub (goString "reject") [goString "authorization0"]).1
        = Outcome.error (goString "Error saving changes")
      ∧ (Invoke writeFailingInitStub (goString "reject")
          [goString "authorization0"]).2.state (goString "authorization0")
        = some (Authorization.marshal authorization0)
      ∧ (Invoke readFailingInitStub (goString "reject") [goString "authorization0"]).1
        = Outcome.error (goString "INVOKE: reqeust can't be found ")
      ∧ (Invoke readFailingInitStub (goString "reject")
          [goString "authorization0"]).2.state (goString "authorization0")
        = some (Authorization.marshal authorization0) := by
  decide!

/-! ## C8: querying an absent identity -/

/-- C8 (as amended): on a ledger with no entry under `id`, whose read of `id`
reports no error, `Query("get_details", [id])` returns success with a `nil`
payload, and leaves the ledger as it is. -/
theorem query_absent_returns_nil (stub : Stub) (id : Bytes)
    (habsent : stub.state id = none) (hget : stub.getFails id = false) :
    Query stub (goString "get_details") [id] = (Outcome.ok none, stub) := by
  simp [Query, get_details, GetState, hget, habsent]

/-- Witness for C8: `rx404` on the ledger left by `Init`. -/
theorem query_absent_returns_nil_witness :
    Query initStub (goString "get_details") [goString "rx404"] = (Outcome.ok none, initStub) :=
  query_absent_returns_nil initStub (goString "rx404") (by decide!) (by decide!)

/-- C8 (counterexample): the query of an identity that was never created
does not return an error. -/
theorem query_absent_counterexample :
    initStub.state (goString "rx404") = none
      ∧ initStub.getFails (goString "rx404") = false
      ∧ ¬ ∃ msg : Bytes,
          (Query initStub (goString "get_details") [goString "rx404"]).1 = Outcome.error msg := by
  refine ⟨by decide!, by decide!, ?_⟩
  rintro ⟨msg, h⟩
  rw [get_details_absent_aux] at h
  exact Outcome.noConfusion h

/-! ## C9: all or nothing -/

/-- C9: over a ledger whose writes may fail (a failed write leaving it as it
is), every `Invoke` and every `Query` with a non-empty argument list is all
or nothing. If the call returns an error, the ledger afterwards is the ledger
before. If a create returns success, the new record is in the ledger under
its identity `args[0]`; if a transition returns success, the approved record
is in the ledger under its identity and is the payload returned. -/
theorem invoke_query_all_or_nothing (stub : Stub) (f : Bytes) (args : List Bytes)
    (hargs : args ≠ []) :
    (∀ (msg : Bytes) (stub1 : Stub),
        Invoke stub f args = (Outcome.error msg, stub1) → stub1 = stub)
      ∧ (∀ (msg : Bytes) (stub1 : Stub),
        Query stub f args = (Outcome.error msg, stub1) → stub1 = stub)
      ∧ (∀ (p : Option Bytes) (stub1 : Stub),
        Invoke stub (goString "create_authorization") args = (Outcome.ok p, stub1) →
          ∃ (id : Bytes) (rest : List Bytes), args = id :: rest ∧ p = some id
            ∧ stub1.state id
              = some (Authorization.marshal { Authorization.zero with ID := id }))
      ∧ (∀ (p : Option Bytes) (stub1 : Stub), f ≠ goString "create_authorization" →
        Invoke stub f args = (Outcome.ok p, stub1) →
          ∃ a : Authorization, a.State = AUTHORIZATION_STATE_APPROVED
            ∧ p = some (Authorization.marshal a)
            ∧ stub1.state a.ID = some (Authorization.marshal a)) := by
  refine ⟨fun msg stub1 h => Invoke_error stub stub1 f args msg h, ?_, ?_, ?_⟩
  · intro msg stub1 h
    have := Query_stub stub f args
    rw [h] at this
    exact this
  · intro p stub1 h
    cases args with
    | nil => exact absurd rfl hargs
    | cons id rest =>
      simp only [Invoke, if_true] at h
      have := create_authorization_ok stub stub1 id rest p h
      exact ⟨id, rest, rfl, this.1, this.2.2⟩
  · intro p stub1 hf h
    obtain ⟨id, rest, a, _, _, _, _, hp, _, hst⟩ := Invoke_transition_ok stub stub1 f args p hf h
    exact ⟨{ a with State := AUTHORIZATION_STATE_APPROVED }, rfl, hp, hst⟩

/-- Witness for C9: `approve` on `authorization0` on the ledger left by
`Init`. -/
theorem invoke_query_all_or_nothing_witness :
    (∀ (msg : Bytes) (stub1 : Stub),
        Invoke initStub (goString "approve") [goString "authorization0"]
          = (Outcome.error msg, stub1) → stub1 = initStub)
      ∧ (∀ (msg : Bytes) (stub1 : Stub),
        Query initStub (goString "approve") [goString "authorization0"]
          = (Outcome.error msg, stub1) → stub1 = initStub)
      ∧ (∀ (p : Option Bytes) (stub1 : Stub),
        Invoke initStub (goString "create_authorization") [goString "authorization0"]
            = (Outcome.ok p, stub1) →
          ∃ (id : Bytes) (rest : List Bytes), [goString "authorization0"] = id :: rest
            ∧ p = some id
            ∧ stub1.state id
              = some (Authorization.marshal { Authorization.zero with ID := id }))
      ∧ (∀ (p : Option Bytes) (stub1 : Stub),
        goString "approve" ≠ goString "create_authorization" →
        Invoke initStub (goString "approve") [goString "authorization0"]
            = (Outcome.ok p, stub1) →
          ∃ a : Authorization, a.State = AUTHORIZATION_STATE_APPROVED
            ∧ p = some (Authorization.marshal a)
            ∧ stub1.state a.ID = some (Authorization.marshal a)) :=
  invoke_query_all_or_nothing initStub (goString "approve") [goString "authorization0"]
    (List.cons_ne_nil _ _)

/-! ## C10: the record codec -/

/-- C10 (as amended): round trip of the record codec. For every
Authorization, Prescription and Patient whose string fields are valid UTF-8
(the state being in the range of Go's `int`), decoding the bytes produced by
encoding it succeeds and yields a value equal to it in every field. -/
theorem codec_round_trip :
    (∀ a : Authorization, validUTF8 a.ID = true → validUTF8 a.PrescriptionID = true →
        validUTF8 a.PatientID = true → validUTF8 a.InsurerID = true →
        validUTF8 a.DoctorID = true → isInt64 a.State →
        Authorization.unmarshal (jsonMarshal (Entry.authorization a)) Authorization.zero
          = some a)
      ∧ (∀ p : Prescription, validUTF8 p.ID = true → validUTF8 p.PatientID = true →
        validUTF8 p.DIN = true → isInt64 p.State →
        Prescription.unmarshal (jsonMarshal (Entry.prescription p)) Prescription.zero = some p)
      ∧ (∀ p : Patient, validUTF8 p.ID = true → validUTF8 p.InsurerID = true →
        validUTF8 p.DoctorID = true →
        Patient.unmarshal (jsonMarshal (Entry.patient p)) Patient.zero = some p) :=
  ⟨fun a h1 h2 h3 h4 h5 h6 => authorization_unmarshal_marshal a _ h1 h2 h3 h4 h5 h6,
    fun p h1 h2 h3 h4 => prescription_unmarshal_marshal p _ h1 h2 h3 h4,
    fun p h1 h2 h3 => patient_unmarshal_marshal p _ h1 h2 h3⟩

/-- Witness for C10: the three records `Init` stores. -/
theorem codec_round_trip_witness :
    Authorization.unmarshal (jsonMarshal (Entry.authorization authorization0))
        Authorization.zero = some authorization0
      ∧ Prescription.unmarshal (jsonMarshal (Entry.prescription
          ⟨goString "prescription0", goString "patient0", goString "DIN0", 1⟩))
        Prescription.zero
        = some ⟨goString "prescription0", goString "patient0", goString "DIN0", 1⟩
      ∧ Patient.unmarshal (jsonMarshal (Entry.patient
          ⟨goString "patient0", goString "insurer0", goString "doctor0"⟩)) Patient.zero
        = some ⟨goString "patient0", goString "insurer0", goString "doctor0"⟩ :=
  ⟨codec_round_trip.1 authorization0 (by decide!) (by decide!) (by decide!) (by decide!)
      (by decide!) (by decide!),
    codec_round_trip.2.1 _ (by decide!) (by decide!) (by decide!) (by decide!),
    codec_round_trip.2.2 _ (by decide!) (by decide!) (by decide!)⟩

/-- C10 (counterexample): the Patient whose ID is the single octet `0xFF`
(not valid UTF-8) is encoded with the replacement-character escape and
decodes to a Patient whose ID is U+FFFD (`EF BF BD`), not to itself; likewise
an Authorization with that ID. -/
theorem codec_round_trip_counterexample :
    Patient.unmarshal (jsonMarshal (Entry.patient ⟨[0xFF], [], []⟩)) Patient.zero
        = some ⟨[0xEF, 0xBF, 0xBD], [], []⟩
      ∧ Patient.unmarshal (jsonMarshal (Entry.patient ⟨[0xFF], [], []⟩)) Patient.zero
        ≠ some ⟨[0xFF], [], []⟩
      ∧ Authorization.unmarshal (jsonMarshal (Entry.authorization ⟨[0xFF], [], [], [], [], 0⟩))
          Authorization.zero
        ≠ some ⟨[0xFF], [], [], [], [], 0⟩ := by
  decide!

end MiFull

namespace MiTest

/-! ## `mi.test`: reviewing a request -/

theorem request_save_changes_error (stub : Stub) (r : Request) :
    (save_changes stub r).1.2.isSome = (PutState stub r.ID r.marshal).1 := by
  unfold save_changes
  simp only
  split <;> simp_all

theorem request_save_changes_stub (stub : Stub) (r : Request) :
    (save_changes stub r).2 = (PutState stub r.ID r.marshal).2 := by
  unfold save_changes
  simp only
  split <;> rfl

/-- `review_request` on a request in state Created, for the affiliation
`insurance_company`, when the write succeeds. -/
theorem review_request_allowed (stub : Stub) (r : Request) (caller aff : Bytes)
    (hs : r.State = STATE_CREATED) (haff : aff = INSURANCE_COMPANY)
    (hput : stub.putFails r.ID (Request.marshal { r with State := STATE_APPROVED }) = false) :
    review_request stub r caller aff
      = (Outcome.ok none,
          (PutState stub r.ID (Request.marshal { r with State := STATE_APPROVED })).2) := by
  unfold review_request
  rw [if_pos ⟨hs, haff⟩]
  simp only [request_save_changes_error, request_save_changes_stub]
  rw [PutState_ok_of_not_fails _ _ _ hput]
  simp

/-- `review_request` on a request that is not in state Created, or for
another affiliation than `insurance_company`. -/
theorem review_request_refused (stub : Stub) (r : Request) (caller aff : Bytes)
    (h : ¬ (r.State = STATE_CREATED ∧ aff = INSURANCE_COMPANY)) :
    review_request stub r caller aff
      = (Outcome.error (goString "Review failed. review_request. "), stub) := by
  unfold review_request
  rw [if_neg h]

/-! ## C7: `review_request` -/

/-- C7: for every Request `r`, caller and affiliation, when the write of the
approved request does not fail, `review_request` succeeds if and only if
`r.State` is `STATE_CREATED` and the affiliation is `insurance_company`. On
success the ledger holds under `r.ID` the encoding of `r` with state
`STATE_APPROVED` (and every other key is as before); on failure an error is
returned and the ledger is as before. -/
theorem review_request_iff (stub : Stub) (r : Request) (caller aff : Bytes)
    (hput : stub.putFails r.ID (Request.marshal { r with State := STATE_APPROVED }) = false) :
    ((∃ (p : Option Bytes) (stub1 : Stub),
          review_request stub r caller aff = (Outcome.ok p, stub1))
        ↔ (r.State = STATE_CREATED ∧ aff = goString "insurance_company"))
      ∧ (∀ (p : Option Bytes) (stub1 : Stub),
          review_request stub r caller aff = (Outcome.ok p, stub1) →
            stub1.state r.ID = some (Request.marshal ⟨r.ID, r.DIN, STATE_APPROVED⟩)
              ∧ ∀ k : Bytes, k ≠ r.ID → stub1.state k = stub.state k)
      ∧ ((¬ ∃ (p : Option Bytes) (stub1 : Stub),
            review_request stub r caller aff = (Outcome.ok p, stub1)) →
          ∃ msg : Bytes, review_request stub r caller aff = (Outcome.error msg, stub)) := by
  by_cases h : r.State = STATE_CREATED ∧ aff = INSURANCE_COMPANY
  · have hr := review_request_allowed stub r caller aff h.1 h.2 hput
    refine ⟨⟨fun _ => h, fun _ => ⟨_, _, hr⟩⟩, ?_, ?_⟩
    · intro p stub1 hp
      rw [hr] at hp
      simp only [Prod.mk.injEq] at hp
      rw [← hp.2]
      exact ⟨PutState_ok_state _ _ _ (PutState_ok_of_not_fails _ _ _ hput),
        fun k hk => PutState_state_other _ _ _ _ hk⟩
    · intro hn
      exact absurd ⟨_, _, hr⟩ hn
  · have hr := review_request_refused stub r caller aff h
    refine ⟨⟨?_, fun h1 => absurd h1 h⟩, ?_, ?_⟩
    · rintro ⟨p, stub1, hp⟩
      rw [hr] at hp
      simp at hp
    · intro p stub1 hp
      rw [hr] at hp
      simp at hp
    · intro _
      exact ⟨_, hr⟩

/-- Witness for C7: the request `req1` in state Created, reviewed for the
affiliation `doctor` on the empty ledger. -/
theorem review_request_iff_witness :
    ((∃ (p : Option Bytes) (stub1 : Stub),
          review_request emptyStub ⟨goString "req1", goString "DIN0", 0⟩ (goString "alice")
            (goString "doctor") = (Outcome.ok p, stub1))
        ↔ ((0 : Int) = STATE_CREATED ∧ goString "doctor" = goString "insurance_company"))
      ∧ (∀ (p : Option Bytes) (stub1 : Stub),
          review_request emptyStub ⟨goString "req1", goString "DIN0", 0⟩ (goString "alice")
            (goString "doctor") = (Outcome.ok p, stub1) →
            stub1.state (goString "req1")
                = some (Request.marshal ⟨goString "req1", goString "DIN0", STATE_APPROVED⟩)
              ∧ ∀ k : Bytes, k ≠ goString "req1" → stub1.state k = emptyStub.state k)
      ∧ ((¬ ∃ (p : Option Bytes) (stub1 : Stub),
            review_request emptyStub ⟨goString "req1", goString "DIN0", 0⟩ (goString "alice")
              (goString "doctor") = (Outcome.ok p, stub1)) →
          ∃ msg : Bytes,
            review_request emptyStub ⟨goString "req1", goString "DIN0", 0⟩ (goString "alice")
              (goString "doctor") = (Outcome.error msg, emptyStub)) :=
  review_request_iff emptyStub ⟨goString "req1", goString "DIN0", 0⟩ (goString "alice")
    (goString "doctor") rfl

end MiTest

/-! ## C6: the caller's role -/

/-- C6 (as amended): `mi.full` consults no caller role. For every
Authorization `a` in state Created stored under its own identity (the bytes
under `a.ID` decode to `a`) and every caller, whatever role the identity
resolver reports for it (`doctor` included), on a ledger that reports no read
error for `a.ID` and accepts the write, a transition issued through
`MiFull.Invoke` succeeds and persists state Approved. In `mi.test` the role
is checked by `review_request`: for every affiliation other than
`insurance_company` it returns the error "Review failed. review_request. "
and leaves the ledger as it is. -/
theorem role_check_only_in_review_request :
    (∀ (stub : Stub) (role f : Bytes) (a : MiFull.Authorization) (bytes : Bytes)
        (rest : List Bytes),
        (stub.certAttributes (goString "role")).toOption = some role →
        f ≠ goString "create_authorization" →
        stub.getFails a.ID = false →
        stub.state a.ID = some bytes →
        MiFull.Authorization.unmarshal bytes MiFull.Authorization.zero = some a →
        a.State = MiFull.AUTHORIZATION_STATE_CREATED →
        stub.putFails a.ID (MiFull.Authorization.marshal
          { a with State := MiFull.AUTHORIZATION_STATE_APPROVED }) = false →
        (MiFull.Invoke stub f (a.ID :: rest)).1
            = Outcome.ok (some (MiFull.Authorization.marshal
                { a with State := MiFull.AUTHORIZATION_STATE_APPROVED }))
          ∧ (MiFull.Invoke stub f (a.ID :: rest)).2.state a.ID
            = some (MiFull.Authorization.marshal
                { a with State := MiFull.AUTHORIZATION_STATE_APPROVED }))
      ∧ (∀ (stub : Stub) (r : MiTest.Request) (caller aff : Bytes),
        aff ≠ goString "insurance_company" →
        MiTest.review_request stub r caller aff
          = (Outcome.error (goString "Review failed. review_request. "), stub)) := by
  constructor
  · intro stub role f a bytes rest _ hf hget hstored hdec hs hput
    rw [MiFull.Invoke_transition_created stub f a.ID a bytes rest hf hget hstored hdec hs hput]
    exact ⟨rfl, PutState_ok_state _ _ _ (PutState_ok_of_not_fails _ _ _ hput)⟩
  · intro stub r caller aff haff
    exact MiTest.review_request_refused stub r caller aff (fun h => haff h.2)

/-- Witness for C6: the role `doctor` approving `authorization0` in
`mi.full`, and `review_request` for the affiliation `doctor` in `mi.test`. -/
theorem role_check_only_in_review_request_witness :
    ((MiFull.Invoke doctorInitStub (goString "approve") (authorization0.ID :: [])).1
            = Outcome.ok (some (MiFull.Authorization.marshal
                { authorization0 with State := MiFull.AUTHORIZATION_STATE_APPROVED }))
          ∧ (MiFull.Invoke doctorInitStub (goString "approve")
              (authorization0.ID :: [])).2.state authorization0.ID
            = some (MiFull.Authorization.marshal
                { authorization0 with State := MiFull.AUTHORIZATION_STATE_APPROVED }))
      ∧ MiTest.review_request doctorRequestStub
          ⟨goString "req1", goString "DIN0", 0⟩ (goString "alice") (goString "doctor")
        = (Outcome.error (goString "Review failed. review_request. "), doctorRequestStub) :=
  ⟨role_check_only_in_review_request.1 doctorInitStub (goString "doctor") (goString "approve")
      authorization0 (MiFull.Authorization.marshal authorization0) []
      (by decide!) (by decide!) (by decide!) (by decide!) (by decide!) (by decide!) (by decide!),
    role_check_only_in_review_request.2 doctorRequestStub
      ⟨goString "req1", goString "DIN0", 0⟩ (goString "alice") (goString "doctor")
      (by decide!)⟩

/-- C6 (counterexample): with the caller's role resolved to `doctor`, an
approve issued through `Invoke` on a stored authorization in state Created
returns success, not a permission error, and the persisted state becomes
Approved, in `mi.full` as well as in `mi.test`. When the ledger of `mi.full`
reports an error on the write or on the read, the same approve returns the
error of the ledger, which is no permission error either. -/
theorem doctor_approves_counterexample :
    (doctorInitStub.certAttributes (goString "role")).toOption = some (goString "doctor")
      ∧ (MiFull.Invoke doctorInitStub (goString "approve") [goString "authorization0"]).1
        = Outcome.ok (some (MiFull.Authorization.marshal
            { authorization0 with State := MiFull.AUTHORIZATION_STATE_APPROVED }))
      ∧ (MiFull.Invoke doctorInitStub (goString "approve")
          [goString "authorization0"]).2.state (goString "authorization0")
        = some (MiFull.Authorization.marshal
            { authorization0 with State := MiFull.AUTHORIZATION_STATE_APPROVED })
      ∧ (doctorRequestStub.certAttributes (goString "role")).toOption = some (goString "doctor")
      ∧ doctorRequestStub.state (goString "req1")
        = some (MiTest.Request.marshal ⟨goString "req1", goString "DIN0", MiTest.STATE_CREATED⟩)
      ∧ (MiTest.Invoke doctorRequestStub (goString "approve")
          [goString "insurer0", goString "req1"]).1 = Outcome.ok none
      ∧ (MiTest.Invoke doctorRequestStub (goString "approve")
          [goString "insurer0", goString "req1"]).2.state (goString "req1")
        = some (MiTest.Request.marshal
            ⟨goString "req1", goString "DIN0", MiTest.STATE_APPROVED⟩)
      ∧ (doctorWriteFailingStub.certAttributes (goString "role")).toOption
        = some (goString "doctor")
      ∧ (MiFull.Invoke doctorWriteFailingStub (goString "approve")
          [goString "authorization0"]).1
        = Outcome.error (goString "Error saving changes")
      ∧ (doctorReadFailingStub.certAttributes (goString "role")).toOption
        = some (goString "doctor")
      ∧ (MiFull.Invoke doctorReadFailingStub (goString "approve")
          [goString "authorization0"]).1
        = Outcome.error (goString "INVOKE: reqeust can't be found ") := by
  decide!

namespace MiFull

/-! ## Decoding records of another shape -/

theorem foreign_fields :
    findField Authorization.names (goString "DIN") = none
      ∧ findField Prescription.names (goString "prescriptionID") = none
      ∧ findField Prescription.names (goString "insurerID") = none
      ∧ findField Prescription.names (goString "doctorID") = none := by
  decide!

/-- An Authorization record without a `state` member decodes with the zero
state. -/
theorem authorization_unmarshal_withoutState (id pres pat ins doc : Bytes) :
    Authorization.unmarshal (Authorization.marshalWithoutState id pres pat ins doc)
        Authorization.zero
      = some ⟨coerceUTF8 id, coerceUTF8 pres, coerceUTF8 pat, coerceUTF8 ins, coerceUTF8 doc,
          AUTHORIZATION_STATE_CREATED⟩ := by
  have hn := field_names_valid
  have hf := authorization_fields
  have hm : Authorization.marshalWithoutState id pres pat ins doc
      = jsonObject (List.map (fun f : String × Bytes × JTok => member f.1 f.2.1)
          [("ID", encodeString id, JTok.string (coerceUTF8 id)),
            ("prescriptionID", encodeString pres, JTok.string (coerceUTF8 pres)),
            ("patientID", encodeString pat, JTok.string (coerceUTF8 pat)),
            ("insurerID", encodeString ins, JTok.string (coerceUTF8 ins)),
            ("doctorID", encodeString doc, JTok.string (coerceUTF8 doc))]) := rfl
  unfold Authorization.unmarshal
  rw [hm, jsonUnmarshal_jsonObject _ _ _ _ (List.cons_ne_nil _ _)]
  · simp only [List.map_cons, List.map_nil, decodeMembers, hf.1, hf.2.1, hf.2.2.1, hf.2.2.2.1,
      hf.2.2.2.2.1, Authorization.store, storeString, Option.map_some']
    rfl
  · intro f hfm
    simp only [List.mem_cons, List.mem_singleton, List.mem_nil_iff, or_false] at hfm
    rcases hfm with h | h | h | h | h <;> subst h
    · exact ⟨hn.1, readsAs_encodeString_any _⟩
    · exact ⟨hn.2.1, readsAs_encodeString_any _⟩
    · exact ⟨hn.2.2.1, readsAs_encodeString_any _⟩
    · exact ⟨hn.2.2.2.1, readsAs_encodeString_any _⟩
    · exact ⟨hn.2.2.2.2.1, readsAs_encodeString_any _⟩

/-- The encoding of a Prescription, decoded as an Authorization: `ID`,
`patientID` and `state` are taken over, `DIN` is skipped. -/
theorem authorization_unmarshal_prescription (p : Prescription) (h : isInt64 p.State) :
    Authorization.unmarshal (Prescription.marshal p) Authorization.zero
      = some ⟨coerceUTF8 p.ID, [], coerceUTF8 p.PatientID, [], [], p.State⟩ := by
  have hn := field_names_valid
  have hf := authorization_fields
  have hg := foreign_fields
  have hm : Prescription.marshal p
      = jsonObject (List.map (fun f : String × Bytes × JTok => member f.1 f.2.1)
          [("ID", encodeString p.ID, JTok.string (coerceUTF8 p.ID)),
            ("patientID", encodeString p.PatientID, JTok.string (coerceUTF8 p.PatientID)),
            ("DIN", encodeString p.DIN, JTok.string (coerceUTF8 p.DIN)),
            ("state", formatInt p.State, JTok.number (formatInt p.State))]) := rfl
  unfold Authorization.unmarshal
  rw [hm, jsonUnmarshal_jsonObject _ _ _ _ (List.cons_ne_nil _ _)]
  · simp only [List.map_cons, List.map_nil, decodeMembers, hf.1, hf.2.2.1, hf.2.2.2.2.2, hg.1,
      Authorization.store, storeString, storeInt, parseInt_formatInt p.State h,
      Option.map_some']
    rfl
  · intro f hfm
    simp only [List.mem_cons, List.mem_singleton, List.mem_nil_iff, or_false] at hfm
    rcases hfm with h | h | h | h <;> subst h
    · exact ⟨hn.1, readsAs_encodeString_any _⟩
    · exact ⟨hn.2.2.1, readsAs_encodeString_any _⟩
    · exact ⟨hn.2.2.2.2.2.2, readsAs_encodeString_any _⟩
    · exact ⟨hn.2.2.2.2.2.1, readsAs_formatInt _⟩

/-- The encoding of an Authorization, decoded as a Prescription: `ID`,
`patientID` and `state` are taken over, `DIN` stays empty. -/
theorem prescription_unmarshal_authorization (a : Authorization) (h : isInt64 a.State) :
    Prescription.unmarshal (Authorization.marshal a) Prescription.zero
      = some ⟨coerceUTF8 a.ID, coerceUTF8 a.PatientID, [], a.State⟩ := by
  have hn := field_names_valid
  have hf := prescription_fields
  have hg := foreign_fields
  have hm : Authorization.marshal a
      = jsonObject (List.map (fun f : String × Bytes × JTok => member f.1 f.2.1)
          [("ID", encodeString a.ID, JTok.string (coerceUTF8 a.ID)),
            ("prescriptionID", encodeString a.PrescriptionID,
              JTok.string (coerceUTF8 a.PrescriptionID)),
            ("patientID", encodeString a.PatientID, JTok.string (coerceUTF8 a.PatientID)),
            ("insurerID", encodeString a.InsurerID, JTok.string (coerceUTF8 a.InsurerID)),
            ("doctorID", encodeString a.DoctorID, JTok.string (coerceUTF8 a.DoctorID)),
            ("state", formatInt a.State, JTok.number (formatInt a.State))]) := rfl
  unfold Prescription.unmarshal
  rw [hm, jsonUnmarshal_jsonObject _ _ _ _ (List.cons_ne_nil _ _)]
  · simp only [List.map_cons, List.map_nil, decodeMembers, hf.1, hf.2.1, hf.2.2.2, hg.2.1,
      hg.2.2.1, hg.2.2.2, Prescription.store, storeString, storeInt,
      parseInt_formatInt a.State h, Option.map_some']
    rfl
  · intro f hfm
    simp only [List.mem_cons, List.mem_singleton, List.mem_nil_iff, or_false] at hfm
    rcases hfm with h | h | h | h | h | h <;> subst h
    · exact ⟨hn.1, readsAs_encodeString_any _⟩
    · exact ⟨hn.2.1, readsAs_encodeString_any _⟩
    · exact ⟨hn.2.2.1, readsAs_encodeString_any _⟩
    · exact ⟨hn.2.2.2.1, readsAs_encodeString_any _⟩
    · exact ⟨hn.2.2.2.2.1, readsAs_encodeString_any _⟩
    · exact ⟨hn.2.2.2.2.2.1, readsAs_formatInt _⟩

/-- The encoding of a Patient, decoded as an Authorization: `ID`,
`insurerID` and `doctorID` are taken over, the state is the zero state. -/
theorem authorization_unmarshal_patient (p : Patient) :
    Authorization.unmarshal (Patient.marshal p) Authorization.zero
      = some ⟨coerceUTF8 p.ID, [], [], coerceUTF8 p.InsurerID, coerceUTF8 p.DoctorID,
          AUTHORIZATION_STATE_CREATED⟩ := by
  have hn := field_names_valid
  have hf := authorization_fields
  have hm : Patient.marshal p
      = jsonObject (List.map (fun f : String × Bytes × JTok => member f.1 f.2.1)
          [("ID", encodeString p.ID, JTok.string (coerceUTF8 p.ID)),
            ("insurerID", encodeString p.InsurerID, JTok.string (coerceUTF8 p.InsurerID)),
            ("doctorID", encodeString p.DoctorID, JTok.string (coerceUTF8 p.DoctorID))]) := rfl
  unfold Authorization.unmarshal
  rw [hm, jsonUnmarshal_jsonObject _ _ _ _ (List.cons_ne_nil _ _)]
  · simp only [List.map_cons, List.map_nil, decodeMembers, hf.1, hf.2.2.2.1, hf.2.2.2.2.1,
      Authorization.store, storeString, Option.map_some']
    rfl
  · intro f hfm
    simp only [List.mem_cons, List.mem_singleton, List.mem_nil_iff, or_false] at hfm
    rcases hfm with h | h | h <;> subst h
    · exact ⟨hn.1, readsAs_encodeString_any _⟩
    · exact ⟨hn.2.2.2.1, readsAs_encodeString_any _⟩
    · exact ⟨hn.2.2.2.2.1, readsAs_encodeString_any _⟩

end MiFull

namespace MiFull

/-! ## C11: the decoder accepts any state -/

/-- C11 (amended claim): in `mi.full` the decode performed by `Invoke` checks
no state. The encoding of an Authorization decodes to a record with the state
it holds, whatever 64-bit integer that is, and an Authorization record without
a `state` member decodes to a record in the zero state Created. So `Invoke`
on a stored record whose state is not 0 answers with the error of
`approve_authorization` and leaves the ledger as it is, and on a stored
record without a state it approves the record (when the ledger reports no
error). -/
theorem decode_accepts_any_state :
    (∀ a : Authorization, isInt64 a.State →
        Authorization.unmarshal (Authorization.marshal a) Authorization.zero
          = some ⟨coerceUTF8 a.ID, coerceUTF8 a.PrescriptionID, coerceUTF8 a.PatientID,
              coerceUTF8 a.InsurerID, coerceUTF8 a.DoctorID, a.State⟩)
      ∧ (∀ id pres pat ins doc : Bytes,
        Authorization.unmarshal (Authorization.marshalWithoutState id pres pat ins doc)
            Authorization.zero
          = some ⟨coerceUTF8 id, coerceUTF8 pres, coerceUTF8 pat, coerceUTF8 ins, coerceUTF8 doc,
              AUTHORIZATION_STATE_CREATED⟩)
      ∧ (∀ (stub : Stub) (f key : Bytes) (rest : List Bytes) (a : Authorization),
        f ≠ goString "create_authorization" →
        stub.getFails key = false →
        stub.state key = some (Authorization.marshal a) →
        isInt64 a.State →
        a.State ≠ AUTHORIZATION_STATE_CREATED →
        Invoke stub f (key :: rest)
          = (Outcome.error (goString "Review failed. approve_authorization. "), stub))
      ∧ (∀ (stub : Stub) (f key : Bytes) (rest : List Bytes) (id pres pat ins doc : Bytes),
        f ≠ goString "create_authorization" →
        stub.getFails key = false →
        stub.state key = some (Authorization.marshalWithoutState id pres pat ins doc) →
        stub.putFails (coerceUTF8 id)
          (Authorization.marshal ⟨coerceUTF8 id, coerceUTF8 pres, coerceUTF8 pat, coerceUTF8 ins,
            coerceUTF8 doc, AUTHORIZATION_STATE_APPROVED⟩) = false →
        (Invoke stub f (key :: rest)).1
          = Outcome.ok (some (Authorization.marshal ⟨coerceUTF8 id, coerceUTF8 pres,
              coerceUTF8 pat, coerceUTF8 ins, coerceUTF8 doc, AUTHORIZATION_STATE_APPROVED⟩))) := by
  refine ⟨fun a h => authorization_unmarshal_marshal_any a _ h,
    authorization_unmarshal_withoutState, ?_, ?_⟩
  · intro stub f key rest a hf hget hst hi hs
    exact Invoke_transition_not_created stub f key _ _ rest hf hget hst
      (authorization_unmarshal_marshal_any a _ hi) hs
  · intro stub f key rest id pres pat ins doc hf hget hst hput
    rw [Invoke_transition_created stub f key _ _ rest hf hget hst
      (authorization_unmarshal_withoutState id pres pat ins doc) rfl hput]

/-- Witness for C11: the record with state 7 under `auth7`, and the record
without a state under `auth8`. -/
theorem decode_accepts_any_state_witness :
    Authorization.unmarshal
        (Authorization.marshal ⟨goString "auth7", goString "rx1", goString "p1",
          goString "ins1", goString "doc1", 7⟩) Authorization.zero
        = some ⟨coerceUTF8 (goString "auth7"), coerceUTF8 (goString "rx1"),
            coerceUTF8 (goString "p1"), coerceUTF8 (goString "ins1"),
            coerceUTF8 (goString "doc1"), 7⟩
      ∧ Invoke outOfRangeStub (goString "approve") [goString "auth7"]
        = (Outcome.error (goString "Review failed. approve_authorization. "), outOfRangeStub)
      ∧ (Invoke missingStateStub (goString "approve") [goString "auth8"]).1
        = Outcome.ok (some (Authorization.marshal ⟨coerceUTF8 (goString "auth8"),
            coerceUTF8 (goString "rx1"), coerceUTF8 (goString "p1"),
            coerceUTF8 (goString "ins1"), coerceUTF8 (goString "doc1"),
            AUTHORIZATION_STATE_APPROVED⟩)) :=
  ⟨decode_accepts_any_state.1
      ⟨goString "auth7", goString "rx1", goString "p1", goString "ins1", goString "doc1", 7⟩
      (show isInt64 (7 : Int) by decide),
    decode_accepts_any_state.2.2.1 outOfRangeStub (goString "approve") (goString "auth7") []
      ⟨goString "auth7", goString "rx1", goString "p1", goString "ins1", goString "doc1", 7⟩
      (by decide) rfl (by decide!) (show isInt64 (7 : Int) by decide)
      (show (7 : Int) ≠ 0 by decide),
    decode_accepts_any_state.2.2.2 missingStateStub (goString "approve") (goString "auth8") []
      (goString "auth8") (goString "rx1") (goString "p1") (goString "ins1") (goString "doc1")
      (by decide) rfl (by decide!) rfl⟩

/-- C11 (counterexample): the stored record under `auth7` is a well-formed
Authorization whose state is 7, and the one under `auth8` has no state
member. Loading either yields a record, not a decode error: the first keeps
state 7 and `Invoke` answers with the error of `approve_authorization`; the
second is read as state Created and `Invoke` approves it. -/
theorem out_of_range_state_counterexample :
    Authorization.unmarshal (stringOf (outOfRangeStub.state (goString "auth7")))
        Authorization.zero
        = some ⟨goString "auth7", goString "rx1", goString "p1", goString "ins1",
            goString "doc1", 7⟩
      ∧ (Invoke outOfRangeStub (goString "approve") [goString "auth7"]).1
        = Outcome.error (goString "Review failed. approve_authorization. ")
      ∧ hasStateField (stringOf (missingStateStub.state (goString "auth8"))) = false
      ∧ Authorization.unmarshal (stringOf (missingStateStub.state (goString "auth8")))
        Authorization.zero
        = some ⟨goString "auth8", goString "rx1", goString "p1", goString "ins1",
            goString "doc1", AUTHORIZATION_STATE_CREATED⟩
      ∧ (Invoke missingStateStub (goString "approve") [goString "auth8"]).1
        = Outcome.ok (some (Authorization.marshal ⟨goString "auth8", goString "rx1",
            goString "p1", goString "ins1", goString "doc1", AUTHORIZATION_STATE_APPROVED⟩)) := by
  decide!

/-! ## C12: no prescription is looked up on creation -/

/-- C12 (amended claim): in `mi.full`, `create_authorization` looks up no
prescription. For every ledger and argument list, if it succeeds then the
record persisted under `args[0]` is the Authorization with that ID, state
Created and every other field empty; in particular its prescriptionID is the
empty string, whatever the ledger holds. -/
theorem create_stores_empty_prescriptionID (stub stub1 : Stub) (args : List Bytes)
    (p : Option Bytes) (h : create_authorization stub args = (Outcome.ok p, stub1)) :
    ∃ (id : Bytes) (rest : List Bytes),
      args = id :: rest
        ∧ p = some id
        ∧ stub1.state id
          = some (Authorization.marshal ⟨id, [], [], [], [], AUTHORIZATION_STATE_CREATED⟩)
        ∧ ∃ a : Authorization,
          Authorization.unmarshal (stringOf (stub1.state id)) Authorization.zero = some a
            ∧ a.PrescriptionID = [] := by
  cases args with
  | nil => simp [create_authorization] at h
  | cons id rest =>
    obtain ⟨hp, _, hst⟩ := create_authorization_ok stub stub1 id rest p h
    have hst1 : stub1.state id
        = some (Authorization.marshal ⟨id, [], [], [], [], AUTHORIZATION_STATE_CREATED⟩) := hst
    refine ⟨id, rest, rfl, hp, hst1,
      ⟨coerceUTF8 id, coerceUTF8 [], coerceUTF8 [], coerceUTF8 [], coerceUTF8 [],
        AUTHORIZATION_STATE_CREATED⟩, ?_, rfl⟩
    rw [hst1]
    exact authorization_unmarshal_marshal_any _ _ (show isInt64 (0 : Int) by decide)

/-- Witness for C12: the create command with five arguments on the empty
ledger. -/
theorem create_stores_empty_prescriptionID_witness :
    ∃ (id : Bytes) (rest : List Bytes),
      createArgs = id :: rest
        ∧ some (goString "auth1") = some id
        ∧ (create_authorization emptyStub createArgs).2.state id
          = some (Authorization.marshal ⟨id, [], [], [], [], AUTHORIZATION_STATE_CREATED⟩)
        ∧ ∃ a : Authorization,
          Authorization.unmarshal
              (stringOf ((create_authorization emptyStub createArgs).2.state id))
              Authorization.zero = some a
            ∧ a.PrescriptionID = [] :=
  create_stores_empty_prescriptionID emptyStub (create_authorization emptyStub createArgs).2
    createArgs (some (goString "auth1")) (Prod.ext (by decide!) rfl)

/-- C12 (counterexample): on the empty ledger, which holds no Prescription,
`create_authorization` with arguments `auth1, rx1, p1, ins1, doc1` succeeds;
the persisted record has the empty prescriptionID, and neither the empty key
nor `rx1` holds a record afterwards. -/
theorem create_without_prescription_counterexample :
    (create_authorization emptyStub createArgs).1 = Outcome.ok (some (goString "auth1"))
      ∧ Authorization.unmarshal
          (stringOf ((create_authorization emptyStub createArgs).2.state (goString "auth1")))
          Authorization.zero
        = some ⟨goString "auth1", [], [], [], [], AUTHORIZATION_STATE_CREATED⟩
      ∧ (create_authorization emptyStub createArgs).2.state [] = none
      ∧ (create_authorization emptyStub createArgs).2.state (goString "rx1") = none := by
  decide!

end MiFull


/-- A result pair is determined by its outcome and its own ledger. -/
theorem outcome_pair (x : Outcome × Stub) (o : Outcome) (h : x.1 = o) : x = (o, x.2) := by
  subst h
  rfl

namespace MiFull

/-! ## C13: create reads only the first argument -/

/-- C13 (amended claim): in `mi.full`, for every id, prescriptionID,
patientID, insurerID and doctorID and every ledger with no entry under id
that accepts the write and reports no read error for id, the create command
with arguments `[id, prescriptionID, patientID, insurerID, doctorID]`
succeeds and a following query of id returns the encoding of the
Authorization whose ID is id, whose four other string fields are empty and
whose state is Created: the four further arguments are not read. -/
theorem create_then_query (stub : Stub) (id pres pat ins doc : Bytes)
    (habsent : stub.state id = none)
    (hget : stub.getFails id = false)
    (hput : stub.putFails id
      (Authorization.marshal ⟨id, [], [], [], [], AUTHORIZATION_STATE_CREATED⟩) = false) :
    (Invoke stub (goString "create_authorization") [id, pres, pat, ins, doc]).1
        = Outcome.ok (some id)
      ∧ (Query (Invoke stub (goString "create_authorization") [id, pres, pat, ins, doc]).2
          (goString "get_details") [id]).1
        = Outcome.ok (some (Authorization.marshal
            ⟨id, [], [], [], [], AUTHORIZATION_STATE_CREATED⟩)) := by
  have hput1 : (PutState stub id
      (Authorization.marshal ⟨id, [], [], [], [], AUTHORIZATION_STATE_CREATED⟩)).1 = false :=
    PutState_ok_of_not_fails _ _ _ hput
  have hc : Invoke stub (goString "create_authorization") [id, pres, pat, ins, doc]
      = (Outcome.ok (some id), (PutState stub id
          (Authorization.marshal ⟨id, [], [], [], [], AUTHORIZATION_STATE_CREATED⟩)).2) := by
    have hput2 : (PutState stub id
        (Authorization.marshal { Authorization.zero with ID := id })).1 = false := hput1
    simp only [Invoke, if_true, create_authorization, GetState, hget, habsent, save_changes_error,
      save_changes_stub, jsonMarshal, hput2]
    rfl
  rw [hc]
  refine ⟨rfl, ?_⟩
  simp only [Query, if_true, get_details, GetState, PutState_getFails, hget,
    PutState_ok_state _ _ _ hput1]
  rfl

/-- Witness for C13: the create command with five arguments on the empty
ledger. -/
theorem create_then_query_witness :
    (Invoke emptyStub (goString "create_authorization")
        [goString "auth1", goString "rx1", goString "p1", goString "ins1", goString "doc1"]).1
        = Outcome.ok (some (goString "auth1"))
      ∧ (Query (Invoke emptyStub (goString "create_authorization")
          [goString "auth1", goString "rx1", goString "p1", goString "ins1",
            goString "doc1"]).2
          (goString "get_details") [goString "auth1"]).1
        = Outcome.ok (some (Authorization.marshal
            ⟨goString "auth1", [], [], [], [], AUTHORIZATION_STATE_CREATED⟩)) :=
  create_then_query emptyStub (goString "auth1") (goString "rx1") (goString "p1")
    (goString "ins1") (goString "doc1") rfl rfl rfl

/-- C13 (counterexample): on the empty ledger the create command with
arguments `auth1, rx1, p1, ins1, doc1` succeeds, and the following query of
`auth1` does not return the encoding of the Authorization with those five
field values and state Created. -/
theorem create_then_query_counterexample :
    (Invoke emptyStub (goString "create_authorization") createArgs).1
        = Outcome.ok (some (goString "auth1"))
      ∧ (Query (Invoke emptyStub (goString "create_authorization") createArgs).2
          (goString "get_details") [goString "auth1"]).1
        ≠ Outcome.ok (some (Authorization.marshal
            ⟨goString "auth1", goString "rx1", goString "p1", goString "ins1",
              goString "doc1", AUTHORIZATION_STATE_CREATED⟩)) := by
  decide!

/-! ## C15: queries do not change the ledger -/

/-- C15 (amended claim): in `mi.full`, for every ledger and every id,
`Query("get_details", [id])` leaves the ledger unchanged, and two consecutive
queries of the same id with no `Invoke` in between return the same result;
when the read reports no error the result is the bytes stored under id (nil
when there are none), and when it reports one the result is the error
`get_details: Invalid object`. -/
theorem query_idempotent (stub : Stub) (id : Bytes) :
    (Query stub (goString "get_details") [id]).2 = stub
      ∧ Query (Query stub (goString "get_details") [id]).2 (goString "get_details") [id]
        = Query stub (goString "get_details") [id]
      ∧ (stub.getFails id = false →
          (Query stub (goString "get_details") [id]).1 = Outcome.ok (stub.state id))
      ∧ (stub.getFails id = true →
          (Query stub (goString "get_details") [id]).1
            = Outcome.error (goString "get_details: Invalid object")) := by
  have hs := Query_stub stub (goString "get_details") [id]
  refine ⟨hs, by rw [hs], ?_, ?_⟩
  · intro h
    simp [Query, get_details, GetState, h]
  · intro h
    simp [Query, get_details, GetState, h]

/-- Witness for C15: the query of `authorization0` on the ledger left by
`Init`, with and without a read error. -/
theorem query_idempotent_witness :
    (Query initStub (goString "get_details") [goString "authorization0"]).2 = initStub
      ∧ Query (Query initStub (goString "get_details") [goString "authorization0"]).2
          (goString "get_details") [goString "authorization0"]
        = Query initStub (goString "get_details") [goString "authorization0"]
      ∧ (Query initStub (goString "get_details") [goString "authorization0"]).1
        = Outcome.ok (initStub.state (goString "authorization0"))
      ∧ (Query readFailingInitStub (goString "get_details") [goString "authorization0"]).1
        = Outcome.error (goString "get_details: Invalid object") :=
  ⟨(query_idempotent initStub (goString "authorization0")).1,
    (query_idempotent initStub (goString "authorization0")).2.1,
    (query_idempotent initStub (goString "authorization0")).2.2.1 rfl,
    (query_idempotent readFailingInitStub (goString "authorization0")).2.2.2 rfl⟩

/-- C15 (counterexample): the ledger left by `Init` holds the encoding of
`authorization0` under that id; when its reads report an error, the query of
`authorization0` returns an error and no bytes, not the stored bytes. -/
theorem query_failing_read_counterexample :
    readFailingInitStub.state (goString "authorization0")
        = some (Authorization.marshal authorization0)
      ∧ (Query readFailingInitStub (goString "get_details") [goString "authorization0"]).1
        = Outcome.error (goString "get_details: Invalid object")
      ∧ (Query readFailingInitStub (goString "get_details") [goString "authorization0"]).1
        ≠ Outcome.ok (readFailingInitStub.state (goString "authorization0")) := by
  decide!

/-! ## C20: a successful transition returns the stored bytes -/

/-- C20: in `mi.full`, for every ledger in which the record under id has ID
field id and state Created, when `Invoke` of a function other than
`create_authorization` on id succeeds, the bytes it returns are exactly the
bytes now stored under id, and an immediately following
`Query("get_details", [id])` returns those same bytes. -/
theorem invoke_returns_stored_bytes (stub stub1 : Stub) (f id bytes : Bytes)
    (rest : List Bytes) (a : Authorization) (p : Option Bytes)
    (hf : f ≠ goString "create_authorization")
    (hstored : stub.state id = some bytes)
    (hdec : Authorization.unmarshal bytes Authorization.zero = some a)
    (hid : a.ID = id)
    (_hs : a.State = AUTHORIZATION_STATE_CREATED)
    (h : Invoke stub f (id :: rest) = (Outcome.ok p, stub1)) :
    p.isSome = true ∧ stub1.state id = p
      ∧ Query stub1 (goString "get_details") [id] = (Outcome.ok p, stub1) := by
  subst hid
  obtain ⟨id1, rest1, a1, hargs, hget, hdec1, _, hp, hstub, hst⟩ :=
    Invoke_transition_ok stub stub1 f (a.ID :: rest) p hf h
  simp only [List.cons.injEq] at hargs
  obtain ⟨rfl, _⟩ := hargs
  rw [hstored] at hdec1
  have ha : a1 = a := Option.some.inj (hdec1.symm.trans hdec)
  subst ha
  subst hp
  have hget1 : stub1.getFails a1.ID = false := by rw [hstub, PutState_getFails]; exact hget
  refine ⟨rfl, hst, ?_⟩
  simp [Query, get_details, GetState, hget1, hst]

/-- Witness for C20: `approve` on `authorization0` on the ledger left by
`Init`. -/
theorem invoke_returns_stored_bytes_witness :
    (some (Authorization.marshal
        { authorization0 with State := AUTHORIZATION_STATE_APPROVED })).isSome = true
      ∧ (Invoke initStub (goString "approve") [goString "authorization0"]).2.state
          (goString "authorization0")
        = some (Authorization.marshal
            { authorization0 with State := AUTHORIZATION_STATE_APPROVED })
      ∧ Query (Invoke initStub (goString "approve") [goString "authorization0"]).2
          (goString "get_details") [goString "authorization0"]
        = (Outcome.ok (some (Authorization.marshal
            { authorization0 with State := AUTHORIZATION_STATE_APPROVED })),
            (Invoke initStub (goString "approve") [goString "authorization0"]).2) :=
  invoke_returns_stored_bytes initStub
    (Invoke initStub (goString "approve") [goString "authorization0"]).2 (goString "approve")
    (goString "authorization0") (Authorization.marshal authorization0) [] authorization0
    (some (Authorization.marshal { authorization0 with State := AUTHORIZATION_STATE_APPROVED }))
    (by decide) (by decide!) (by decide!) rfl rfl (outcome_pair _ _ (by decide!))

end MiFull

namespace MiTest

/-! ## C19: `create_request` never creates a record -/

/-- C19: in `mi.test`, the text `create_request` builds by hand is not
decodable into a Request, so for every ledger, caller and caller affiliation
`create_request` returns the error `Invalid JSON object` and leaves the
ledger as it is; consequently no sequence of `Invoke("create_request", ...)`
calls changes the ledger. -/
theorem create_request_never_creates :
    Request.unmarshal
        (goString "\x7b\"ID\":\"UNDEFINED\", \"DIN\":0, \"State\":\"UNDEFINED\", \x7d")
        Request.zero = none
      ∧ (∀ (stub : Stub) (caller caller_affiliation : Bytes),
        create_request stub caller caller_affiliation
          = (Outcome.error (goString "Invalid JSON object"), stub))
      ∧ (∀ (stub : Stub) (args : List Bytes),
        (Invoke stub (goString "create_request") args).2 = stub)
      ∧ (∀ (stub : Stub) (calls : List (List Bytes)),
        calls.foldl (fun s args => (Invoke s (goString "create_request") args).2) stub
          = stub) := by
  have h0 : Request.unmarshal
      (goString "\x7b\"ID\":\"UNDEFINED\", \"DIN\":0, \"State\":\"UNDEFINED\", \x7d")
      Request.zero = none := by decide!
  have hm : matchV5cID (goString "aa1234567") = true := by decide!
  have h1 : ∀ (stub : Stub) (caller caller_affiliation : Bytes),
      create_request stub caller caller_affiliation
        = (Outcome.error (goString "Invalid JSON object"), stub) := by
    intro stub caller aff
    have h0a : Request.unmarshal
        (goString "\x7b" ++ goString "\"ID\":\"UNDEFINED\", " ++ goString "\"DIN\":0, "
          ++ goString "\"State\":\"UNDEFINED\", " ++ goString "\x7d") Request.zero = none := by
      decide!
    simp only [create_request, hm, h0a]
    rfl
  have h2 : ∀ (stub : Stub) (args : List Bytes),
      (Invoke stub (goString "create_request") args).2 = stub := by
    intro stub args
    unfold Invoke
    by_cases hc : (get_caller_data stub).2.2.isSome = true
    · simp only [hc, if_true]
    · simp [hc, h1]
  refine ⟨h0, h1, h2, ?_⟩
  intro stub calls
  induction calls generalizing stub with
  | nil => rfl
  | cons c cs ih => rw [List.foldl_cons, h2, ih]

end MiTest

namespace MiFull

/-! ## C14: `submit` on a stored Prescription -/

/-- C14 (amended claim): in `mi.full`, for every Prescription `p` in state
Prescribed whose id and patientID are valid UTF-8, stored under its id on a
ledger that reports no error: `submit` on the id succeeds and the record
persisted under it is the encoding of the Authorization with the same id and
patientID, empty prescriptionID, insurerID and doctorID, and state 1. Read
as a Prescription it has the same id and patientID and state Submitted, but an
empty DIN. A second `submit` returns an error and leaves the ledger
unchanged. -/
theorem submit_prescription (stub : Stub) (p : Prescription)
    (hs : p.State = MEDICATION_STATE_PRESCRIBED)
    (hid : validUTF8 p.ID = true) (hpat : validUTF8 p.PatientID = true)
    (hget : stub.getFails p.ID = false)
    (hstored : stub.state p.ID = some (Prescription.marshal p))
    (hput : stub.putFails p.ID
      (Authorization.marshal ⟨p.ID, [], p.PatientID, [], [], AUTHORIZATION_STATE_APPROVED⟩)
        = false) :
    (Invoke stub (goString "submit") [p.ID]).1
        = Outcome.ok (some (Authorization.marshal
            ⟨p.ID, [], p.PatientID, [], [], AUTHORIZATION_STATE_APPROVED⟩))
      ∧ (Invoke stub (goString "submit") [p.ID]).2.state p.ID
        = some (Authorization.marshal
            ⟨p.ID, [], p.PatientID, [], [], AUTHORIZATION_STATE_APPROVED⟩)
      ∧ Prescription.unmarshal
          (Authorization.marshal ⟨p.ID, [], p.PatientID, [], [], AUTHORIZATION_STATE_APPROVED⟩)
          Prescription.zero
        = some ⟨p.ID, p.PatientID, [], MEDICATION_STATE_SUBMITTED⟩
      ∧ Invoke (Invoke stub (goString "submit") [p.ID]).2 (goString "submit") [p.ID]
        = (Outcome.error (goString "Review failed. approve_authorization. "),
            (Invoke stub (goString "submit") [p.ID]).2) := by
  have hf : goString "submit" ≠ goString "create_authorization" := by decide
  have hi : isInt64 p.State := by rw [hs]; decide
  have hdec := authorization_unmarshal_prescription p hi
  rw [coerceUTF8_valid _ hid, coerceUTF8_valid _ hpat, hs] at hdec
  have h1 := Invoke_transition_created stub (goString "submit") p.ID _ _ [] hf hget hstored
    hdec rfl hput
  have hput1 := PutState_ok_of_not_fails _ _ _ hput
  have hback : Authorization.unmarshal
      (Authorization.marshal ⟨p.ID, [], p.PatientID, [], [], AUTHORIZATION_STATE_APPROVED⟩)
      Authorization.zero
      = some ⟨p.ID, [], p.PatientID, [], [], AUTHORIZATION_STATE_APPROVED⟩ := by
    have := authorization_unmarshal_marshal_any
      ⟨p.ID, [], p.PatientID, [], [], AUTHORIZATION_STATE_APPROVED⟩ Authorization.zero
      (show isInt64 (1 : Int) by decide)
    simp only [coerceUTF8_valid _ hid, coerceUTF8_valid _ hpat] at this
    exact this
  have hpres : Prescription.unmarshal
      (Authorization.marshal ⟨p.ID, [], p.PatientID, [], [], AUTHORIZATION_STATE_APPROVED⟩)
      Prescription.zero
      = some ⟨p.ID, p.PatientID, [], MEDICATION_STATE_SUBMITTED⟩ := by
    have := prescription_unmarshal_authorization
      ⟨p.ID, [], p.PatientID, [], [], AUTHORIZATION_STATE_APPROVED⟩
      (show isInt64 (1 : Int) by decide)
    simp only [coerceUTF8_valid _ hid, coerceUTF8_valid _ hpat] at this
    exact this
  rw [h1]
  refine ⟨rfl, PutState_ok_state _ _ _ hput1, hpres, ?_⟩
  exact Invoke_transition_not_created _ (goString "submit") p.ID _ _ [] hf
    (by rw [PutState_getFails]; exact hget) (PutState_ok_state _ _ _ hput1) hback
    (show (1 : Int) ≠ 0 by decide)

/-- Witness for C14: the Prescription `rx1` of Scenario A. -/
theorem submit_prescription_witness :
    (Invoke rx1Stub (goString "submit") [rx1.ID]).1
        = Outcome.ok (some (Authorization.marshal
            ⟨rx1.ID, [], rx1.PatientID, [], [], AUTHORIZATION_STATE_APPROVED⟩))
      ∧ (Invoke rx1Stub (goString "submit") [rx1.ID]).2.state rx1.ID
        = some (Authorization.marshal
            ⟨rx1.ID, [], rx1.PatientID, [], [], AUTHORIZATION_STATE_APPROVED⟩)
      ∧ Prescription.unmarshal
          (Authorization.marshal
            ⟨rx1.ID, [], rx1.PatientID, [], [], AUTHORIZATION_STATE_APPROVED⟩)
          Prescription.zero
        = some ⟨rx1.ID, rx1.PatientID, [], MEDICATION_STATE_SUBMITTED⟩
      ∧ Invoke (Invoke rx1Stub (goString "submit") [rx1.ID]).2 (goString "submit") [rx1.ID]
        = (Outcome.error (goString "Review failed. approve_authorization. "),
            (Invoke rx1Stub (goString "submit") [rx1.ID]).2) :=
  submit_prescription rx1Stub rx1 rfl (by decide!) (by decide!) rfl (by decide!) rfl

/-- C14 (counterexample): with the Prescription `rx1` of Scenario A stored
under `rx1`, `submit` succeeds, but the record persisted under `rx1` is not
the encoding of the same Prescription in state Submitted: read as a
Prescription, its DIN is empty instead of `D1`. -/
theorem submit_loses_DIN_counterexample :
    rx1Stub.state (goString "rx1")
        = some (Prescription.marshal
            ⟨goString "rx1", goString "p1", goString "D1", MEDICATION_STATE_PRESCRIBED⟩)
      ∧ (∃ b, (Invoke rx1Stub (goString "submit") [goString "rx1"]).1 = Outcome.ok (some b))
      ∧ (Invoke rx1Stub (goString "submit") [goString "rx1"]).2.state (goString "rx1")
        ≠ some (Prescription.marshal
            ⟨goString "rx1", goString "p1", goString "D1", MEDICATION_STATE_SUBMITTED⟩)
      ∧ Prescription.unmarshal
          (stringOf ((Invoke rx1Stub (goString "submit") [goString "rx1"]).2.state
            (goString "rx1")))
          Prescription.zero
        = some ⟨goString "rx1", goString "p1", [], MEDICATION_STATE_SUBMITTED⟩ := by
  refine ⟨by decide!, ⟨_, (by decide! :
      (Invoke rx1Stub (goString "submit") [goString "rx1"]).1
        = Outcome.ok (some (Authorization.marshal
            ⟨goString "rx1", [], goString "p1", [], [], AUTHORIZATION_STATE_APPROVED⟩)))⟩,
    by decide!, by decide!⟩

/-! ## C18: `Invoke` on a stored Patient -/

/-- C18 (amended claim): in `mi.full`, `Invoke` does not check the kind of
the record it loads. For every key `k` whose stored bytes are the encoding of
a Patient `p` with `p.ID = k` and with valid UTF-8 in its three fields, on a
ledger that reports no read error for `k` and accepts the write,
`Invoke(f, [k])` with any `f` other than `create_authorization` succeeds and
replaces the value under `k` with the encoding of the Authorization with
p's ID, insurerID and doctorID, empty prescriptionID and patientID, and
state Approved; no other key changes. -/
theorem invoke_approves_patient (stub : Stub) (f k : Bytes) (p : Patient)
    (hf : f ≠ goString "create_authorization")
    (hk : p.ID = k)
    (hid : validUTF8 p.ID = true) (hins : validUTF8 p.InsurerID = true)
    (hdoc : validUTF8 p.DoctorID = true)
    (hget : stub.getFails k = false)
    (hstored : stub.state k = some (Patient.marshal p))
    (hput : stub.putFails k
      (Authorization.marshal
        ⟨p.ID, [], [], p.InsurerID, p.DoctorID, AUTHORIZATION_STATE_APPROVED⟩) = false) :
    (Invoke stub f [k]).1
        = Outcome.ok (some (Authorization.marshal
            ⟨p.ID, [], [], p.InsurerID, p.DoctorID, AUTHORIZATION_STATE_APPROVED⟩))
      ∧ (Invoke stub f [k]).2.state k
        = some (Authorization.marshal
            ⟨p.ID, [], [], p.InsurerID, p.DoctorID, AUTHORIZATION_STATE_APPROVED⟩)
      ∧ ∀ k1 : Bytes, k1 ≠ k → (Invoke stub f [k]).2.state k1 = stub.state k1 := by
  subst hk
  have hdec := authorization_unmarshal_patient p
  rw [coerceUTF8_valid _ hid, coerceUTF8_valid _ hins, coerceUTF8_valid _ hdoc] at hdec
  have h1 := Invoke_transition_created stub f p.ID _ _ [] hf hget hstored hdec rfl hput
  rw [h1]
  exact ⟨rfl, PutState_ok_state _ _ _ (PutState_ok_of_not_fails _ _ _ hput),
    fun k1 hk1 => PutState_state_other _ _ _ _ hk1⟩

/-- Witness for C18: `reject` on `patient0` on the ledger left by `Init`. -/
theorem invoke_approves_patient_witness :
    (Invoke initStub (goString "reject") [goString "patient0"]).1
        = Outcome.ok (some (Authorization.marshal
            ⟨goString "patient0", [], [], goString "insurer0", goString "doctor0",
              AUTHORIZATION_STATE_APPROVED⟩))
      ∧ (Invoke initStub (goString "reject") [goString "patient0"]).2.state
          (goString "patient0")
        = some (Authorization.marshal
            ⟨goString "patient0", [], [], goString "insurer0", goString "doctor0",
              AUTHORIZATION_STATE_APPROVED⟩)
      ∧ ∀ k1 : Bytes, k1 ≠ goString "patient0" →
        (Invoke initStub (goString "reject") [goString "patient0"]).2.state k1
          = initStub.state k1 :=
  invoke_approves_patient initStub (goString "reject") (goString "patient0")
    ⟨goString "patient0", goString "insurer0", goString "doctor0"⟩ (by decide) rfl
    (by decide!) (by decide!) (by decide!) rfl (by decide!) rfl

/-- C18 (counterexample): the key `[0xFF]` holds the encoding of the Patient
whose ID is that octet; `Invoke("approve", [k])` succeeds but leaves the
value under the key as it was, writing under the key `EF BF BD` instead. And
on the ledger left by `Init` whose writes report an error,
`Invoke("approve", ["patient0"])` does not succeed. -/
theorem invoke_patient_counterexample :
    badPatientStub.state [0xFF]
        = some (Patient.marshal ⟨[0xFF], goString "insurer0", goString "doctor0"⟩)
      ∧ (∃ b, (Invoke badPatientStub (goString "approve") [[0xFF]]).1 = Outcome.ok (some b))
      ∧ (Invoke badPatientStub (goString "approve") [[0xFF]]).2.state [0xFF]
        = badPatientStub.state [0xFF]
      ∧ (Invoke badPatientStub (goString "approve") [[0xFF]]).2.state [0xFF]
        ≠ some (Authorization.marshal
            ⟨[0xFF], [], [], goString "insurer0", goString "doctor0",
              AUTHORIZATION_STATE_APPROVED⟩)
      ∧ (Invoke badPatientStub (goString "approve") [[0xFF]]).2.state [0xEF, 0xBF, 0xBD]
        = some (Authorization.marshal
            ⟨[0xEF, 0xBF, 0xBD], [], [], goString "insurer0", goString "doctor0",
              AUTHORIZATION_STATE_APPROVED⟩)
      ∧ writeFailingInitStub.state (goString "patient0")
        = some (Patient.marshal ⟨goString "patient0", goString "insurer0", goString "doctor0"⟩)
      ∧ (Invoke writeFailingInitStub (goString "approve") [goString "patient0"]).1
        = Outcome.error (goString "Error saving changes") := by
  refine ⟨by decide!, ⟨_, (by decide! :
      (Invoke badPatientStub (goString "approve") [[0xFF]]).1
        = Outcome.ok (some (Authorization.marshal
            ⟨[0xEF, 0xBF, 0xBD], [], [], goString "insurer0", goString "doctor0",
              AUTHORIZATION_STATE_APPROVED⟩)))⟩,
    by decide!, by decide!, by decide!, by decide!, by decide!⟩

end MiFull


/-! ## Properties of every stored value -/

/-- A property of all stored values survives a write of a value that has it. -/
theorem PutState_forall (P : Bytes → Bytes → Prop) (s : Stub) (k v : Bytes)
    (hs : ∀ k1 b, s.state k1 = some b → P k1 b) (hv : P k v) :
    ∀ k1 b, (PutState s k v).2.state k1 = some b → P k1 b := by
  intro k1 b h
  unfold PutState at h
  split_ifs at h with hf
  · exact hs k1 b h
  · simp only at h
    split_ifs at h with hk
    · subst hk
      rw [← Option.some.inj h]
      exact hv
    · exact hs k1 b h

namespace MiFull

theorem unmarshal_nil : Authorization.unmarshal [] Authorization.zero = none := by decide!

theorem save_changes_forall (P : Bytes → Bytes → Prop) (s : Stub) (e : Entry) (k : Bytes)
    (hs : ∀ k1 b, s.state k1 = some b → P k1 b) (hv : P k (jsonMarshal e)) :
    ∀ k1 b, (save_changes s e k).2.state k1 = some b → P k1 b := by
  rw [save_changes_stub]
  exact PutState_forall P s k _ hs hv

theorem save_changes_getFails (s : Stub) (e : Entry) (k : Bytes) :
    (save_changes s e k).2.getFails = s.getFails := by
  rw [save_changes_stub, PutState_getFails]

/-- A property of all stored values survives `Init` when the three records
of `Init` have it. -/
theorem Init_forall (P : Bytes → Bytes → Prop) (s : Stub) (f : Bytes) (args : List Bytes)
    (hs : ∀ k b, s.state k = some b → P k b)
    (h1 : P (goString "patient0") (Patient.marshal patient0))
    (h2 : P (goString "prescription0") (Prescription.marshal prescription0))
    (h3 : P (goString "authorization0") (Authorization.marshal authorization0)) :
    ∀ k b, (Init s f args).2.state k = some b → P k b := by
  have a1 := save_changes_forall P s (Entry.patient patient0) (goString "patient0") hs h1
  have a2 := save_changes_forall P _ (Entry.prescription prescription0)
    (goString "prescription0") a1 h2
  have a3 := save_changes_forall P _ (Entry.authorization authorization0)
    (goString "authorization0") a2 h3
  unfold Init
  simp only
  split_ifs
  · exact a1
  · exact a2
  · exact a3
  · exact a3

theorem Init_getFails (s : Stub) (f : Bytes) (args : List Bytes) :
    (Init s f args).2.getFails = s.getFails := by
  unfold Init
  simp only
  split_ifs <;> simp only [save_changes_getFails]

/-- The ledger after `Invoke`: unchanged, or with the record of
`create_authorization` written under `args[0]`, or with the approved form of
the record loaded from `args[0]` written under the ID of that record. -/
theorem Invoke_cases (s : Stub) (f : Bytes) (args : List Bytes) :
    (Invoke s f args).2 = s
      ∨ (∃ (id : Bytes) (rest : List Bytes), args = id :: rest
        ∧ (s.getFails id = true ∨ s.state id = none)
        ∧ (Invoke s f args).2 = (PutState s id (createdRecord id)).2)
      ∨ (∃ (id : Bytes) (rest : List Bytes) (a : Authorization), args = id :: rest
        ∧ s.getFails id = false
        ∧ Authorization.unmarshal (stringOf (s.state id)) Authorization.zero = some a
        ∧ a.State = AUTHORIZATION_STATE_CREATED
        ∧ (Invoke s f args).2
          = (PutState s a.ID
              (Authorization.marshal { a with State := AUTHORIZATION_STATE_APPROVED })).2) := by
  rcases h : Invoke s f args with ⟨o, s1⟩
  cases o with
  | error msg => exact Or.inl (Invoke_error s s1 f args msg h)
  | panic =>
    left
    by_cases hf : f = goString "create_authorization"
    · subst hf
      cases args with
      | nil =>
        simp only [Invoke, if_true, create_authorization, Prod.mk.injEq] at h
        exact h.2.symm
      | cons id rest =>
        simp only [Invoke, if_true, create_authorization] at h
        split_ifs at h <;> simp at h
    · cases args with
      | nil =>
        simp only [Invoke, if_neg hf, Prod.mk.injEq] at h
        exact h.2.symm
      | cons id rest =>
        rw [Invoke_transition s f id rest hf] at h
        split_ifs at h
        · simp at h
        · split at h
          · simp at h
          · rename_i a _
            by_cases hs : a.State = AUTHORIZATION_STATE_CREATED
            · cases hput : s.putFails a.ID
                  (Authorization.marshal { a with State := AUTHORIZATION_STATE_APPROVED }) with
              | false =>
                rw [approve_authorization_created s a hs hput] at h
                simp at h
              | true =>
                rw [approve_authorization_put_fails s a hs hput] at h
                simp at h
            · rw [approve_authorization_not_created s a hs] at h
              simp at h
  | ok p =>
    right
    by_cases hf : f = goString "create_authorization"
    · left
      subst hf
      cases args with
      | nil => simp [Invoke, create_authorization] at h
      | cons id rest =>
        have hc : create_authorization s (id :: rest) = (Outcome.ok p, s1) := by
          simpa [Invoke] using h
        obtain ⟨_, hs1, _⟩ := create_authorization_ok s s1 id rest p hc
        refine ⟨id, rest, rfl, ?_, hs1⟩
        simp only [create_authorization, GetState] at hc
        by_cases hg : s.getFails id = true
        · exact Or.inl hg
        · right
          simp only [hg] at hc
          cases hst : s.state id with
          | none => rfl
          | some b => simp [hst] at hc
    · right
      obtain ⟨id, rest, a, hargs, hget, hdec, hst, _, hs1, _⟩ :=
        Invoke_transition_ok s s1 f args p hf h
      exact ⟨id, rest, a, hargs, hget, hdec, hst, hs1⟩

theorem Invoke_getFails (s : Stub) (f : Bytes) (args : List Bytes) :
    (Invoke s f args).2.getFails = s.getFails := by
  rcases Invoke_cases s f args with h | ⟨_, _, _, _, h⟩ | ⟨_, _, _, _, _, _, _, h⟩
  · rw [h]
  · rw [h, PutState_getFails]
  · rw [h, PutState_getFails]

/-- A property of all stored values survives `Invoke` when every encoding of
an Authorization in state Created or Approved has it under the ID of that
Authorization. -/
theorem Invoke_forall (P : Bytes → Bytes → Prop) (s : Stub) (f : Bytes) (args : List Bytes)
    (hs : ∀ k b, s.state k = some b → P k b)
    (hP : ∀ a : Authorization, isInt64 a.State → P a.ID (Authorization.marshal a)) :
    ∀ k b, (Invoke s f args).2.state k = some b → P k b := by
  rcases Invoke_cases s f args with h | ⟨id, _, _, _, h⟩ | ⟨_, _, a, _, _, _, _, h⟩
  · rw [h]
    exact hs
  · rw [h]
    exact PutState_forall P s id _ hs
      (hP { Authorization.zero with ID := id } (show isInt64 (0 : Int) by decide))
  · rw [h]
    exact PutState_forall P s a.ID _ hs
      (hP { a with State := AUTHORIZATION_STATE_APPROVED } (show isInt64 (1 : Int) by decide))

theorem runInvokes_forall (P : Bytes → Bytes → Prop)
    (hP : ∀ a : Authorization, isInt64 a.State → P a.ID (Authorization.marshal a))
    (calls : List (Bytes × List Bytes)) :
    ∀ s : Stub, (∀ k b, s.state k = some b → P k b) →
      ∀ k b, (runInvokes s calls).state k = some b → P k b := by
  induction calls with
  | nil => exact fun s hs => hs
  | cons c cs ih =>
    intro s hs
    exact ih _ (Invoke_forall P s c.1 c.2 hs hP)

theorem runInvokes_getFails (calls : List (Bytes × List Bytes)) :
    ∀ s : Stub, (runInvokes s calls).getFails = s.getFails := by
  induction calls with
  | nil => exact fun s => rfl
  | cons c cs ih =>
    intro s
    exact (ih _).trans (Invoke_getFails s c.1 c.2)

/-- The encoding of an Authorization carries a `state` member. -/
theorem hasStateField_marshal (a : Authorization) :
    hasStateField (Authorization.marshal a) = true := by
  have hn := field_names_valid
  have hf := authorization_fields
  have hm : Authorization.marshal a
      = jsonObject (List.map (fun f : String × Bytes × JTok => member f.1 f.2.1)
          [("ID", encodeString a.ID, JTok.string (coerceUTF8 a.ID)),
            ("prescriptionID", encodeString a.PrescriptionID,
              JTok.string (coerceUTF8 a.PrescriptionID)),
            ("patientID", encodeString a.PatientID, JTok.string (coerceUTF8 a.PatientID)),
            ("insurerID", encodeString a.InsurerID, JTok.string (coerceUTF8 a.InsurerID)),
            ("doctorID", encodeString a.DoctorID, JTok.string (coerceUTF8 a.DoctorID)),
            ("state", formatInt a.State, JTok.number (formatInt a.State))]) := rfl
  unfold hasStateField
  rw [hm, scanTop_jsonObject _ (List.cons_ne_nil _ _)]
  · simp only [List.map_cons, List.map_nil, List.any_cons, hf.2.2.2.2.2, decide_True,
      Bool.or_true, Bool.true_or]
  · intro f hfm
    simp only [List.mem_cons, List.mem_singleton, List.mem_nil_iff, or_false] at hfm
    rcases hfm with h | h | h | h | h | h <;> subst h
    · exact ⟨hn.1, readsAs_encodeString_any _⟩
    · exact ⟨hn.2.1, readsAs_encodeString_any _⟩
    · exact ⟨hn.2.2.1, readsAs_encodeString_any _⟩
    · exact ⟨hn.2.2.2.1, readsAs_encodeString_any _⟩
    · exact ⟨hn.2.2.2.2.1, readsAs_encodeString_any _⟩
    · exact ⟨hn.2.2.2.2.2.1, readsAs_formatInt _⟩

end MiFull

namespace MiFull

/-! ## C17: entries are keyed by the identity of their record -/

theorem keyedByIdentity_marshal (a : Authorization) (h : isInt64 a.State) :
    KeyedByIdentity a.ID (Authorization.marshal a) :=
  ⟨_, authorization_unmarshal_marshal_any a _ h, rfl, Or.inl (hasStateField_marshal a)⟩

/-- C17 (amended claim): in `mi.full`, every ledger reachable from `Init` on
an empty ledger by any sequence of `Invoke` calls satisfies: for every key
`k` with a stored value, the value decodes (as `Invoke` decodes it) to a
record whose ID field is `k` coerced to valid UTF-8, hence `k` itself when
`k` is valid UTF-8, and the value carries an explicit `state` member unless
it is the Patient record that `Init` stored under `patient0`. -/
theorem reachable_store_keyed (stub0 : Stub) (f0 : Bytes) (args0 : List Bytes)
    (calls : List (Bytes × List Bytes)) (k b : Bytes)
    (hempty : ∀ k1, stub0.state k1 = none)
    (hstored : (runInvokes (Init stub0 f0 args0).2 calls).state k = some b) :
    ∃ a : Authorization,
      Authorization.unmarshal b Authorization.zero = some a
        ∧ a.ID = coerceUTF8 k
        ∧ (validUTF8 k = true → a.ID = k)
        ∧ (hasStateField b = true ∨ (k = goString "patient0" ∧ b = Patient.marshal patient0)) := by
  have h0 : ∀ k1 b1, stub0.state k1 = some b1 → KeyedByIdentity k1 b1 := by
    intro k1 b1 h
    rw [hempty] at h
    exact absurd h (by simp)
  have h1 : KeyedByIdentity (goString "patient0") (Patient.marshal patient0) :=
    ⟨_, authorization_unmarshal_patient patient0, by decide!, Or.inr ⟨rfl, rfl⟩⟩
  have h2 : KeyedByIdentity (goString "prescription0") (Prescription.marshal prescription0) :=
    ⟨_, authorization_unmarshal_prescription prescription0 (show isInt64 (1 : Int) by decide),
      by decide!, Or.inl (by decide!)⟩
  have h3 : KeyedByIdentity (goString "authorization0") (Authorization.marshal authorization0) :=
    keyedByIdentity_marshal authorization0 (show isInt64 (0 : Int) by decide)
  obtain ⟨a, hdec, hid, hst⟩ := runInvokes_forall KeyedByIdentity keyedByIdentity_marshal calls _
    (Init_forall KeyedByIdentity stub0 f0 args0 h0 h1 h2 h3) k b hstored
  exact ⟨a, hdec, hid, fun hv => by rw [hid, coerceUTF8_valid k hv], hst⟩

/-- Witness for C17: the value under `auth1` after `Init`, a create and an
approve. -/
theorem reachable_store_keyed_witness :
    ∃ a : Authorization,
      Authorization.unmarshal (Authorization.marshal ⟨goString "auth1", [], [], [], [], 1⟩)
          Authorization.zero = some a
        ∧ a.ID = coerceUTF8 (goString "auth1")
        ∧ (validUTF8 (goString "auth1") = true → a.ID = goString "auth1")
        ∧ (hasStateField (Authorization.marshal ⟨goString "auth1", [], [], [], [], 1⟩) = true
          ∨ (goString "auth1" = goString "patient0"
            ∧ Authorization.marshal ⟨goString "auth1", [], [], [], [], 1⟩
              = Patient.marshal patient0)) :=
  reachable_store_keyed emptyStub [] []
    [(goString "create_authorization", [goString "auth1"]),
      (goString "approve", [goString "auth1"])]
    (goString "auth1") (Authorization.marshal ⟨goString "auth1", [], [], [], [], 1⟩)
    (fun _ => rfl) (by decide!)

/-- C17 (counterexample): right after `Init` the value under `patient0`
carries no `state` member; and after `create_authorization` with the id
`[0xFF]` the value under that key decodes to a record whose ID is
`EF BF BD`, not the key. -/
theorem store_keyed_counterexample :
    initStub.state (goString "patient0") = some (Patient.marshal patient0)
      ∧ hasStateField (Patient.marshal patient0) = false
      ∧ Patient.unmarshal (Patient.marshal patient0) Patient.zero = some patient0
      ∧ (runInvokes initStub [(goString "create_authorization", [[0xFF]])]).state [0xFF]
        = some (Authorization.marshal ⟨[0xFF], [], [], [], [], AUTHORIZATION_STATE_CREATED⟩)
      ∧ Authorization.unmarshal
          (Authorization.marshal ⟨[0xFF], [], [], [], [], AUTHORIZATION_STATE_CREATED⟩)
          Authorization.zero
        = some ⟨[0xEF, 0xBF, 0xBD], [], [], [], [], AUTHORIZATION_STATE_CREATED⟩ := by
  decide!

end MiFull

namespace MiFull

/-! ## C16: a stored value changes at most once -/

theorem storedState_some (b : Bytes) (a : Authorization)
    (h : Authorization.unmarshal b Authorization.zero = some a) :
    storedState (some b) = some a.State := by
  simp [storedState, h]

theorem unmarshal_createdRecord (k : Bytes) :
    Authorization.unmarshal (createdRecord k) Authorization.zero
      = some ⟨coerceUTF8 k, [], [], [], [], AUTHORIZATION_STATE_CREATED⟩ :=
  authorization_unmarshal_marshal_any { Authorization.zero with ID := k } _
    (show isInt64 (0 : Int) by decide)

theorem unmarshal_approvedRecord (k : Bytes) :
    Authorization.unmarshal (approvedRecord k) Authorization.zero
      = some ⟨coerceUTF8 k, [], [], [], [], AUTHORIZATION_STATE_APPROVED⟩ :=
  authorization_unmarshal_marshal_any ⟨k, [], [], [], [], AUTHORIZATION_STATE_APPROVED⟩ _
    (show isInt64 (1 : Int) by decide)

/-- The keys of `Init` are plain ASCII: only they themselves coerce to
them. -/
theorem init_key_of_coerce (id k : Bytes)
    (hk : k = goString "patient0" ∨ k = goString "prescription0"
      ∨ k = goString "authorization0")
    (h : coerceUTF8 id = k) : id = k := by
  apply coerceUTF8_ascii id k _ h
  rcases hk with rfl | rfl | rfl <;> decide!

/-- What the decode of `Invoke` finds in a value a reachable ledger holds
under `id`, when it finds state Created: the ID is `id` coerced, the approved
form is again a value of a reachable ledger, and it is `approvedRecord`
unless `id` is a key of `Init`. -/
theorem reachableRecord_created (id b : Bytes) (a : Authorization)
    (hr : ReachableRecord id b)
    (hdec : Authorization.unmarshal b Authorization.zero = some a)
    (hst : a.State = AUTHORIZATION_STATE_CREATED) :
    ReachableRecord a.ID (Authorization.marshal { a with State := AUTHORIZATION_STATE_APPROVED })
      ∧ a.ID = coerceUTF8 id
      ∧ (Authorization.marshal { a with State := AUTHORIZATION_STATE_APPROVED }
          = approvedRecord a.ID
        ∨ coerceUTF8 id = id) := by
  rcases hr with rfl | rfl | ⟨rfl, rfl | rfl⟩ | ⟨rfl, rfl⟩ | ⟨rfl, rfl | rfl⟩
  · rw [unmarshal_createdRecord] at hdec
    rw [← Option.some.inj hdec]
    exact ⟨Or.inr (Or.inl rfl), rfl, Or.inl rfl⟩
  · rw [unmarshal_approvedRecord] at hdec
    rw [← Option.some.inj hdec] at hst
    exact absurd hst (show (1 : Int) ≠ 0 by decide)
  · rw [authorization_unmarshal_patient] at hdec
    rw [← Option.some.inj hdec]
    refine ⟨?_, rfl, Or.inr (by decide!)⟩
    unfold ReachableRecord
    decide!
  · rw [authorization_unmarshal_marshal_any _ _ (show isInt64 (1 : Int) by decide)] at hdec
    rw [← Option.some.inj hdec] at hst
    exact absurd hst (show (1 : Int) ≠ 0 by decide)
  · rw [authorization_unmarshal_prescription _ (show isInt64 (1 : Int) by decide)] at hdec
    rw [← Option.some.inj hdec] at hst
    exact absurd hst (show (1 : Int) ≠ 0 by decide)
  · rw [authorization_unmarshal_marshal_any _ _ (show isInt64 (0 : Int) by decide)] at hdec
    rw [← Option.some.inj hdec]
    refine ⟨?_, rfl, Or.inr (by decide!)⟩
    unfold ReachableRecord
    decide!
  · rw [authorization_unmarshal_marshal_any _ _ (show isInt64 (1 : Int) by decide)] at hdec
    rw [← Option.some.inj hdec] at hst
    exact absurd hst (show (1 : Int) ≠ 0 by decide)

/-- The values of a reachable ledger stay values of a reachable ledger under
`Invoke`. -/
theorem Invoke_reachable (s : Stub) (f : Bytes) (args : List Bytes)
    (hinv : ∀ k b, s.state k = some b → ReachableRecord k b) :
    ∀ k b, (Invoke s f args).2.state k = some b → ReachableRecord k b := by
  rcases Invoke_cases s f args with h | ⟨id, _, _, _, h⟩ | ⟨id, _, a, _, _, hdec, hst, h⟩
  · rw [h]
    exact hinv
  · rw [h]
    exact PutState_forall ReachableRecord s id _ hinv (Or.inl rfl)
  · rw [h]
    cases hs0 : s.state id with
    | none =>
      rw [hs0] at hdec
      exact absurd (unmarshal_nil.symm.trans hdec) (by simp)
    | some b0 =>
      rw [hs0] at hdec
      exact PutState_forall ReachableRecord s a.ID _ hinv
        (reachableRecord_created id b0 a (hinv id b0 hs0) hdec hst).1

/-- One `Invoke` on a reachable ledger whose reads report no error does to
the value under any key only what `StepAllowed` permits. -/
theorem Invoke_step (s : Stub) (f : Bytes) (args : List Bytes) (k : Bytes)
    (hget : ∀ k1, s.getFails k1 = false)
    (hinv : ∀ k1 b, s.state k1 = some b → ReachableRecord k1 b) :
    StepAllowed k s (Invoke s f args).2 := by
  rcases Invoke_cases s f args with h | ⟨id, _, _, hc, h⟩ | ⟨id, _, a, _, _, hdec, hst, h⟩
  · exact Or.inl (by rw [h])
  · rw [h]
    have hnone : s.state id = none := by
      rcases hc with hc | hc
      · rw [hget] at hc
        exact absurd hc (by decide)
      · exact hc
    by_cases hk : k = id
    · subst hk
      exact Or.inr (Or.inl hnone)
    · exact Or.inl (PutState_state_other _ _ _ _ hk)
  · rw [h]
    by_cases hk : k = a.ID
    swap
    · exact Or.inl (PutState_state_other _ _ _ _ hk)
    subst hk
    cases hp : (PutState s a.ID
        (Authorization.marshal { a with State := AUTHORIZATION_STATE_APPROVED })).1 with
    | true => exact Or.inl (by rw [PutState_error_unchanged _ _ _ hp])
    | false =>
      have hnew := PutState_ok_state _ _ _ hp
      have hnew1 : storedState ((PutState s a.ID (Authorization.marshal
          { a with State := AUTHORIZATION_STATE_APPROVED })).2.state a.ID)
          = some AUTHORIZATION_STATE_APPROVED := by
        rw [hnew]
        exact storedState_some _ _ (authorization_unmarshal_marshal_any
          { a with State := AUTHORIZATION_STATE_APPROVED } _ (show isInt64 (1 : Int) by decide))
      cases hs0 : s.state id with
      | none =>
        rw [hs0] at hdec
        exact absurd (unmarshal_nil.symm.trans hdec) (by simp)
      | some b0 =>
        rw [hs0] at hdec
        have hdec0 : Authorization.unmarshal b0 Authorization.zero = some a := hdec
        obtain ⟨_, hid, hor⟩ := reachableRecord_created id b0 a (hinv id b0 hs0) hdec0 hst
        by_cases hsame : id = a.ID
        · right; right
          refine ⟨?_, hnew1⟩
          rw [← hsame, hs0, storedState_some _ _ hdec0, hst]
        · cases hold : s.state a.ID with
          | none => exact Or.inr (Or.inl hold)
          | some bk =>
            rcases hor with hv | hcid
            swap
            · exact absurd (hcid.symm.trans hid.symm) hsame
            have hkey : ∀ K : Bytes, (K = goString "patient0" ∨ K = goString "prescription0"
                ∨ K = goString "authorization0") → a.ID ≠ K := by
              intro K hK hKa
              exact hsame ((init_key_of_coerce id K hK (hid.symm.trans hKa)).trans hKa.symm)
            rcases hinv a.ID bk hold with hb | hb | ⟨hK, _⟩ | ⟨hK, _⟩ | ⟨hK, _⟩
            · right; right
              refine ⟨?_, hnew1⟩
              rw [hold, hb, storedState_some _ _ (unmarshal_createdRecord a.ID)]
            · left
              rw [hnew, hv, hold, hb]
            · exact absurd hK (hkey _ (Or.inl rfl))
            · exact absurd hK (hkey _ (Or.inr (Or.inl rfl)))
            · exact absurd hK (hkey _ (Or.inr (Or.inr rfl)))

end MiFull

namespace MiFull

theorem runInvokes_append (s : Stub) (xs ys : List (Bytes × List Bytes)) :
    runInvokes s (xs ++ ys) = runInvokes (runInvokes s xs) ys := by
  simp [runInvokes, List.foldl_append]

/-- The ledger after `n + 1` calls is the ledger after `n` calls, or one
`Invoke` later. -/
theorem storeAfter_succ (s : Stub) (calls : List (Bytes × List Bytes)) (n : Nat) :
    storeAfter s calls (n + 1) = storeAfter s calls n
      ∨ ∃ c : Bytes × List Bytes,
        storeAfter s calls (n + 1) = (Invoke (storeAfter s calls n) c.1 c.2).2 := by
  unfold storeAfter
  by_cases hn : n < calls.length
  · right
    refine ⟨calls.get ⟨n, hn⟩, ?_⟩
    rw [List.take_succ, runInvokes_append]
    simp [List.getElem?_eq_getElem hn, runInvokes]
  · left
    rw [List.take_of_length_le (by omega), List.take_of_length_le (by omega)]

theorem storeAfter_getFails (s : Stub) (calls : List (Bytes × List Bytes)) (n : Nat) :
    (storeAfter s calls n).getFails = s.getFails :=
  runInvokes_getFails _ s

theorem storeAfter_reachable (s : Stub) (calls : List (Bytes × List Bytes)) (n : Nat)
    (hinv : ∀ k b, s.state k = some b → ReachableRecord k b) :
    ∀ k b, (storeAfter s calls n).state k = some b → ReachableRecord k b := by
  unfold storeAfter
  generalize calls.take n = cs
  induction cs generalizing s with
  | nil => exact hinv
  | cons c cs ih => exact ih _ (Invoke_reachable s c.1 c.2 hinv)

/-- Along a sequence of steps that each obey `StepAllowed`, a value in
state Approved stays as it is. -/
theorem approved_stays (k : Bytes) (t : Nat → Stub)
    (hstep : ∀ n, StepAllowed k (t n) (t (n + 1))) (i : Nat)
    (hi : storedState ((t i).state k) = some AUTHORIZATION_STATE_APPROVED) :
    ∀ d : Nat, (t (i + d)).state k = (t i).state k := by
  intro d
  induction d with
  | zero => rfl
  | succ d ih =>
    rcases hstep (i + d) with h | h | ⟨h, _⟩
    · exact h.trans ih
    · rw [ih] at h
      rw [h] at hi
      exact absurd hi (by simp [storedState])
    · rw [ih, hi] at h
      exact absurd (Option.some.inj h) (show (1 : Int) ≠ 0 by decide)

/-! ### The claim -/

/-- C16 (amended claim): in `mi.full`, on a ledger whose reads report no
error, along every sequence of `Invoke` calls (any function names and
argument lists) starting from the ledger `Init` produces on an empty ledger:
for every key, each step leaves the stored value as it is, or stores a first
value, or replaces a record in state Created by one in state Approved; and
once a value is stored under the key, the stored value changes in at most one
later step. -/
theorem mutated_at_most_once (stub0 : Stub) (f0 : Bytes) (args0 : List Bytes)
    (calls : List (Bytes × List Bytes)) (k : Bytes)
    (hempty : ∀ k1, stub0.state k1 = none)
    (hget : ∀ k1, stub0.getFails k1 = false) :
    (∀ n, StepAllowed k (storeAfter (Init stub0 f0 args0).2 calls n)
        (storeAfter (Init stub0 f0 args0).2 calls (n + 1)))
      ∧ ∀ i j, i < j →
        (storeAfter (Init stub0 f0 args0).2 calls i).state k ≠ none →
        (storeAfter (Init stub0 f0 args0).2 calls (i + 1)).state k
          ≠ (storeAfter (Init stub0 f0 args0).2 calls i).state k →
        (storeAfter (Init stub0 f0 args0).2 calls (j + 1)).state k
          = (storeAfter (Init stub0 f0 args0).2 calls j).state k := by
  have h0 : ∀ k1 b, (Init stub0 f0 args0).2.state k1 = some b → ReachableRecord k1 b := by
    apply Init_forall ReachableRecord stub0 f0 args0
    · intro k1 b h
      rw [hempty] at h
      exact absurd h (by simp)
    · exact Or.inr (Or.inr (Or.inl ⟨rfl, Or.inl rfl⟩))
    · exact Or.inr (Or.inr (Or.inr (Or.inl ⟨rfl, rfl⟩)))
    · exact Or.inr (Or.inr (Or.inr (Or.inr ⟨rfl, Or.inl rfl⟩)))
  have hg : ∀ k1, (Init stub0 f0 args0).2.getFails k1 = false := by
    intro k1
    rw [Init_getFails]
    exact hget k1
  have hstep : ∀ n, StepAllowed k (storeAfter (Init stub0 f0 args0).2 calls n)
      (storeAfter (Init stub0 f0 args0).2 calls (n + 1)) := by
    intro n
    rcases storeAfter_succ (Init stub0 f0 args0).2 calls n with h | ⟨c, h⟩
    · exact Or.inl (by rw [h])
    · rw [h]
      exact Invoke_step _ c.1 c.2 k
        (fun k1 => by rw [storeAfter_getFails]; exact hg k1)
        (storeAfter_reachable _ calls n h0)
  refine ⟨hstep, ?_⟩
  intro i j hij hne hch
  rcases hstep i with h | h | ⟨_, h⟩
  · exact absurd h hch
  · exact absurd h hne
  · have hstay := approved_stays k _ hstep (i + 1) h
    have e1 := hstay (j - (i + 1))
    have e2 := hstay (j + 1 - (i + 1))
    rw [show i + 1 + (j - (i + 1)) = j by omega] at e1
    rw [show i + 1 + (j + 1 - (i + 1)) = j + 1 by omega] at e2
    rw [e1, e2]

/-- Witness for C16: the key `auth1` along the sample run after `Init` on the
empty ledger. -/
theorem mutated_at_most_once_witness :
    StepAllowed (goString "auth1") (storeAfter (Init emptyStub [] []).2 sampleCalls 1)
        (storeAfter (Init emptyStub [] []).2 sampleCalls (1 + 1))
      ∧ (storeAfter (Init emptyStub [] []).2 sampleCalls (2 + 1)).state (goString "auth1")
        = (storeAfter (Init emptyStub [] []).2 sampleCalls 2).state (goString "auth1") :=
  ⟨(mutated_at_most_once emptyStub [] [] sampleCalls (goString "auth1") (fun _ => rfl)
      (fun _ => rfl)).1 1,
    (mutated_at_most_once emptyStub [] [] sampleCalls (goString "auth1") (fun _ => rfl)
      (fun _ => rfl)).2 1 2 (by decide) (by decide!) (by decide!)⟩

/-- C16 (counterexample): on a ledger whose reads report an error, `Init`
succeeds and stores `authorization0`; a following
`Invoke("create_authorization", ["authorization0"])` replaces that stored
value by a different one that is still in state Created, so the change is
not one from Created to a terminal state. -/
theorem create_overwrites_counterexample :
    (Init readFailingStub [] []).1 = Outcome.ok none
      ∧ (storeAfter (Init readFailingStub [] []).2
          [(goString "create_authorization", [goString "authorization0"])] 0).state
          (goString "authorization0")
        = some (Authorization.marshal authorization0)
      ∧ (storeAfter (Init readFailingStub [] []).2
          [(goString "create_authorization", [goString "authorization0"])] 1).state
          (goString "authorization0")
        = some (createdRecord (goString "authorization0"))
      ∧ createdRecord (goString "authorization0") ≠ Authorization.marshal authorization0
      ∧ storedState (some (Authorization.marshal authorization0))
        = some AUTHORIZATION_STATE_CREATED
      ∧ storedState (some (createdRecord (goString "authorization0")))
        = some AUTHORIZATION_STATE_CREATED
      ∧ ¬ StepAllowed (goString "authorization0")
          (storeAfter (Init readFailingStub [] []).2
            [(goString "create_authorization", [goString "authorization0"])] 0)
          (storeAfter (Init readFailingStub [] []).2
            [(goString "create_authorization", [goString "authorization0"])] 1) := by
  refine ⟨by decide!, by decide!, by decide!, by decide!, by decide!, by decide!, ?_⟩
  unfold StepAllowed
  decide!

end MiFull
end Chaincode
